import Mathlib

/-!
# HTTP proxy inbound handler and transports of v2ray-core

A shallow embedding of `proxy/http/server.go`: the hop-by-hop header hygiene
(`StripHopByHopHeaders`), the destination extraction (`parseHost`) and the
per-connection handler (`handleConnection`, `handleConnect`, `handlePlainHTTP`),
together with the Go standard-library functions they call; of `Dial` in
`transport/internet/dialer.go`; of the configuration decoders in
`shell/point/config_json.go` and of `Point.Start` in `shell/point/point.go`; of
the listener in `transport/internet/tcp/hub.go`; of the connection in
`transport/internet/ws/connection.go`; and of `TestConnectionReadWrite` in
`transport/internet/kcp/connection_test.go`, over a KCP connection modelled from
the specification.

Code that acts on its surroundings returns the calls it makes, in program order,
next to its result; a nil pointer is `none`.

Go strings are modelled by Lean strings (sequences of code points); every
delimiter the code looks for is ASCII, so the byte-level and the code-point-level
readings of the library functions agree on valid UTF-8 text.
-/

namespace V2Ray

/-! ## `strings` -/

/-- Go `unicode.IsSpace`: the Latin-1 spaces and the `White_Space` code points. -/
def isSpace (c : Char) : Bool :=
  let n := c.toNat
  n == 0x09 || n == 0x0A || n == 0x0B || n == 0x0C || n == 0x0D || n == 0x20
    || n == 0x85 || n == 0xA0 || n == 0x1680 || (0x2000 ≤ n && n ≤ 0x200A)
    || n == 0x2028 || n == 0x2029 || n == 0x202F || n == 0x205F || n == 0x3000

/-- Worker of `strings.TrimSpace`: drop leading and trailing white space. -/
def trimSpaceChars (s : List Char) : List Char :=
  ((s.dropWhile isSpace).reverse.dropWhile isSpace).reverse

/-- Go `strings.TrimSpace`. -/
def TrimSpace (s : String) : String := ⟨trimSpaceChars s.data⟩

/-- Worker of `strings.Split(s, sep)` for a one-character separator: the pieces
between the separators, `n + 1` pieces for `n` separators. -/
def splitChars (sep : Char) : List Char → List (List Char)
  | [] => [[]]
  | c :: cs =>
    if c = sep then [] :: splitChars sep cs
    else
      match splitChars sep cs with
      | [] => [[c]]
      | w :: ws => (c :: w) :: ws

/-- Go `strings.Split(s, ",")`. -/
def SplitComma (s : String) : List String := (splitChars ',' s.data).map String.mk

/-- ASCII lower-case letter test. -/
def isLowerASCII (c : Char) : Bool := 97 ≤ c.toNat && c.toNat ≤ 122

/-- ASCII upper-case letter test. -/
def isUpperASCII (c : Char) : Bool := 65 ≤ c.toNat && c.toNat ≤ 90

/-- Upper-case an ASCII lower-case letter (`c -= 'a' - 'A'`), other characters unchanged. -/
def upperASCII (c : Char) : Char := if isLowerASCII c then Char.ofNat (c.toNat - 32) else c

/-- Lower-case an ASCII upper-case letter (`c += 'a' - 'A'`), other characters unchanged. -/
def lowerASCII (c : Char) : Char := if isUpperASCII c then Char.ofNat (c.toNat + 32) else c

/-- Go `strings.ToLower`, on ASCII letters. The handler compares the result with
`"https"` only; no code point outside ASCII lower-cases to one of `h t p s`, so
the comparison agrees with the Unicode mapping. -/
def ToLower (s : String) : String := ⟨s.data.map lowerASCII⟩

/-- Go `strings.ToUpper`, on ASCII letters. The handler compares the result with
`"CONNECT"` only; no code point outside ASCII upper-cases to one of `C O N E T`,
so the comparison agrees with the Unicode mapping. -/
def ToUpper (s : String) : String := ⟨s.data.map upperASCII⟩

/-! ## `net/textproto` and `net/http` headers -/

/-- Go `validHeaderFieldByte`: the RFC 7230 token characters. -/
def validHeaderFieldByte (c : Char) : Bool :=
  let n := c.toNat
  (48 ≤ n && n ≤ 57) || (65 ≤ n && n ≤ 90) || (97 ≤ n && n ≤ 122)
    || n == 33 || n == 35 || n == 36 || n == 37 || n == 38 || n == 39 || n == 42
    || n == 43 || n == 45 || n == 46 || n == 94 || n == 95 || n == 96 || n == 124
    || n == 126

/-- The rewriting loop of Go `canonicalMIMEHeaderKey`: upper-case the first letter
and every letter after a dash, lower-case the others. -/
def canonicalLoop : Bool → List Char → List Char
  | _, [] => []
  | upper, c :: cs =>
    let c1 := if upper && isLowerASCII c then upperASCII c
      else if !upper && isUpperASCII c then lowerASCII c else c
    c1 :: canonicalLoop (c1 == '-') cs

/-- Go `textproto.CanonicalMIMEHeaderKey`: a key holding a byte that is not a
token character is returned unchanged, any other key is canonicalised. -/
def CanonicalMIMEHeaderKey (s : String) : String :=
  if s.data.all validHeaderFieldByte then ⟨canonicalLoop true s.data⟩ else s

/-- Go `http.Header`, a `map[string][]string`, as an association list; a key is
looked up at its first entry and deleted at all of them. -/
abbrev Header := List (String × List String)

namespace Header

/-- Map indexing `h[key]`, without canonicalisation. -/
def lookup (key : String) : Header → Option (List String)
  | [] => none
  | (k, v) :: rest => if k = key then some v else lookup key rest

/-- Go `delete(h, key)`. -/
def delete (key : String) (h : Header) : Header := h.filter (fun e => decide (e.1 ≠ key))

/-- Go `Header.Del`: `delete(h, CanonicalMIMEHeaderKey(key))`. -/
def Del (h : Header) (key : String) : Header := delete (CanonicalMIMEHeaderKey key) h

/-- Go `Header.Get`: the first value stored under the canonical key, `""` if none. -/
def Get (h : Header) (key : String) : String :=
  match lookup (CanonicalMIMEHeaderKey key) h with
  | some (v :: _) => v
  | _ => ""

/-- Go `Header.Set`: `h[CanonicalMIMEHeaderKey(key)] = []string{value}`. -/
def Set (h : Header) (key value : String) : Header :=
  (CanonicalMIMEHeaderKey key, [value]) :: delete (CanonicalMIMEHeaderKey key) h

end Header

/-- The fields of Go `http.Request` the handler reads or writes. -/
structure Request where
  Method : String
  URLScheme : String
  URLHost : String
  Host : String
  Header : Header
  deriving DecidableEq, Repr

/-! ## `StripHopByHopHeaders` -/

/-- The header names `StripHopByHopHeaders` deletes unconditionally, in source order. -/
def hopByHopHeaders : List String :=
  ["Proxy-Connection", "Proxy-Authenticate", "Proxy-Authorization", "TE", "Trailers",
    "Transfer-Encoding", "Upgrade"]

/-- The header part of `StripHopByHopHeaders` (server.go, lines 177-199). -/
def stripHeader (h0 : Header) : Header :=
  let h1 := h0.Del "Proxy-Connection"
  let h2 := h1.Del "Proxy-Authenticate"
  let h3 := h2.Del "Proxy-Authorization"
  let h4 := h3.Del "TE"
  let h5 := h4.Del "Trailers"
  let h6 := h5.Del "Transfer-Encoding"
  let h7 := h6.Del "Upgrade"
  let connections := h7.Get "Connection"
  let h8 := h7.Set "Connection" "close"
  if connections.length = 0 then h8
  else (SplitComma connections).foldl (fun h t => h.Del (TrimSpace t)) h8

/-- `StripHopByHopHeaders(request)`: the request after the in-place update. -/
def StripHopByHopHeaders (request : Request) : Request :=
  { request with Header := stripHeader request.Header }

/-- The seven unconditional deletions, as one fold. -/
def delHopByHop (h : Header) : Header := hopByHopHeaders.foldl (fun h n => h.Del n) h

/-- The part of `StripHopByHopHeaders` after the seven deletions (lines 191-198). -/
def stripConnection (h7 : Header) : Header :=
  let connections := h7.Get "Connection"
  let h8 := h7.Set "Connection" "close"
  if connections.length = 0 then h8
  else (SplitComma connections).foldl (fun h t => h.Del (TrimSpace t)) h8

/-! ## `strconv` -/

deriving instance DecidableEq for Except

/-- The error values of Go `strconv`: `ErrSyntax` and `ErrRange`. -/
inductive NumError where
  | ErrSyntax
  | ErrRange
  deriving DecidableEq, Repr

/-- Value of a decimal digit character, `none` for any other character. -/
def digitVal (c : Char) : Option Nat :=
  if 48 ≤ c.toNat ∧ c.toNat ≤ 57 then some (c.toNat - 48) else none

/-- The digit loop of Go `strconv.ParseUint(s, 10, 64)`, started with the
accumulator `n`: a non-digit is a syntax error, a value that no longer fits 64
bits is a range error, whichever comes first. -/
def parseUintLoop : Nat → List Char → Except NumError Nat
  | n, [] => .ok n
  | n, c :: cs =>
    match digitVal c with
    | none => .error .ErrSyntax
    | some v => if 2 ^ 64 ≤ n * 10 + v then .error .ErrRange else parseUintLoop (n * 10 + v) cs

/-- Go `strconv.ParseUint(s, 10, 64)`. -/
def parseUintChars (s : List Char) : Except NumError Nat :=
  if s = [] then .error .ErrSyntax else parseUintLoop 0 s

/-- Worker of `strconv.Atoi` (`ParseInt(s, 10, 0)` with a 64-bit `int`): an
optional sign, then the unsigned digits, then the signed range check. -/
def atoiChars (s : List Char) : Except NumError Int :=
  if s = [] then .error .ErrSyntax
  else
    let neg := s.head? = some '-'
    let body := if s.head? = some '+' ∨ s.head? = some '-' then s.drop 1 else s
    match parseUintChars body with
    | .error e => .error e
    | .ok un =>
      if ¬ neg ∧ 2 ^ 63 ≤ un then .error .ErrRange
      else if neg ∧ 2 ^ 63 < un then .error .ErrRange
      else .ok (if neg then -(un : Int) else (un : Int))

/-- Go `strconv.Atoi`. -/
def Atoi (s : String) : Except NumError Int := atoiChars s.data

/-- Digit character of a value below ten (`byte('0' + val)`). -/
def digitChar (n : Nat) : Char := Char.ofNat (48 + n)

/-- The loop of Go `uitoa`: write the decimal digits of `n` in front of `acc`. -/
def uitoaLoop : Nat → Nat → List Char → List Char
  | 0, _, acc => acc
  | fuel + 1, n, acc =>
    if n < 10 then digitChar n :: acc else uitoaLoop fuel (n / 10) (digitChar (n % 10) :: acc)

/-- Go `uitoa` (also `strconv.Itoa` on a value that is not negative): the decimal
text of `n`, without leading zeros. -/
def uitoaChars (n : Nat) : List Char := uitoaLoop (n + 1) n []

/-- The decimal text of `n` as a string. -/
def uitoa (n : Nat) : String := ⟨uitoaChars n⟩

/-! ## `net` -/

/-- Go `net.AddrError`. -/
structure AddrError where
  Err : String
  Addr : String
  deriving DecidableEq, Repr

/-- Go `strings.Contains` on characters: `sub` occurs in `s`. -/
def containsChars (sub : List Char) : List Char → Bool
  | [] => sub.isEmpty
  | c :: cs => sub.isPrefixOf (c :: cs) || containsChars sub cs

/-- Go `strings.Contains`. -/
def Contains (s sub : String) : Bool := containsChars sub.data s.data

/-- Go `byteIndex(s, c)`: index of the first `c`, `none` for Go's `-1`. -/
def byteIndex : List Char → Char → Option Nat
  | [], _ => none
  | x :: xs, c => if x = c then some 0 else (byteIndex xs c).map (· + 1)

/-- Go `last(s, c)`: index of the last `c`, `none` for Go's `-1`. -/
def last : List Char → Char → Option Nat
  | [], _ => none
  | x :: xs, c =>
    match last xs c with
    | some i => some (i + 1)
    | none => if x = c then some 0 else none

/-- The checks of `SplitHostPort` after the host is found: no `[` from index `j`
on, no `]` from index `k` on; then the port is what follows the last colon. -/
def splitHostPortTail (hostport host : List Char) (i j k : Nat) :
    Except AddrError (List Char × List Char) :=
  if (byteIndex (hostport.drop j) '[').isSome then
    .error ⟨"unexpected '[' in address", ⟨hostport⟩⟩
  else if (byteIndex (hostport.drop k) ']').isSome then
    .error ⟨"unexpected ']' in address", ⟨hostport⟩⟩
  else .ok (host, hostport.drop (i + 1))

/-- Worker of Go `net.SplitHostPort` (the Go 1.7 text, with the `goto` labels
replaced by the errors they build). -/
def splitHostPortChars (hostport : List Char) : Except AddrError (List Char × List Char) :=
  match last hostport ':' with
  | none => .error ⟨"missing port in address", ⟨hostport⟩⟩
  | some i =>
    if hostport.head? = some '[' then
      match byteIndex hostport ']' with
      | none => .error ⟨"missing ']' in address", ⟨hostport⟩⟩
      | some e =>
        if e + 1 = hostport.length then .error ⟨"missing port in address", ⟨hostport⟩⟩
        else if e + 1 = i then
          splitHostPortTail hostport ((hostport.take e).drop 1) i 1 (e + 1)
        else if hostport.get? (e + 1) = some ':' then
          .error ⟨"too many colons in address", ⟨hostport⟩⟩
        else .error ⟨"missing port in address", ⟨hostport⟩⟩
    else
      let host := hostport.take i
      if (byteIndex host ':').isSome then .error ⟨"too many colons in address", ⟨hostport⟩⟩
      else if (byteIndex host '%').isSome then
        .error ⟨"missing brackets in address", ⟨hostport⟩⟩
      else splitHostPortTail hostport host i 0 0

/-- Go `net.SplitHostPort`. -/
def SplitHostPort (hostport : String) : Except AddrError (String × String) :=
  match splitHostPortChars hostport.data with
  | .error e => .error e
  | .ok (host, port) => .ok (⟨host⟩, ⟨port⟩)

/-- Go `dtoi`'s bound on the values it parses. -/
def big : Nat := 0xFFFFFF

/-- The loop of Go `dtoi`: read decimal digits from the front of `s`; the result
is the value, the rest of the text, and whether the value stayed below `big`. -/
def dtoiLoop : Nat → List Char → Nat × List Char × Bool
  | n, [] => (n, [], true)
  | n, c :: cs =>
    match digitVal c with
    | none => (n, c :: cs, true)
    | some v => if big ≤ n * 10 + v then (0, c :: cs, false) else dtoiLoop (n * 10 + v) cs

/-- Go `dtoi(s, i0)` on the text from `i0` on: the value, the text after the
digits, and `ok` (false when there is no digit or the value reaches `big`). -/
def dtoi (s : List Char) : Nat × List Char × Bool :=
  match dtoiLoop 0 s with
  | (n, rest, ok) => if !ok then (0, rest, false) else if rest.length = s.length then (0, rest, false) else (n, rest, true)

/-- Value of a hexadecimal digit character, `none` for any other character. -/
def hexVal (c : Char) : Option Nat :=
  if 48 ≤ c.toNat ∧ c.toNat ≤ 57 then some (c.toNat - 48)
  else if 97 ≤ c.toNat ∧ c.toNat ≤ 102 then some (c.toNat - 97 + 10)
  else if 65 ≤ c.toNat ∧ c.toNat ≤ 70 then some (c.toNat - 65 + 10)
  else none

/-- The loop of Go `xtoi`: as `dtoiLoop`, in base sixteen. -/
def xtoiLoop : Nat → List Char → Nat × List Char × Bool
  | n, [] => (n, [], true)
  | n, c :: cs =>
    match hexVal c with
    | none => (n, c :: cs, true)
    | some v => if big ≤ n * 16 + v then (0, c :: cs, false) else xtoiLoop (n * 16 + v) cs

/-- Go `xtoi(s, i0)` on the text from `i0` on. -/
def xtoi (s : List Char) : Nat × List Char × Bool :=
  match xtoiLoop 0 s with
  | (n, rest, ok) => if !ok then (0, rest, false) else if rest.length = s.length then (0, rest, false) else (n, rest, true)

/-- The first twelve bytes of an IPv4-mapped IPv6 address (Go `v4InV6Prefix`). -/
def v4InV6Prefix : List Nat := [0, 0, 0, 0, 0, 0, 0, 0, 0, 0, 0xff, 0xff]

/-- The loop of Go `parseIPv4` over the octets still to read; `first` holds at
`j = 0`, where no dot is expected. -/
def parseIPv4Loop : Nat → Bool → List Char → Option (List Nat × List Char)
  | 0, _, s => some ([], s)
  | k + 1, first, s =>
    if s = [] then none
    else
      let afterDot : Option (List Char) :=
        if first then some s else if s.head? = some '.' then some (s.drop 1) else none
      match afterDot with
      | none => none
      | some s1 =>
        match dtoi s1 with
        | (n, s2, ok) =>
          if !ok || 0xFF < n then none
          else
            match parseIPv4Loop k false s2 with
            | none => none
            | some (ns, s3) => some (n :: ns, s3)

/-- Go `parseIPv4`: four decimal octets separated by dots and nothing else; the
result is the sixteen-byte IPv4-mapped form (`net.IPv4(a, b, c, d)`). -/
def parseIPv4 (s : List Char) : Option (List Nat) :=
  match parseIPv4Loop 4 true s with
  | some (ns, []) => some (v4InV6Prefix ++ ns)
  | _ => none

/-- The loop of Go `parseIPv6` over the 16-bit groups still to read: `ip` holds
the bytes written so far (`j = ip.length`), `ellipsis` the position of a `::`
already seen. The result is the bytes, the ellipsis and the unread text at the
point where the Go loop ends or breaks; `none` is Go's `return nil`. -/
def parseIPv6Loop : Nat → List Char → List Nat → Option Nat →
    Option (List Nat × Option Nat × List Char)
  | 0, s, ip, ellipsis => some (ip, ellipsis, s)
  | k + 1, s, ip, ellipsis =>
    match xtoi s with
    | (n, s1, ok) =>
      if !ok || 0xFFFF < n then none
      else if s1.head? = some '.' then
        if ellipsis.isNone && ip.length ≠ 12 then none
        else if 16 < ip.length + 4 then none
        else
          match parseIPv4 s with
          | none => none
          | some ip4 => some (ip ++ ip4.drop 12, ellipsis, [])
      else
        let ip1 := ip ++ [n / 256, n % 256]
        match s1 with
        | [] => some (ip1, ellipsis, [])
        | c :: s2 =>
          if c ≠ ':' || s2 = [] then none
          else if s2.head? = some ':' then
            if ellipsis.isSome then none
            else if s2.drop 1 = [] then some (ip1, some ip1.length, [])
            else parseIPv6Loop k (s2.drop 1) ip1 (some ip1.length)
          else parseIPv6Loop k s2 ip1 ellipsis

/-- Go `parseIPv6(s, false)`: at most eight hexadecimal groups, one optional
`::`, an optional trailing dotted IPv4 part. -/
def parseIPv6 (s : List Char) : Option (List Nat) :=
  let leading : Bool := s.take 2 = [':', ':']
  if leading ∧ s.drop 2 = [] then some (List.replicate 16 0)
  else
    match parseIPv6Loop 8 (if leading then s.drop 2 else s) []
        (if leading then some 0 else none) with
    | none => none
    | some (ip, ellipsis, rest) =>
      if rest ≠ [] then none
      else if ip.length < 16 then
        match ellipsis with
        | none => none
        | some e => some (ip.take e ++ List.replicate (16 - ip.length) 0 ++ ip.drop e)
      else if ellipsis.isSome then none
      else some ip

/-- Go `net.ParseIP` on characters: the first `.` or `:` of the text selects the
IPv4 or the IPv6 parser; a text with neither is no IP address. -/
def parseIPChars (s : List Char) : Option (List Nat) :=
  match s.find? (fun c => c = '.' || c = ':') with
  | none => none
  | some c => if c = '.' then parseIPv4 s else parseIPv6 s

/-- Go `net.ParseIP`: the sixteen bytes of the address, `none` for Go's `nil`. -/
def ParseIP (s : String) : Option (List Nat) := parseIPChars s.data

/-! ## `v2net` -/

/-- Modelled from the spec: the enumeration `v2net.Network` is declared outside
the sources at hand. The specification names TCP and UDP for a destination and
TCP, KCP, WebSocket and RawTCP for a stream configuration; `Unknown` is the zero
value of the enumeration. -/
inductive Network where
  | TCP
  | UDP
  | KCP
  | WebSocket
  | RawTCP
  | Unknown
  deriving DecidableEq, Repr

/-- Modelled from the spec: `v2net.Address` is declared outside the sources at
hand; the specification gives the tagged variant IPv4 (4 bytes), IPv6 (16
bytes), Domain (string). `Nil` is the nil interface value. -/
inductive Address where
  | IPv4 (ip : List Nat)
  | IPv6 (ip : List Nat)
  | Domain (domain : String)
  | Nil
  deriving DecidableEq, Repr

/-- Go `v2net.Port`, a `uint16`. -/
abbrev Port := Nat

/-- The Go conversion `v2net.Port(intPort)` of an `int` to `uint16`: the low
sixteen bits. -/
def toPort (intPort : Int) : Port := (intPort % 65536).toNat

/-- Modelled from the spec: `v2net.Destination` is declared outside the sources
at hand; the specification gives `(Network, Address, Port)`. -/
structure Destination where
  Network : Network
  Address : Address
  Port : Port
  deriving DecidableEq, Repr

/-- Modelled from the spec: `v2net.IPAddress` is declared outside the sources at
hand. A literal IP takes the IP address form of the data model: four bytes give
`IPv4`, the sixteen-byte IPv4-mapped form that `net.ParseIP` returns for a dotted
address gives `IPv4` of its last four bytes, other sixteen bytes give `IPv6`;
a slice of any other length gives the nil address. -/
def IPAddress (ip : List Nat) : Address :=
  if ip.length = 4 then .IPv4 ip
  else if ip.length = 16 then
    if ip.take 12 = v4InV6Prefix then .IPv4 (ip.drop 12) else .IPv6 ip
  else .Nil

/-- Modelled from the spec: `v2net.DomainAddress`, the Domain form holding the
given string. -/
def DomainAddress (domain : String) : Address := .Domain domain

/-- Modelled from the spec: `v2net.TCPDestination`, the destination on network TCP. -/
def TCPDestination (address : Address) (port : Port) : Destination :=
  ⟨.TCP, address, port⟩

/-! ## `parseHost` -/

/-- The two kinds of error `parseHost` returns: the `*net.AddrError` of
`net.SplitHostPort` and the error of `strconv.Atoi`. -/
inductive ParseHostError where
  | addr (e : AddrError)
  | num (e : NumError)
  deriving DecidableEq, Repr

/-- Lines 90-93 of `parseHost`: IP address form if `host` is a literal IP,
Domain form otherwise. -/
def hostDestination (host : String) (port : Port) : Destination :=
  match ParseIP host with
  | some ip => TCPDestination (IPAddress ip) port
  | none => TCPDestination (DomainAddress host) port

/-- `parseHost` (server.go, lines 73-94). -/
def parseHost (rawHost : String) (defaultPort : Port) : Except ParseHostError Destination :=
  match SplitHostPort rawHost with
  | .error addrError =>
    if Contains addrError.Err "missing port" then .ok (hostDestination rawHost defaultPort)
    else .error (.addr addrError)
  | .ok (host, rawPort) =>
    match Atoi rawPort with
    | .error err => .error (.num err)
    | .ok intPort => .ok (hostDestination host (toPort intPort))

/-! ## The connection handler -/

/-- The fields of Go `http.Response` the handler sets; `Body` is `none` for Go's
nil body. -/
structure Response where
  Status : String
  StatusCode : Nat
  Proto : String
  ProtoMajor : Nat
  ProtoMinor : Nat
  Header : Header
  Body : Option String
  ContentLength : Nat
  Close : Bool
  deriving DecidableEq, Repr

/-- Modelled from the spec: `proxy.SessionInfo` is declared outside the sources
at hand; the handler fills its `Source` and `Destination`. -/
structure SessionInfo where
  Source : Destination
  Destination : Destination
  deriving DecidableEq, Repr

/-- What the handler does to its surroundings, in program order. -/
inductive Event where
  /-- `response.Write(writer)`: a response written to the client connection. -/
  | WriteResponse (response : Response)
  /-- `this.packetDispatcher.DispatchToOutbound(this.meta, session)`. -/
  | DispatchToOutbound (session : SessionInfo)
  /-- `this.transport(reader, writer, ray)`: the two copy tasks of tunnel mode. -/
  | Transport
  /-- The two tasks of `handlePlainHTTP`: the rewritten request is written into
  the ray and one response is relayed back to the client. -/
  | Relay (request : Request)
  /-- The deferred `conn.Close()`. -/
  | CloseConn
  deriving DecidableEq, Repr

/-- `Server.GenerateResponse` (server.go, lines 201-215). -/
def GenerateResponse (statusCode : Nat) (status : String) : Response :=
  let hdr : Header := Header.Set [] "Connection" "close"
  { Status := status, StatusCode := statusCode, Proto := "HTTP/1.1", ProtoMajor := 1,
    ProtoMinor := 1, Header := hdr, Body := none, ContentLength := 0, Close := false }

/-- `Server.handleConnect` (server.go, lines 134-150). -/
def handleConnect (_request : Request) (session : SessionInfo) : List Event :=
  let response : Response :=
    { Status := "200 OK", StatusCode := 200, Proto := "HTTP/1.1", ProtoMajor := 1,
      ProtoMinor := 1, Header := [], Body := none, ContentLength := 0, Close := false }
  [.WriteResponse response, .DispatchToOutbound session, .Transport]

/-- `Server.handlePlainHTTP` (server.go, lines 217-263). -/
def handlePlainHTTP (request : Request) (session : SessionInfo) : List Event :=
  if request.URLHost.length ≤ 0 then
    [.WriteResponse (GenerateResponse 400 "Bad Request")]
  else
    let request1 := { request with Host := request.URLHost }
    let request2 := StripHopByHopHeaders request1
    [.DispatchToOutbound session, .Relay request2]

/-- Lines 109-126 of `Server.handleConnection`: the destination is parsed from
the request and placed in a `SessionInfo`; `remote` is
`v2net.DestinationFromAddr(conn.RemoteAddr())`. -/
def buildSession (remote : Destination) (request : Request) :
    Except ParseHostError SessionInfo :=
  let defaultPort : Port := if ToLower request.URLScheme = "https" then 443 else 80
  let host := if request.Host.length = 0 then request.URLHost else request.Host
  match parseHost host defaultPort with
  | .error err => .error err
  | .ok dest => .ok { Source := remote, Destination := dest }

/-- `Server.handleConnection` (server.go, lines 96-132) on the result of
`http.ReadRequest` (`none` when it returns an error). -/
def handleConnection (remote : Destination) (read : Option Request) : List Event :=
  (match read with
    | none => []
    | some request =>
      match buildSession remote request with
      | .error _ => []
      | .ok session =>
        if ToUpper request.Method = "CONNECT" then handleConnect request session
        else handlePlainHTTP request session) ++ [.CloseConn]

/-! ## `net/http`: `Response.Write` -/

/-- Go `strings.TrimPrefix`: `s` without the leading `pre`, `s` itself if it does
not start with `pre`. -/
def TrimPrefix (s pre : String) : String :=
  if pre.data.isPrefixOf s.data then ⟨s.data.drop pre.data.length⟩ else s

/-- The verb `%03d` of Go `fmt` on an integer that is not negative: the decimal
digits, with zeros in front up to three digits. -/
def pad3 (n : Nat) : String :=
  ⟨List.replicate (3 - (uitoaChars n).length) '0' ++ uitoaChars n⟩

/-- Go `Response.ProtoAtLeast`. -/
def Response.ProtoAtLeast (r : Response) (major minor : Nat) : Bool :=
  decide (r.ProtoMajor > major)
    || (decide (r.ProtoMajor = major) && decide (r.ProtoMinor ≥ minor))

/-- Go `respExcludeHeader`: the header keys `Response.Write` leaves to the
transfer writer. -/
def respExcludeHeader : List String := ["Content-Length", "Transfer-Encoding", "Trailer"]

/-- Go `textproto.isASCIISpace`: space, tab, line feed, carriage return. -/
def isASCIISpace (c : Char) : Bool :=
  c.toNat == 32 || c.toNat == 9 || c.toNat == 10 || c.toNat == 13

/-- Go `textproto.TrimString`: drop leading and trailing ASCII white space. -/
def TrimString (s : String) : String :=
  ⟨((s.data.dropWhile isASCIISpace).reverse.dropWhile isASCIISpace).reverse⟩

/-- Go `headerNewlineToSpace.Replace`: every line feed and every carriage return
becomes a space. -/
def headerNewlineToSpace (s : String) : String :=
  ⟨s.data.map (fun c => if c.toNat = 10 ∨ c.toNat = 13 then ' ' else c)⟩

namespace Header

/-- The entries of the map: for each key its first entry in the list. -/
def entries : Header → Header
  | [] => []
  | e :: rest => e :: (entries rest).filter (fun x => decide (x.1 ≠ e.1))

/-- Insertion of an entry into entries sorted by key. -/
def insertSorted (e : String × List String) : Header → Header
  | [] => [e]
  | x :: xs => if e.1 < x.1 then e :: x :: xs else x :: insertSorted e xs

/-- Go `Header.sortedKeyValues`: the entries whose key is not excluded, sorted by
key. -/
def sortedKeyValues (h : Header) (exclude : List String) : Header :=
  ((entries h).filter (fun e => !exclude.contains e.1)).foldr insertSorted []

/-- Go `Header.WriteSubset`: in the order of the keys, one line `key: value` for
each value, the value with its line breaks replaced by spaces and trimmed. -/
def WriteSubset (h : Header) (exclude : List String) : String :=
  String.join ((sortedKeyValues h exclude).flatMap (fun kv =>
    kv.2.map (fun v => kv.1 ++ ": " ++ TrimString (headerNewlineToSpace v) ++ "\r\n")))

end Header

/-- Go `http.Response.Write` (the Go 1.7 text): the bytes it writes to the client
connection, which takes every write; the handler discards the error `Write`
returns. The response has the fields of `Response` only: its `Request`,
`TransferEncoding` and `Trailer` are nil, as in every response the handler
builds, so that nothing is chunked and the method of the request is empty.
`statusText` is the table of reason phrases of `net/http`. Later Go texts write
`Content-Length: 0` only for a status that allows a body and `Connection: close`
only where the header does not hold it; on the responses of the handler (status
200, 400 and 503, `Close` false) they write the same bytes. -/
def Response.Write (statusText : Nat → Option String) (r : Response) : String :=
  -- the status line
  let text :=
    if r.Status = "" then
      match statusText r.StatusCode with
      | some text => text
      | none => "status code " ++ uitoa r.StatusCode
    else TrimPrefix r.Status (uitoa r.StatusCode ++ " ")
  let statusLine := "HTTP/" ++ uitoa r.ProtoMajor ++ "." ++ uitoa r.ProtoMinor ++ " "
    ++ pad3 r.StatusCode ++ " " ++ text ++ "\r\n"
  -- the clone `r1`: with content length 0 and a body that is not empty, the
  -- length is unknown (-1), and an HTTP/1.1 response of unknown length is closed
  let contentLength1 : Int :=
    match r.Body with
    | some body => if r.ContentLength = 0 ∧ body ≠ "" then -1 else r.ContentLength
    | none => r.ContentLength
  let close1 : Bool := r.Close || (decide (contentLength1 = -1) && r.ProtoAtLeast 1 1)
  -- `newTransferWriter`: without a body the content length is 0
  let twContentLength : Int := if r.Body = none then 0 else contentLength1
  -- `shouldSendContentLength`, with no chunking and an empty method
  let shouldSendContentLength : Bool := decide (twContentLength > 0)
  -- `transferWriter.WriteHeader`
  let transferHeader :=
    (if close1 then "Connection: close\r\n" else "")
      ++ (if shouldSendContentLength then
            "Content-Length: " ++ uitoa twContentLength.toNat ++ "\r\n"
          else "")
  -- the rest of the header, and the content length 0 not sent so far
  let restOfHeader := r.Header.WriteSubset respExcludeHeader
  let zeroLength :=
    if contentLength1 = 0 ∧ shouldSendContentLength = false then "Content-Length: 0\r\n" else ""
  -- `transferWriter.WriteBody`: the body, up to the content length if it is known
  let body :=
    match r.Body with
    | none => ""
    | some body =>
      if twContentLength = -1 then body else ⟨body.data.take twContentLength.toNat⟩
  statusLine ++ transferHeader ++ restOfHeader ++ zeroLength ++ "\r\n" ++ body

/-- The default port in the words of the specification: 443 if the lower-cased
URL scheme is `https`, 80 otherwise. -/
def specDefaultPort (request : Request) : Port :=
  if ToLower request.URLScheme = "https" then 443 else 80

/-- The source host in the words of the specification: `request.Host` if it is
non-empty, `request.URL.Host` otherwise. -/
def specSourceHost (request : Request) : String :=
  if request.Host ≠ "" then request.Host else request.URLHost

/-- Value of a text of decimal digits read from the left, on top of `n`. -/
def decimalValue : Nat → List Char → Nat
  | n, [] => n
  | n, c :: cs => decimalValue (n * 10 + (digitVal c).getD 0) cs

/-- The text of an integer, in the sense of a Go `int` of 64 bits: an optional
sign, at least one decimal digit and nothing else, with a value from `-2 ^ 63`
to `2 ^ 63 - 1`. -/
def IsIntegerText (s : String) : Prop :=
  let body := if s.data.head? = some '+' ∨ s.data.head? = some '-' then s.data.drop 1 else s.data
  body ≠ [] ∧ (∀ c ∈ body, (digitVal c).isSome = true)
    ∧ if s.data.head? = some '-' then decimalValue 0 body ≤ 2 ^ 63
      else decimalValue 0 body < 2 ^ 63

/-- A host in the `host[:port]` syntax `parseHost` is written for: either a name
or dotted address free of `:`, `[`, `]` and `%`, or a bracketed literal `[x]`
with no bracket inside `x`. -/
def IsHost (h : String) : Prop :=
  (∀ c ∈ h.data, c ≠ ':' ∧ c ≠ '[' ∧ c ≠ ']' ∧ c ≠ '%')
    ∨ ∃ x : List Char, h.data = '[' :: (x ++ [']']) ∧ ∀ c ∈ x, c ≠ '[' ∧ c ≠ ']'

/-! ## The textual form of a destination -/

/-- The 16-bit groups of an IPv6 address, `(p[i] << 8) | p[i+1]` for even `i`. -/
def groupsOf : List Nat → List Nat
  | a :: b :: rest => (a * 256 + b) :: groupsOf rest
  | _ => []

/-- Go `hexDigit[v]`, the digit of `"0123456789abcdef"` at index `v`. -/
def hexDigit (v : Nat) : Char := if v < 10 then Char.ofNat (48 + v) else Char.ofNat (87 + v)

/-- What Go `appendHex` appends for `i`: `0` for zero, else for `j` from 7 down to
0 the digit of `v = i >> (j * 4)` whenever `v > 0`. -/
def hexChars (i : Nat) : List Char :=
  if i = 0 then ['0']
  else
    [7, 6, 5, 4, 3, 2, 1, 0].filterMap
      (fun j => if 0 < i / 16 ^ j then some (hexDigit (i / 16 ^ j % 16)) else none)

/-- Number of zero groups at the front of a list of groups. -/
def zeroRun : List Nat → Nat
  | 0 :: rest => zeroRun rest + 1
  | _ => 0

/-- The first loop of Go `IP.String`, in units of groups: from group `k` on, a
run of zero groups longer than the best run `(e0, e1)` found so far replaces it
and the scan goes on behind the group that ended the run. -/
def longestZeroRunLoop : Nat → List Nat → Nat → Option (Nat × Nat) → Option (Nat × Nat)
  | 0, _, _, best => best
  | fuel + 1, gs, k, best =>
    if k < gs.length then
      let n := zeroRun (gs.drop k)
      let bestLen := match best with
        | none => 0
        | some (e0, e1) => e1 - e0
      if 0 < n ∧ bestLen < n then longestZeroRunLoop fuel gs (k + n + 1) (some (k, k + n))
      else longestZeroRunLoop fuel gs (k + 1) best
    else best

/-- The run of zero groups Go `IP.String` replaces by `::`: the first longest
run, unless it is a single group. -/
def longestZeroRun (gs : List Nat) : Option (Nat × Nat) :=
  match longestZeroRunLoop gs.length gs 0 none with
  | none => none
  | some (e0, e1) => if e1 - e0 ≤ 1 then none else some (e0, e1)

/-- The second loop of Go `IP.String`, in units of groups, from group `k` on:
`::` in place of the run, a colon before every other group but the first. -/
def ipv6TextLoop : Nat → List Nat → Nat → Option (Nat × Nat) → List Char
  | 0, _, _, _ => []
  | fuel + 1, gs, k, run =>
    if k < gs.length then
      match run with
      | some (e0, e1) =>
        if k = e0 then
          [':', ':'] ++ (if gs.length ≤ e1 then []
            else hexChars (gs.getD e1 0) ++ ipv6TextLoop fuel gs (e1 + 1) run)
        else
          (if 0 < k then [':'] else []) ++ hexChars (gs.getD k 0)
            ++ ipv6TextLoop fuel gs (k + 1) run
      | none =>
        (if 0 < k then [':'] else []) ++ hexChars (gs.getD k 0)
          ++ ipv6TextLoop fuel gs (k + 1) run
    else []

/-- Dotted decimal text of four bytes. -/
def dottedChars (ip : List Nat) : List Char :=
  uitoaChars (ip.getD 0 0) ++ '.' :: uitoaChars (ip.getD 1 0) ++ '.' :: uitoaChars (ip.getD 2 0)
    ++ '.' :: uitoaChars (ip.getD 3 0)

/-- Go `hexString`: two hexadecimal digits for every byte. -/
def hexString (b : List Nat) : List Char :=
  b.flatMap (fun x => [hexDigit (x / 16), hexDigit (x % 16)])

/-- Go `net.IP.String`: `<nil>` for no bytes, dotted decimal for four bytes and
for the IPv4-mapped sixteen bytes, the colon text for other sixteen bytes, and
`?` followed by the bytes in hexadecimal for any other length. -/
def ipStringChars (ip : List Nat) : List Char :=
  if ip.length = 0 then "<nil>".data
  else if ip.length = 4 then dottedChars ip
  else if ip.length = 16 ∧ ip.take 12 = v4InV6Prefix then dottedChars (ip.drop 12)
  else if ip.length ≠ 16 then '?' :: hexString ip
  else ipv6TextLoop 8 (groupsOf ip) 0 (longestZeroRun (groupsOf ip))

/-- Modelled from the spec: `Address.String` of `v2net` is outside the sources at
hand. The textual host of an address: dotted decimal for IPv4, the bracketed
colon text for IPv6, the domain itself; `none` for the nil address, on which the
call does not return. -/
def Address.String : Address → Option String
  | .IPv4 ip => some ⟨ipStringChars ip⟩
  | .IPv6 ip => some ⟨'[' :: (ipStringChars ip ++ [']'])⟩
  | .Domain domain => some domain
  | .Nil => none

/-- Modelled from the spec: `Destination.NetAddr` of `v2net` is outside the
sources at hand. The textual `host:port` form of a destination. -/
def Destination.NetAddr (dest : Destination) : Option String :=
  match dest.Address.String with
  | none => none
  | some host => some (host ++ ":" ++ uitoa dest.Port)

/-- The addresses whose textual form `parseHost` reads back: four bytes; sixteen
bytes that are not IPv4-mapped; a domain free of `:`, `[`, `]` and `%` that is
not itself the text of an IP address. -/
def Address.RoundTrips : Address → Prop
  | .IPv4 ip => ip.length = 4 ∧ ∀ b ∈ ip, b < 256
  | .IPv6 ip => ip.length = 16 ∧ (∀ b ∈ ip, b < 256) ∧ ip.take 12 ≠ v4InV6Prefix
  | .Domain domain =>
    (∀ c ∈ domain.data, c ≠ ':' ∧ c ≠ '[' ∧ c ≠ ']' ∧ c ≠ '%') ∧ ParseIP domain = none
  | .Nil => False

/-- What one turn of the loop of `parseIPv6` does after it has stored a group:
stop at the end of the text, else expect a colon and more text, note an ellipsis
at a second colon, and go on with the next turn. -/
def afterGroup (k : Nat) (s1 : List Char) (ip1 : List Nat) (ellipsis : Option Nat) :
    Option (List Nat × Option Nat × List Char) :=
  match s1 with
  | [] => some (ip1, ellipsis, [])
  | c :: s2 =>
    if c ≠ ':' || s2 = [] then none
    else if s2.head? = some ':' then
      if ellipsis.isSome then none
      else if s2.drop 1 = [] then some (ip1, some ip1.length, [])
      else parseIPv6Loop k (s2.drop 1) ip1 (some ip1.length)
    else parseIPv6Loop k s2 ip1 ellipsis

/-- The two bytes of each group, in order. -/
def bytesOf (gs : List Nat) : List Nat := gs.flatMap (fun g => [g / 256, g % 256])

/-- A colon and the hexadecimal text, for each group. -/
def colonGroups (gs : List Nat) : List Char := gs.flatMap (fun g => ':' :: hexChars g)

/-- The hexadecimal texts of the groups with colons between them. -/
def joinGroups : List Nat → List Char
  | [] => []
  | g :: gs => hexChars g ++ colonGroups gs

/-- The colon text of eight groups with the run `run` of zero groups replaced by
`::` (all groups when there is no run). -/
def runText (gs : List Nat) : Option (Nat × Nat) → List Char
  | none => joinGroups gs
  | some (e0, e1) => joinGroups (gs.take e0) ++ ':' :: ':' :: joinGroups (gs.drop e1)

/-! ## `transport/internet`: `Dial` -/

namespace internet

/-- Modelled from the spec: the enumeration `internet.SecurityType` is declared
outside the sources at hand; the specification gives None and TLS. -/
inductive SecurityType where
  | None
  | TLS
  deriving DecidableEq, Repr

/-- Modelled from the spec: `internet.StreamConfig` is declared outside the
sources at hand; of the fields the specification gives, the code at hand reads
`Network` and `SecurityType`. -/
structure StreamConfig where
  Network : Network
  SecurityType : SecurityType
  deriving DecidableEq, Repr

/-- `DialerOptions` (dialer.go, lines 14-16); `Stream` is a pointer, `none` when
nil. -/
structure DialerOptions where
  Stream : Option StreamConfig
  deriving DecidableEq, Repr

/-- The Go `error` values that pass through `Dial`: its own
`ErrUnsupportedStreamType` and whatever error a dialer returns. -/
inductive Error where
  | ErrUnsupportedStreamType
  | dialer (msg : String)
  deriving DecidableEq, Repr

/-- The two results `(Connection, error)` of a dialer and of `Dial`; each of them
may be nil. -/
structure DialResult (Conn : Type) where
  connection : Option Conn
  err : Option Error
  deriving DecidableEq, Repr

/-- The function type `Dialer` (dialer.go, line 18). What a dialer does on the
network is not modelled: a dialer is the result it returns. -/
abbrev Dialer (Conn : Type) := Address → Destination → DialerOptions → DialResult Conn

/-- The names of the five package variables of type `Dialer` (lines 20-26). -/
inductive DialerName where
  | TCPDialer
  | KCPDialer
  | RawTCPDialer
  | UDPDialer
  | WSDialer
  deriving DecidableEq, Repr

/-- The values of the five package variables of type `Dialer` (lines 20-26), all
of them registered. -/
structure Dialers (Conn : Type) where
  TCPDialer : Dialer Conn
  KCPDialer : Dialer Conn
  RawTCPDialer : Dialer Conn
  UDPDialer : Dialer Conn
  WSDialer : Dialer Conn

/-- One invocation of a dialer: which variable was called, on which arguments. -/
structure DialerCall where
  name : DialerName
  src : Address
  dest : Destination
  options : DialerOptions
  deriving DecidableEq, Repr

/-- Lines 50-54 of `Dial`: a dialer's error is returned with a nil connection,
else its connection with a nil error. -/
def dialed {Conn : Type} (call : DialerCall) (r : DialResult Conn) :
    Option (List DialerCall × DialResult Conn) :=
  if r.err ≠ none then some ([call], ⟨none, r.err⟩) else some ([call], ⟨r.connection, none⟩)

/-- `Dial` (dialer.go, lines 28-58): the dialer invocations made, in order, and
the two results; `none` when `settings.Network` is read through a nil pointer. -/
def Dial {Conn : Type} (dialers : Dialers Conn) (src : Address) (dest : Destination)
    (settings : Option StreamConfig) : Option (List DialerCall × DialResult Conn) :=
  let dialerOptions : DialerOptions := { Stream := settings }
  if dest.Network = .TCP then
    match settings with
    | none => none
    | some s =>
      match s.Network with
      | .TCP =>
        dialed ⟨.TCPDialer, src, dest, dialerOptions⟩ (dialers.TCPDialer src dest dialerOptions)
      | .KCP =>
        dialed ⟨.KCPDialer, src, dest, dialerOptions⟩ (dialers.KCPDialer src dest dialerOptions)
      | .WebSocket =>
        dialed ⟨.WSDialer, src, dest, dialerOptions⟩ (dialers.WSDialer src dest dialerOptions)
      | .RawTCP =>
        dialed ⟨.RawTCPDialer, src, dest, dialerOptions⟩
          (dialers.RawTCPDialer src dest dialerOptions)
      | _ => some ([], ⟨none, some .ErrUnsupportedStreamType⟩)
  else
    some ([⟨.UDPDialer, src, dest, dialerOptions⟩], dialers.UDPDialer src dest dialerOptions)

/-- The dialer the specification selects for a stream network: TCP, KCP,
WebSocket and RawTCP have one, no other value has. -/
def selectedDialer : Network → Option DialerName
  | .TCP => some .TCPDialer
  | .KCP => some .KCPDialer
  | .WebSocket => some .WSDialer
  | .RawTCP => some .RawTCPDialer
  | .UDP => none
  | .Unknown => none

/-- The variable of the given name. -/
def Dialers.get {Conn : Type} (dialers : Dialers Conn) : DialerName → Dialer Conn
  | .TCPDialer => dialers.TCPDialer
  | .KCPDialer => dialers.KCPDialer
  | .RawTCPDialer => dialers.RawTCPDialer
  | .UDPDialer => dialers.UDPDialer
  | .WSDialer => dialers.WSDialer

end internet

/-! ## `shell/point`: configuration decoding -/

namespace point

/-- The Go `error` values of package `point`: `common.ErrBadConfiguration`, an
error made by `errors.New`, and the error `retry` gives up with. -/
inductive Error where
  | ErrBadConfiguration
  | New (msg : String)
  | ErrRetryFailed
  deriving DecidableEq, Repr

/-- Modelled from the spec: the constant `AllocationStrategyAlways` is declared
outside the sources at hand; the specification names the strategy `always`. -/
def AllocationStrategyAlways : String := "always"

/-- Modelled from the spec: the constant `AllocationStrategyRandom` is declared
outside the sources at hand; the specification names the strategy `random`. -/
def AllocationStrategyRandom : String := "random"

/-- `DefaultRefreshMinute` (config_json.go, lines 19-21). -/
def DefaultRefreshMinute : Int := 9999

/-- The fields of `InboundDetourAllocationConfig` that its decoder sets. -/
structure InboundDetourAllocationConfig where
  Strategy : String
  Concurrency : Int
  Refresh : Int
  deriving DecidableEq, Repr

/-- `JsonInboundDetourAllocationConfig` (config_json.go, lines 132-136): what
`json.Unmarshal` fills in, a field that is absent from the text keeping its
zero value. -/
structure JsonInboundDetourAllocationConfig where
  Strategy : String
  Concurrency : Int
  RefreshMin : Int
  deriving DecidableEq, Repr

/-- `InboundDetourAllocationConfig.UnmarshalJSON` (config_json.go, lines
131-156) on the result of `json.Unmarshal`: the receiver after the call and the
error returned, `none` for nil. -/
def InboundDetourAllocationConfig.UnmarshalJSON (this : InboundDetourAllocationConfig)
    (decoded : Except String JsonInboundDetourAllocationConfig) :
    InboundDetourAllocationConfig × Option Error :=
  match decoded with
  | .error err =>
    (this, some (.New ("Point: Failed to parse inbound detour allocation config: " ++ err)))
  | .ok jsonConfig =>
    let this1 : InboundDetourAllocationConfig :=
      { Strategy := jsonConfig.Strategy, Concurrency := jsonConfig.Concurrency,
        Refresh := jsonConfig.RefreshMin }
    let this2 :=
      if this1.Strategy = AllocationStrategyRandom then
        let this3 := if this1.Refresh = 0 then { this1 with Refresh := 5 } else this1
        if this3.Concurrency = 0 then { this3 with Concurrency := 3 } else this3
      else this1
    let this4 :=
      if this2.Refresh = 0 then { this2 with Refresh := DefaultRefreshMinute } else this2
    (this4, none)

/-- Modelled from the spec: `v2net.AddressFamily` is declared outside the sources
at hand; the families of the three address forms of the data model. -/
inductive AddressFamily where
  | IPv4
  | IPv6
  | Domain
  deriving DecidableEq, Repr

/-- Modelled from the spec: `AddressFamily.IsDomain`. -/
def AddressFamily.IsDomain : AddressFamily → Bool
  | .Domain => true
  | _ => false

/-- Modelled from the spec: `Address.Family`; `none` for the nil address, on
which the call does not return. -/
def Family : Address → Option AddressFamily
  | .IPv4 _ => some .IPv4
  | .IPv6 _ => some .IPv6
  | .Domain _ => some .Domain
  | .Nil => none

/-- Modelled from the spec: `Address.Domain`, the text of a domain address. -/
def Domain : Address → String
  | .Domain domain => domain
  | _ => ""

/-- Modelled from the spec: `v2net.AnyIP`, the any-IP address `0.0.0.0`. -/
def AnyIP : Address := .IPv4 [0, 0, 0, 0]

/-- The fields of `InboundConnectionConfig` that its decoder sets. -/
structure InboundConnectionConfig where
  Port : Port
  ListenOn : Address
  Protocol : String
  StreamSettings : Option internet.StreamConfig
  Settings : String
  AllowPassiveConnection : Bool
  deriving DecidableEq, Repr

/-- `JsonConfig` of the inbound decoder (config_json.go, lines 73-80): what
`json.Unmarshal` fills in. `Listen` holds `AsAddress()` of the decoded
`*v2net.AddressPB`, `none` for a nil pointer. -/
structure JsonInboundConnectionConfig where
  Port : Nat
  Listen : Option Address
  Protocol : String
  StreamSetting : Option internet.StreamConfig
  Settings : String
  AllowPassive : Bool
  deriving DecidableEq, Repr

/-- `InboundConnectionConfig.UnmarshalJSON` (config_json.go, lines 72-102) on the
result of `json.Unmarshal`: the receiver after the call and the error returned;
`none` when the family of a nil address is asked for. -/
def InboundConnectionConfig.UnmarshalJSON (this : InboundConnectionConfig)
    (decoded : Except String JsonInboundConnectionConfig) :
    Option (InboundConnectionConfig × Option Error) :=
  match decoded with
  | .error err => some (this, some (.New ("Point: Failed to parse inbound config: " ++ err)))
  | .ok jsonConfig =>
    let this1 := { this with Port := jsonConfig.Port, ListenOn := AnyIP }
    let rest (this2 : InboundConnectionConfig) : Option (InboundConnectionConfig × Option Error) :=
      let this3 :=
        match jsonConfig.StreamSetting with
        | some stream => { this2 with StreamSettings := some stream }
        | none => this2
      some ({ this3 with
              Protocol := jsonConfig.Protocol
              Settings := jsonConfig.Settings
              AllowPassiveConnection := jsonConfig.AllowPassive }, none)
    match jsonConfig.Listen with
    | some listen =>
      match Family listen with
      | none => none
      | some family =>
        if family.IsDomain then
          some (this1, some (.New ("Point: Unable to listen on domain address: "
            ++ Domain listen)))
        else rest { this1 with ListenOn := listen }
    | none => rest this1

/-- Modelled from the spec: `v2net.PortRange`, declared outside the sources at
hand. -/
structure PortRange where
  From : Port
  To : Port
  deriving DecidableEq, Repr

/-- The fields of `InboundDetourConfig` that its decoder sets. -/
structure InboundDetourConfig where
  Protocol : String
  PortRange : PortRange
  ListenOn : Address
  Settings : String
  Tag : String
  Allocation : Option InboundDetourAllocationConfig
  StreamSettings : Option internet.StreamConfig
  AllowPassiveConnection : Bool
  deriving DecidableEq, Repr

/-- `JsonInboundDetourConfig` (config_json.go, lines 159-168): what
`json.Unmarshal` fills in; the pointers are `none` when nil, `ListenOn` holds
`AsAddress()` of the decoded `*v2net.AddressPB`. -/
structure JsonInboundDetourConfig where
  Protocol : String
  PortRange : Option PortRange
  ListenOn : Option Address
  Settings : String
  Tag : String
  Allocation : Option InboundDetourAllocationConfig
  StreamSetting : Option internet.StreamConfig
  AllowPassive : Bool
  deriving DecidableEq, Repr

/-- `InboundDetourConfig.UnmarshalJSON` (config_json.go, lines 158-200) on the
result of `json.Unmarshal`: the receiver after the call and the error returned;
`none` when the family of a nil address is asked for. -/
def InboundDetourConfig.UnmarshalJSON (this : InboundDetourConfig)
    (decoded : Except String JsonInboundDetourConfig) :
    Option (InboundDetourConfig × Option Error) :=
  match decoded with
  | .error err =>
    some (this, some (.New ("Point: Failed to parse inbound detour config: " ++ err)))
  | .ok jsonConfig =>
    match jsonConfig.PortRange with
    | none => some (this, some .ErrBadConfiguration)
    | some portRange =>
      let this1 := { this with ListenOn := AnyIP }
      let rest (this2 : InboundDetourConfig) : Option (InboundDetourConfig × Option Error) :=
        let this3 : InboundDetourConfig :=
          { this2 with
            Protocol := jsonConfig.Protocol
            PortRange := portRange
            Settings := jsonConfig.Settings
            Tag := jsonConfig.Tag
            Allocation := jsonConfig.Allocation }
        let defaultAllocation : InboundDetourAllocationConfig :=
          { Strategy := AllocationStrategyAlways, Concurrency := 0,
            Refresh := DefaultRefreshMinute }
        let this4 :=
          if this3.Allocation = none then { this3 with Allocation := some defaultAllocation }
          else this3
        let this5 :=
          match jsonConfig.StreamSetting with
          | some stream => { this4 with StreamSettings := some stream }
          | none => this4
        some ({ this5 with AllowPassiveConnection := jsonConfig.AllowPassive }, none)
      match jsonConfig.ListenOn with
      | some listen =>
        match Family listen with
        | none => none
        | some family =>
          if family.IsDomain then
            some (this1, some (.New ("Point: Unable to listen on domain address: "
              ++ Domain listen)))
          else rest { this1 with ListenOn := listen }
      | none => rest this1

end point

/-! ## `shell/point`: `Point.Start` -/

namespace point

/-- The fields of `Config` that `NewPoint` reads for the port and the listen
address: the legacy top-level `Port` and the inbound configuration. -/
structure Config where
  Port : Port
  InboundConfig : InboundConnectionConfig
  deriving DecidableEq, Repr

/-- The part of `Point` that `Start` uses. A handler is what its `Start`
returns: `ich k` is the result of the call number `k` of `this.ich.Start()`,
`idh` holds the result of `Start` for each inbound detour handler, in order. -/
structure Point where
  port : Port
  listen : Address
  ich : Nat → Option Error
  idh : List (Option Error)

/-- Lines 38-44 of `NewPoint`, with the handlers that the rest of `NewPoint`
builds through the registries given. -/
def NewPoint (pConfig : Config) (ich : Nat → Option Error) (idh : List (Option Error)) :
    Point :=
  let port := pConfig.InboundConfig.Port
  let port := if port = 0 then pConfig.Port else port
  { port := port, listen := pConfig.InboundConfig.ListenOn, ich := ich, idh := idh }

/-- What `Point.Start` does to the handlers, in program order. -/
inductive StartEvent where
  /-- A call of `this.ich.Start()`. -/
  | ichStart
  /-- The wait between two attempts, in milliseconds. -/
  | wait (ms : Nat)
  /-- A call of `detourHandler.Start()` on the detour handler of the given index. -/
  | idhStart (index : Nat)
  deriving DecidableEq, Repr

/-- Modelled from the spec: package `retry` is outside the sources at hand. The
specification has `Start` retry the bind up to `attempts` times with `delay`
milliseconds between two attempts before it fails. `k` counts the calls made. -/
def retryTimedOn (delay : Nat) (method : Nat → Option Error) :
    Nat → Nat → List StartEvent × Option Error
  | 0, _ => ([], some .ErrRetryFailed)
  | attempts + 1, k =>
    match method k with
    | none => ([.ichStart], none)
    | some _ =>
      match retryTimedOn delay method attempts (k + 1) with
      | (events, result) => (.ichStart :: .wait delay :: events, result)

/-- Lines 196-201 of `Point.Start`: the detour handlers are started in order up
to the first error. -/
def startDetours : Nat → List (Option Error) → List StartEvent × Option Error
  | _, [] => ([], none)
  | index, some err :: _ => ([.idhStart index], some err)
  | index, none :: rest =>
    match startDetours (index + 1) rest with
    | (events, result) => (.idhStart index :: events, result)

/-- `Point.Start` (point.go, lines 176-204): the calls made and the error
returned, `none` for nil. -/
def Point.Start (this : Point) : List StartEvent × Option Error :=
  if this.port ≤ 0 then ([], some .ErrBadConfiguration)
  else
    match retryTimedOn 100 this.ich 100 0 with
    | (events, some err) => (events, some err)
    | (events, none) =>
      match startDetours 0 this.idh with
      | (more, result) => (events ++ more, result)

/-- The effective port in the words of the specification: the inbound
configuration port, or the legacy top-level port when the inbound port is 0. -/
def specEffectivePort (pConfig : Config) : Port :=
  if pConfig.InboundConfig.Port = 0 then pConfig.Port else pConfig.InboundConfig.Port

end point

/-! ## `transport/internet/tcp`: the listener -/

namespace tcp

/-- The Go `error` values of the listener: `ErrClosedListener` and whatever error
the operating system's listener returns. -/
inductive Error where
  | ErrClosedListener
  | accept (msg : String)
  deriving DecidableEq, Repr

/-- `ConnectionWithError` (hub.go, lines 20-23); a `net.Conn` is a socket number,
`none` stands for nil. -/
structure ConnectionWithError where
  conn : Option Nat
  err : Option Error
  deriving DecidableEq, Repr

/-- `TCPListener` (hub.go, lines 25-32). The channel `awaitingConns` is its
buffer, oldest entry first, and whether `close` was called on it; the operating
system's listener is whether `Close` was called on it; `tlsConfig` is whether the
pointer is set. `closedConns` records the sockets on which the listener has
called `Close()`, in order. -/
structure TCPListener where
  acccepting : Bool
  listenerClosed : Bool
  awaitingConns : List ConnectionWithError
  awaitingConnsClosed : Bool
  tlsConfig : Bool
  closedConns : List Nat
  deriving DecidableEq, Repr

/-- The capacity of the channel, `make(chan *ConnectionWithError, 32)`. -/
def awaitingConnsCap : Nat := 32

/-- `ListenTCP` (hub.go, lines 34-64). `bind` is the error of `net.ListenTCP`,
`network` the error of `GetEffectiveNetworkSettings`, `tls` is `none` unless the
stream asks for TLS and then holds the error of `GetEffectiveSecuritySettings`.
The accept loop it starts is run by `KeepAccepting`. -/
def ListenTCP (bind network : Option Error) (tls : Option (Option Error)) :
    Except Error TCPListener :=
  match bind with
  | some err => .error err
  | none =>
    match network with
    | some err => .error err
    | none =>
      let l : TCPListener :=
        { acccepting := true, listenerClosed := false, awaitingConns := [],
          awaitingConnsClosed := false, tlsConfig := false, closedConns := [] }
      match tls with
      | some (some err) => .error err
      | some none => .ok { l with tlsConfig := true }
      | none => .ok l

/-- What `Accept` hands out: the socket, wrapped for TLS or not. -/
structure Accepted where
  conn : Option Nat
  tls : Bool
  deriving DecidableEq, Repr

/-- `TCPListener.Accept` (hub.go, lines 66-85): the listener afterwards and what
is returned; `none` while the loop finds the channel empty and keeps polling. -/
def TCPListener.Accept (this : TCPListener) :
    TCPListener × Option (Except Error Accepted) :=
  if this.acccepting then
    match this.awaitingConns with
    | connErr :: rest =>
      let this1 := { this with awaitingConns := rest }
      match connErr.err with
      | some err => (this1, some (.error err))
      | none => (this1, some (.ok { conn := connErr.conn, tls := this.tlsConfig }))
    | [] =>
      if this.awaitingConnsClosed then (this, some (.error .ErrClosedListener))
      else (this, none)
  else (this, some (.error .ErrClosedListener))

/-- One turn of the loop of `TCPListener.KeepAccepting` (hub.go, lines 89-106) on
what `this.listener.Accept()` returned: the listener afterwards and whether the
loop goes on. -/
def TCPListener.KeepAccepting (this : TCPListener) (conn : Option Nat) (err : Option Error) :
    TCPListener × Bool :=
  if !this.acccepting then (this, false)
  else if this.awaitingConns.length < awaitingConnsCap then
    ({ this with awaitingConns := this.awaitingConns ++ [{ conn := conn, err := err }] }, true)
  else
    match conn with
    | some c => ({ this with closedConns := this.closedConns ++ [c] }, true)
    | none => (this, true)

/-- `TCPListener.Recycle` (hub.go, lines 110-121). -/
def TCPListener.Recycle (this : TCPListener) (_dest : String) (conn : Nat) : TCPListener :=
  if !this.acccepting then this
  else if this.awaitingConns.length < awaitingConnsCap then
    { this with awaitingConns := this.awaitingConns ++ [{ conn := some conn, err := none }] }
  else { this with closedConns := this.closedConns ++ [conn] }

/-- `TCPListener.Close` (hub.go, lines 127-139); `none` when the channel is
closed a second time, which Go does not survive. -/
def TCPListener.Close (this : TCPListener) : Option TCPListener :=
  let this1 := { this with acccepting := false, listenerClosed := true }
  if this1.awaitingConnsClosed then none
  else
    some { this1 with
           awaitingConnsClosed := true
           closedConns := this1.closedConns ++ this1.awaitingConns.filterMap (fun x => x.conn)
           awaitingConns := [] }

/-- The operations on a listener that run one at a time: a turn of the accept
loop, `Recycle`, `Accept`, `Close`. -/
inductive Op where
  | keepAccepting (conn : Option Nat) (err : Option Error)
  | recycle (dest : String) (conn : Nat)
  | accept
  | close
  deriving DecidableEq, Repr

/-- The listener after one operation; `none` when the program stops. -/
def step (this : TCPListener) : Op → Option TCPListener
  | .keepAccepting conn err => some (this.KeepAccepting conn err).1
  | .recycle dest conn => some (this.Recycle dest conn)
  | .accept => some this.Accept.1
  | .close => this.Close

/-- The listener after a sequence of operations. -/
def run (this : TCPListener) : List Op → Option TCPListener
  | [] => some this
  | op :: ops =>
    match step this op with
    | none => none
    | some next => run next ops

end tcp

/-! ## `transport/internet/ws`: the connection -/

namespace ws

/-- The Go `error` values of the connection: `io.EOF`, `io.ErrClosedPipe` and
whatever error the socket returns. -/
inductive Error where
  | EOF
  | ErrClosedPipe
  | socket (msg : String)
  deriving DecidableEq, Repr

/-- Modelled from the spec: `ws.Config` is generated outside the sources at
hand; the test sets its fields `Path` and `ConnectionReuse`. -/
structure Config where
  Path : String
  ConnectionReuse : Bool
  deriving DecidableEq, Repr

/-- `Connection` (connection.go, lines 18-24); the socket `*wsconn` is a number,
`none` stands for nil. The manager is seen through the calls made on it. -/
structure Connection where
  dest : String
  conn : Option Nat
  reusable : Bool
  config : Config
  deriving DecidableEq, Repr

/-- What a method of the connection does to the socket and to the manager. -/
inductive Effect where
  /-- `this.listener.Recycle(dest, conn)`. -/
  | Recycle (dest : String) (conn : Nat)
  /-- `this.conn.Close()`. -/
  | SocketClose (conn : Nat)
  /-- `this.conn.Read(b)`. -/
  | SocketRead (conn : Nat)
  /-- `this.conn.Write(b)`. -/
  | SocketWrite (conn : Nat)
  deriving DecidableEq, Repr

/-- `NewConnection` (connection.go, lines 26-34). -/
def NewConnection (dest : String) (conn : Option Nat) (config : Config) : Connection :=
  { dest := dest, conn := conn, reusable := config.ConnectionReuse, config := config }

/-- `Connection.Reusable` (connection.go, lines 91-93). -/
def Connection.Reusable (this : Connection) : Bool := this.reusable

/-- `Connection.SetReusable` (connection.go, lines 84-89). -/
def Connection.SetReusable (this : Connection) (reusable : Bool) : Connection :=
  if !this.config.ConnectionReuse then this else { this with reusable := reusable }

/-- `Connection.Read` (connection.go, lines 36-42) on a receiver that may be nil;
`socket` is what `this.conn.Read(b)` returns. -/
def Connection.Read (this : Option Connection) (socket : Nat × Option Error) :
    List Effect × Nat × Option Error :=
  match this with
  | none => ([], 0, some .EOF)
  | some c =>
    match c.conn with
    | none => ([], 0, some .EOF)
    | some sock => ([.SocketRead sock], socket)

/-- `Connection.Write` (connection.go, lines 44-49) on a receiver that may be
nil; `socket` is what `this.conn.Write(b)` returns. -/
def Connection.Write (this : Option Connection) (socket : Nat × Option Error) :
    List Effect × Nat × Option Error :=
  match this with
  | none => ([], 0, some .ErrClosedPipe)
  | some c =>
    match c.conn with
    | none => ([], 0, some .ErrClosedPipe)
    | some sock => ([.SocketWrite sock], socket)

/-- `Connection.Close` (connection.go, lines 51-62) on a receiver that may be
nil: the receiver afterwards, what was done, and the error returned;
`socketClose` is what `this.conn.Close()` returns. -/
def Connection.Close (this : Option Connection) (socketClose : Option Error) :
    Option Connection × List Effect × Option Error :=
  match this with
  | none => (none, [], some .ErrClosedPipe)
  | some c =>
    match c.conn with
    | none => (some c, [], some .ErrClosedPipe)
    | some sock =>
      if c.Reusable then (some c, [.Recycle c.dest sock], none)
      else (some { c with conn := none }, [.SocketClose sock], socketClose)

end ws

/-! ## `transport/internet`: authenticators -/

namespace internet

/-- Modelled from the spec: the authenticators are declared outside the sources
at hand. The specification describes an authenticator as a per-packet
transformer with `seal(bytes) → bytes` and `open(bytes) → bytes | Error`; a byte
is a natural number below 256 and `none` is the error. -/
structure Authenticator where
  Seal : List Nat → List Nat
  Open : List Nat → Option (List Nat)

/-- Modelled from the spec: `internet.AuthenticatorChain`, a composition of
packet transformers. -/
structure AuthenticatorChain where
  chain : List Authenticator

/-- Modelled from the spec: `internet.NewAuthenticatorChain(auths...)`. -/
def NewAuthenticatorChain (auths : List Authenticator) : AuthenticatorChain := ⟨auths⟩

/-- Sealing with a list of authenticators: the last one is applied first. -/
def sealAll : List Authenticator → List Nat → List Nat
  | [], payload => payload
  | auth :: rest, payload => auth.Seal (sealAll rest payload)

/-- Opening with a list of authenticators: the first one is applied first, and
the first error ends the opening. -/
def openAll : List Authenticator → List Nat → Option (List Nat)
  | [], payload => some payload
  | auth :: rest, payload =>
    match auth.Open payload with
    | none => none
    | some inner => openAll rest inner

/-- Modelled from the spec: sealing with the chain; the order on open is the
reverse of the order on seal. -/
def AuthenticatorChain.Seal (this : AuthenticatorChain) (payload : List Nat) : List Nat :=
  sealAll this.chain payload

/-- Modelled from the spec: opening with the chain, the inverse of sealing. -/
def AuthenticatorChain.Open (this : AuthenticatorChain) (payload : List Nat) :
    Option (List Nat) :=
  openAll this.chain payload

/-- Every authenticator of the chain opens what it sealed ("the inverse on
receipt"). -/
def AuthenticatorChain.Inverse (this : AuthenticatorChain) : Prop :=
  ∀ auth ∈ this.chain, ∀ payload, auth.Open (auth.Seal payload) = some payload

/-- Modelled from the spec: an obfuscating authenticator in the manner of the
SRTP one the test creates: sealing puts a fixed header of four bytes in front,
opening takes four bytes away. -/
def headerAuthenticator (header : Nat × Nat × Nat × Nat) : Authenticator where
  Seal := fun payload => header.1 :: header.2.1 :: header.2.2.1 :: header.2.2.2 :: payload
  Open := fun payload =>
    match payload with
    | _ :: _ :: _ :: _ :: inner => some inner
    | _ => none

/-- Modelled from the spec: a simple integrity authenticator: sealing puts the
sum of the bytes, modulo 256, in front, opening checks it and takes it away. -/
def checksumAuthenticator : Authenticator where
  Seal := fun payload => payload.sum % 256 :: payload
  Open := fun payload =>
    match payload with
    | [] => none
    | sum :: inner => if sum = inner.sum % 256 then some inner else none

end internet

/-! ## `transport/internet/kcp`: the connection -/

namespace kcp

/-- Modelled from the spec: the errors a KCP connection returns from `Read` and
`Write` once it is closed (end-of-stream, failed write). -/
inductive Error where
  | EOF
  | ErrClosedConnection
  deriving DecidableEq, Repr

/-- Modelled from the spec: the states of a KCP connection, `Active → PeerClosed
→ Terminated` and `Active → ActiveClosed → Terminated`. -/
inductive State where
  | StateActive
  | StateActiveClosed
  | StatePeerClosed
  | StateTerminated
  deriving DecidableEq, Repr

/-- Modelled from the spec: the state after the connection is closed by its
owner: `Active → ActiveClosed` and `PeerClosed → Terminated`. -/
def State.closed : State → State
  | .StateActive => .StateActiveClosed
  | .StatePeerClosed => .StateTerminated
  | state => state

/-- Modelled from the spec: the state after the peer's notice of closing has
arrived: `Active → PeerClosed` and `ActiveClosed → Terminated`. -/
def State.peerClosed : State → State
  | .StateActive => .StatePeerClosed
  | .StateActiveClosed => .StateTerminated
  | state => state

/-- The state of a connection that started active, by whether its owner has
closed it and whether the peer's notice of closing has arrived. -/
def State.after (closed noticed : Bool) : State :=
  match closed, noticed with
  | false, false => .StateActive
  | false, true => .StatePeerClosed
  | true, false => .StateActiveClosed
  | true, true => .StateTerminated

/-- Modelled from the spec: the KCP configuration; of the values the
specification names (MTU, window sizes, tick interval) the byte stream depends
on the MTU alone, taken here as the effective value. -/
structure Config where
  Mtu : Nat
  deriving DecidableEq, Repr

/-- What a segment carries: bytes of the stream, or the notice that the sender
has closed. -/
inductive Command where
  | Data
  | Terminate
  deriving DecidableEq, Repr

/-- Modelled from the spec: the unit of the KCP wire format. The specification
fixes the conversation id, a 32-bit integer; the number orders the data
segments of one direction. -/
structure Segment where
  Conv : Nat
  Cmd : Command
  Number : Nat
  Data : List Nat
  deriving DecidableEq, Repr

/-- The four bytes of a 32-bit integer, lowest first. -/
def uint32Bytes (v : Nat) : List Nat :=
  [v % 256, v / 256 % 256, v / 65536 % 256, v / 16777216 % 256]

/-- The 32-bit integer of four bytes, lowest first. -/
def uint32 (b0 b1 b2 b3 : Nat) : Nat := b0 + 256 * b1 + 65536 * b2 + 16777216 * b3

/-- Size of the header of a segment: conversation id, command, number. -/
def SegmentOverhead : Nat := 9

/-- Modelled from the spec: the bytes of a segment. The specification gives no
layout; the header is the conversation id, one command byte and the number. -/
def Segment.Bytes (this : Segment) : List Nat :=
  uint32Bytes this.Conv
    ++ (match this.Cmd with
        | .Data => 0
        | .Terminate => 1) :: uint32Bytes this.Number
    ++ this.Data

/-- Modelled from the spec: reading a segment back from the bytes of a datagram;
`none` for bytes that are no segment. -/
def ReadSegment : List Nat → Option Segment
  | c0 :: c1 :: c2 :: c3 :: cmd :: n0 :: n1 :: n2 :: n3 :: data =>
    if cmd = 0 then some ⟨uint32 c0 c1 c2 c3, .Data, uint32 n0 n1 n2 n3, data⟩
    else if cmd = 1 then some ⟨uint32 c0 c1 c2 c3, .Terminate, uint32 n0 n1 n2 n3, data⟩
    else none
  | _ => none

/-- Modelled from the spec: `kcp.Connection`: a reliable, ordered byte stream
over datagrams. The datagrams it sends are returned by the operations, for the
writer the connection was created with. Acknowledgement and retransmission,
which the specification does not describe, are left out: they play no part on a
writer that loses and reorders nothing. -/
structure Connection where
  conv : Nat
  auth : internet.AuthenticatorChain
  config : Config
  state : State
  /-- Number of the next data segment to send. -/
  sendingNext : Nat
  /-- Number of the next data segment to accept. -/
  receivingNext : Nat
  /-- Bytes received in order and not yet read. -/
  received : List Nat

/-- Modelled from the spec: `kcp.NewConnection(conv, writer, local, remote, auth,
config)`; the conversation id is a 32-bit integer, and the connection starts
active. -/
def NewConnection (conv : Nat) (auth : internet.AuthenticatorChain) (config : Config) :
    Connection :=
  { conv := conv % 2 ^ 32, auth := auth, config := config, state := .StateActive,
    sendingNext := 0, receivingNext := 0, received := [] }

/-- Modelled from the spec: `Connection.State`. -/
def Connection.State (this : Connection) : State := this.state

/-- Payload bytes that fit one datagram of the configured MTU. -/
def Connection.mss (this : Connection) : Nat := this.config.Mtu - SegmentOverhead

/-- The bytes `b` cut into pieces of at most `mss` bytes; `fuel` bounds the
number of pieces. -/
def chunks (mss : Nat) : Nat → List Nat → List (List Nat)
  | 0, _ => []
  | fuel + 1, b => if b = [] then [] else b.take mss :: chunks mss fuel (b.drop mss)

/-- The data segments of the pieces, numbered from `number` on, modulo `2 ^ 32`. -/
def dataSegments (conv : Nat) : Nat → List (List Nat) → List Segment
  | _, [] => []
  | number, piece :: rest =>
    ⟨conv, .Data, number % 2 ^ 32, piece⟩ :: dataSegments conv (number + 1) rest

/-- The datagram of a segment: its bytes, sealed with the authenticator chain. -/
def Connection.datagram (this : Connection) (seg : Segment) : List Nat :=
  this.auth.Seal seg.Bytes

/-- Result of `Connection.Write`: the connection afterwards, the datagrams
written to the writer, and the two values returned. -/
structure Written where
  conn : Connection
  output : List (List Nat)
  nBytes : Nat
  err : Option Error

/-- Modelled from the spec: `Connection.Write`. A closed connection fails the
write; an active one cuts the bytes into data segments and sends each as one
sealed datagram. `none`: the write never returns, as no byte fits a datagram. -/
def Connection.Write (this : Connection) (b : List Nat) : Option Written :=
  if this.state ≠ .StateActive then some ⟨this, [], 0, some .ErrClosedConnection⟩
  else if this.mss = 0 then none
  else
    let pieces := chunks this.mss b.length b
    let segments := dataSegments this.conv this.sendingNext pieces
    some ⟨{ this with sendingNext := (this.sendingNext + pieces.length) % 2 ^ 32 },
      segments.map this.datagram, b.length, none⟩

/-- Modelled from the spec: `Connection.Input`, what the connection does with one
datagram fetched from its input: the datagram is opened with the authenticator
chain and read as a segment of this conversation, or dropped. A data segment is
accepted by an active connection when it carries the next number; the peer's
notice of closing moves `Active` to `PeerClosed` and `ActiveClosed` to
`Terminated`. -/
def Connection.Input (this : Connection) (datagram : List Nat) : Connection :=
  match this.auth.Open datagram with
  | none => this
  | some payload =>
    match ReadSegment payload with
    | none => this
    | some seg =>
      if seg.Conv ≠ this.conv then this
      else
        match seg.Cmd with
        | .Data =>
          if this.state = .StateActive ∧ seg.Number = this.receivingNext then
            { this with
              received := this.received ++ seg.Data
              receivingNext := (this.receivingNext + 1) % 2 ^ 32 }
          else this
        | .Terminate => { this with state := this.state.peerClosed }

/-- Result of `Connection.Read`: the connection afterwards and the bytes placed
in the buffer, with the error. -/
structure ReadResult where
  conn : Connection
  bytes : List Nat
  err : Option Error

/-- Modelled from the spec: `Connection.Read` into a buffer of `n` bytes. After
the connection was closed, and after the peer closed and everything was read,
the read returns end-of-stream; with bytes at hand it returns as many as the
buffer takes; `none`: the read waits for input. -/
def Connection.Read (this : Connection) (n : Nat) : Option ReadResult :=
  if this.state = .StateActiveClosed ∨ this.state = .StateTerminated then
    some ⟨this, [], some .EOF⟩
  else if this.received = [] then
    if this.state = .StatePeerClosed then some ⟨this, [], some .EOF⟩ else none
  else some ⟨{ this with received := this.received.drop n }, this.received.take n, none⟩

/-- Modelled from the spec: `Connection.Close`, with the datagrams written to the
writer: an active connection becomes `ActiveClosed`, one whose peer has closed
becomes `Terminated`, and both send the notice of closing; closing again does
nothing. -/
def Connection.Close (this : Connection) : Connection × List (List Nat) :=
  if this.state = .StateActive ∨ this.state = .StatePeerClosed then
    ({ this with state := this.state.closed },
      [this.datagram ⟨this.conv, .Terminate, this.sendingNext, []⟩])
  else (this, [])

/-! ### `TestConnectionReadWrite`: two connections wired by two pipes -/

/-- The two connections of `TestConnectionReadWrite` and the two pipes between
them (connection_test.go, lines 42-51): `up` holds the datagrams `connClient`
wrote to `upWriter` that `connServer` has not fetched yet, `down` those of the
other direction. A pipe loses and reorders nothing. -/
structure Link where
  connClient : Connection
  connServer : Connection
  up : List (List Nat)
  down : List (List Nat)

/-- Lines 45-51 of the test: both connections are created with conversation id
`conv` and the authenticator chain `auth`, each fetching its input from the pipe
the other writes to. -/
def wire (conv : Nat) (auth : internet.AuthenticatorChain) (clientConfig serverConfig : Config) :
    Link :=
  { connClient := NewConnection conv auth clientConfig
    connServer := NewConnection conv auth serverConfig
    up := []
    down := [] }

/-- What the tasks of the test do, one step at a time. -/
inductive Op where
  /-- Call of `connClient.Write(b)`. -/
  | clientWrite (b : List Nat)
  /-- Call of `connServer.Read(buffer)` with a buffer of `n` bytes. -/
  | serverRead (n : Nat)
  /-- Call of `connClient.Close()`. -/
  | clientClose
  /-- Call of `connServer.Close()`. -/
  | serverClose
  /-- The task of `connServer.FetchInputFrom(upReader)` hands one datagram over. -/
  | fetchUp
  /-- The task of `connClient.FetchInputFrom(downReader)` hands one datagram over. -/
  | fetchDown
  deriving DecidableEq, Repr

/-- What a step returns to the test. -/
inductive Observation where
  | wrote (nBytes : Nat) (err : Option Error)
  | read (bytes : List Nat) (err : Option Error)
  | silent
  deriving DecidableEq, Repr

/-- One step of the wired connections; `none` when the step cannot be taken now
(a read that waits, a fetch from an empty pipe, a write that never returns). -/
def step (link : Link) : Op → Option (Link × Observation)
  | .clientWrite b =>
    match link.connClient.Write b with
    | none => none
    | some w =>
      some ({ link with connClient := w.conn, up := link.up ++ w.output }, .wrote w.nBytes w.err)
  | .serverRead n =>
    match link.connServer.Read n with
    | none => none
    | some r => some ({ link with connServer := r.conn }, .read r.bytes r.err)
  | .clientClose =>
    some ({ link with
            connClient := link.connClient.Close.1
            up := link.up ++ link.connClient.Close.2 }, .silent)
  | .serverClose =>
    some ({ link with
            connServer := link.connServer.Close.1
            down := link.down ++ link.connServer.Close.2 }, .silent)
  | .fetchUp =>
    match link.up with
    | [] => none
    | datagram :: rest =>
      some ({ link with connServer := link.connServer.Input datagram, up := rest }, .silent)
  | .fetchDown =>
    match link.down with
    | [] => none
    | datagram :: rest =>
      some ({ link with connClient := link.connClient.Input datagram, down := rest }, .silent)

/-- A schedule of steps, with what the steps return, in order. -/
def run (link : Link) : List Op → Option (Link × List Observation)
  | [] => some (link, [])
  | op :: ops =>
    match step link op with
    | none => none
    | some (link1, o) =>
      match run link1 ops with
      | none => none
      | some (link2, os) => some (link2, o :: os)

/-- The bytes the reads of a schedule returned, in order. -/
def readBytes : List Observation → List Nat
  | [] => []
  | .read bytes _ :: os => bytes ++ readBytes os
  | _ :: os => readBytes os

/-- No read and no write of the schedule returned an error. -/
def noError : List Observation → Bool
  | [] => true
  | .read _ err :: os => err.isNone && noError os
  | .wrote _ err :: os => err.isNone && noError os
  | .silent :: os => noError os

/-- Result of the read loop of the test. -/
structure Received where
  link : Link
  serverReceived : List Nat
  /-- Every `assert.Error(err).IsNil()` of the loop held. -/
  errIsNil : Bool

/-- Lines 62-68 of the test: `connServer.Read(serverReceived[totalRead:])` until
`totalWritten` bytes are read. A read that waits is served by the fetching task
with the next datagram of the pipe; `none`: the loop does not end within `fuel`
turns, or the read waits on an empty pipe. -/
def readLoop : Nat → Link → Nat → List Nat → Bool → Option Received
  | 0, _, _, _, _ => none
  | fuel + 1, link, totalWritten, serverReceived, errIsNil =>
    if serverReceived.length < totalWritten then
      match step link (.serverRead (totalWritten - serverReceived.length)) with
      | some (link1, .read bytes err) =>
        readLoop fuel link1 totalWritten (serverReceived ++ bytes) (errIsNil && err.isNone)
      | some (link1, _) => readLoop fuel link1 totalWritten serverReceived errIsNil
      | none =>
        match step link .fetchUp with
        | some (link1, _) => readLoop fuel link1 totalWritten serverReceived errIsNil
        | none => none
    else some ⟨link, serverReceived, errIsNil⟩

/-- Both fetching tasks hand over every datagram still in the pipes. -/
def fetchAll (link : Link) : Link :=
  { connClient := link.down.foldl Connection.Input link.connClient
    connServer := link.up.foldl Connection.Input link.connServer
    up := []
    down := [] }

/-- The steps of a transfer from client to server: fetches and reads into a
buffer that is not empty. -/
def Op.IsTransfer : Op → Bool
  | .serverRead n => decide (0 < n)
  | .fetchUp => true
  | .fetchDown => true
  | _ => false

/-- The steps of the closing phase: the two closes and fetches. -/
def Op.IsClosing : Op → Bool
  | .clientClose => true
  | .serverClose => true
  | .fetchUp => true
  | .fetchDown => true
  | _ => false

/-- The datagrams of the pieces `rest`, numbered from `k` on, as a connection
with conversation id `conv` and authenticator chain `auth` sends them. -/
def datagrams (conv : Nat) (auth : internet.AuthenticatorChain) (k : Nat)
    (rest : List (List Nat)) : List (List Nat) :=
  (dataSegments conv k rest).map (fun seg => auth.Seal seg.Bytes)

/-- The link during a transfer from client to server: the server is active, of
conversation `conv` with the chain `auth`, it has accepted `k` data segments, and
the pipe towards it holds the datagrams of the pieces `rest`, numbered from `k`
on. -/
def Link.InTransfer (link : Link) (conv : Nat) (auth : internet.AuthenticatorChain) (k : Nat)
    (rest : List (List Nat)) : Prop :=
  link.connServer.state = .StateActive ∧ link.connServer.conv = conv
    ∧ link.connServer.auth = auth ∧ link.connServer.receivingNext = k % 2 ^ 32
    ∧ link.up = datagrams conv auth k rest

/-- The link during the closing phase, both connections of conversation `conv`
with the chain `auth`: `cClosed` and `sClosed` tell whether the client and the
server have called `Close`, `tu` and `td` whether the client's and the server's
notice of closing is still in its pipe. -/
def Link.InClosing (link : Link) (conv : Nat) (auth : internet.AuthenticatorChain)
    (cClosed sClosed tu td : Bool) : Prop :=
  link.connClient.conv = conv ∧ link.connClient.auth = auth
    ∧ link.connClient.sendingNext < 2 ^ 32
    ∧ link.connServer.conv = conv ∧ link.connServer.auth = auth
    ∧ link.connServer.sendingNext < 2 ^ 32
    ∧ link.connClient.state = State.after cClosed (sClosed && !td)
    ∧ link.connServer.state = State.after sClosed (cClosed && !tu)
    ∧ link.up = (if tu then
        [auth.Seal (Segment.Bytes ⟨conv, .Terminate, link.connClient.sendingNext, []⟩)] else [])
    ∧ link.down = (if td then
        [auth.Seal (Segment.Bytes ⟨conv, .Terminate, link.connServer.sendingNext, []⟩)] else [])
    ∧ (tu = true → cClosed = true) ∧ (td = true → sClosed = true)

end kcp

/-! # Theorems -/

/-! ## Header lemmas -/

theorem Header.lookup_delete_self (k : String) (h : Header) :
    Header.lookup k (Header.delete k h) = none := by
  induction h with
  | nil => rfl
  | cons e rest ih =>
    obtain ⟨k1, v⟩ := e
    by_cases hk : k1 = k
    · simpa [Header.delete, List.filter_cons, hk] using ih
    · simpa [Header.delete, List.filter_cons, hk, Header.lookup] using ih

theorem Header.lookup_delete_ne {k k1 : String} (hne : k ≠ k1) (h : Header) :
    Header.lookup k (Header.delete k1 h) = Header.lookup k h := by
  induction h with
  | nil => rfl
  | cons e rest ih =>
    obtain ⟨k2, v⟩ := e
    by_cases hk : k2 = k1
    · have h2 : k2 ≠ k := fun h3 => hne (h3 ▸ hk)
      simpa [Header.delete, List.filter_cons, hk, Header.lookup, h2, hk ▸ h2] using ih
    · by_cases hk2 : k2 = k
      · subst hk2
        simp [Header.delete, List.filter_cons, hne, Header.lookup]
      · simpa [Header.delete, List.filter_cons, hk, Header.lookup, hk2] using ih

theorem Header.lookup_delete_none {k : String} (k1 : String) {h : Header}
    (hn : Header.lookup k h = none) : Header.lookup k (Header.delete k1 h) = none := by
  by_cases hk : k = k1
  · subst hk
    exact Header.lookup_delete_self k h
  · rw [Header.lookup_delete_ne hk, hn]

/-- Deleting a list of keys one after the other keeps an absent key absent. -/
theorem Header.lookup_foldl_Del_none {k : String} (ts : List String) :
    ∀ h : Header, Header.lookup k h = none →
      Header.lookup k (ts.foldl (fun h t => h.Del (TrimSpace t)) h) = none := by
  induction ts with
  | nil => intro h hn; exact hn
  | cons t rest ih =>
    intro h hn
    exact ih _ (Header.lookup_delete_none _ hn)

/-- Deleting a list of keys one after the other removes each of them. -/
theorem Header.lookup_foldl_Del_mem (ts : List String) :
    ∀ (h : Header) (t : String), t ∈ ts →
      Header.lookup (CanonicalMIMEHeaderKey (TrimSpace t))
        (ts.foldl (fun h t => h.Del (TrimSpace t)) h) = none := by
  induction ts with
  | nil => intro h t ht; cases ht
  | cons t1 rest ih =>
    intro h t ht
    rcases List.mem_cons.mp ht with h1 | h1
    · subst h1
      exact Header.lookup_foldl_Del_none rest _ (Header.lookup_delete_self _ h)
    · exact ih _ t h1

/-- Deleting a list of keys one after the other leaves every other key alone. -/
theorem Header.lookup_foldl_Del_frame {k : String} (ts : List String) :
    ∀ h : Header, (∀ t ∈ ts, CanonicalMIMEHeaderKey (TrimSpace t) ≠ k) →
      Header.lookup k (ts.foldl (fun h t => h.Del (TrimSpace t)) h) = Header.lookup k h := by
  induction ts with
  | nil => intro h _; rfl
  | cons t rest ih =>
    intro h hk
    have h1 := ih (h.Del (TrimSpace t)) (fun t1 ht1 => hk t1 (List.mem_cons_of_mem _ ht1))
    rw [List.foldl_cons, h1]
    exact Header.lookup_delete_ne (fun h2 => hk t (List.mem_cons_self _ _) h2.symm) h

theorem stripHeader_eq (h : Header) : stripHeader h = stripConnection (delHopByHop h) := rfl

theorem lookup_delHopByHop_mem (h : Header) (n : String) (hn : n ∈ hopByHopHeaders) :
    Header.lookup (CanonicalMIMEHeaderKey n) (delHopByHop h) = none := by
  simp only [hopByHopHeaders, List.mem_cons, List.mem_singleton, List.not_mem_nil,
    or_false] at hn
  simp only [delHopByHop, hopByHopHeaders, List.foldl_cons, List.foldl_nil, Header.Del]
  rcases hn with h1 | h1 | h1 | h1 | h1 | h1 | h1 <;> subst h1 <;>
    first
    | exact Header.lookup_delete_self _ _
    | (repeat (first
        | exact Header.lookup_delete_self _ _
        | apply Header.lookup_delete_none))

theorem lookup_delHopByHop_frame (h : Header) (k : String)
    (hk : k ∉ hopByHopHeaders.map CanonicalMIMEHeaderKey) :
    Header.lookup k (delHopByHop h) = Header.lookup k h := by
  simp only [hopByHopHeaders, List.map_cons, List.map_nil, List.mem_cons, List.mem_singleton,
    List.not_mem_nil, or_false, not_or] at hk
  obtain ⟨a1, a2, a3, a4, a5, a6, a7⟩ := hk
  simp only [delHopByHop, hopByHopHeaders, List.foldl_cons, List.foldl_nil, Header.Del]
  rw [Header.lookup_delete_ne a7, Header.lookup_delete_ne a6, Header.lookup_delete_ne a5,
    Header.lookup_delete_ne a4, Header.lookup_delete_ne a3, Header.lookup_delete_ne a2,
    Header.lookup_delete_ne a1]

theorem canonical_Connection : CanonicalMIMEHeaderKey "Connection" = "Connection" := by decide

theorem Get_Connection_delHopByHop (h : Header) :
    (delHopByHop h).Get "Connection" = h.Get "Connection" := by
  unfold Header.Get
  rw [lookup_delHopByHop_frame h _ (by decide)]

theorem lookup_Set_ne {k : String} (h : Header) (key value : String)
    (hk : k ≠ CanonicalMIMEHeaderKey key) :
    Header.lookup k (h.Set key value) = Header.lookup k h := by
  have h1 : CanonicalMIMEHeaderKey key ≠ k := fun h2 => hk h2.symm
  simp only [Header.Set, Header.lookup, h1, if_false]
  exact Header.lookup_delete_ne hk h

theorem lookup_stripConnection_none (h : Header) (k : String) (hk : k ≠ "Connection")
    (hn : Header.lookup k h = none) : Header.lookup k (stripConnection h) = none := by
  have h8 : Header.lookup k (h.Set "Connection" "close") = none := by
    rw [lookup_Set_ne h _ _ (by rw [canonical_Connection]; exact hk), hn]
  unfold stripConnection
  by_cases hc : (h.Get "Connection").length = 0
  · simp only [hc, if_true]; exact h8
  · simp only [hc, if_false]
    exact Header.lookup_foldl_Del_none _ _ h8

theorem String.length_eq_zero_iff_empty (s : String) : s.length = 0 ↔ s = "" := by
  obtain ⟨l⟩ := s
  cases l with
  | nil => exact ⟨fun _ => rfl, fun _ => rfl⟩
  | cons c cs =>
    constructor
    · intro h; simp [String.length] at h
    · intro h; exact absurd (congrArg String.data h) (by simp)

theorem lookup_Set_self (h : Header) (value : String) :
    Header.lookup "Connection" (h.Set "Connection" value) = some [value] := by
  simp [Header.Set, Header.lookup, canonical_Connection]

/-- When no token of the old `Connection` value names `Connection` itself, the
stripped request carries `Connection: close` and nothing else under that name. -/
theorem lookup_Connection_stripHeader (h : Header)
    (ht : h.Get "Connection" ≠ "" → ∀ t ∈ (SplitComma (h.Get "Connection")).map TrimSpace,
      CanonicalMIMEHeaderKey t ≠ "Connection") :
    Header.lookup "Connection" (stripHeader h) = some ["close"] := by
  rw [stripHeader_eq]
  unfold stripConnection
  simp only [Get_Connection_delHopByHop]
  by_cases hc : (h.Get "Connection").length = 0
  · simp only [hc, if_true]
    exact lookup_Set_self _ _
  · simp only [hc, if_false]
    have hne : h.Get "Connection" ≠ "" := fun h1 =>
      hc ((String.length_eq_zero_iff_empty _).mpr h1)
    rw [Header.lookup_foldl_Del_frame, lookup_Set_self]
    intro t0 ht0
    exact ht hne (TrimSpace t0) (List.mem_map_of_mem _ ht0)

/-! ## Claims about `StripHopByHopHeaders` -/

/-- C1: the claim says every stripped request carries `Connection: close`, also
when the old `Connection` value lists the token `Connection`. On the request
with the single header `Connection: Connection` the code sets `Connection: close`
and then deletes it again in the token loop: the stripped request has no
`Connection` header at all. -/
theorem strip_deletes_connection_close_on_connection_token :
    Header.lookup "Connection"
        (StripHopByHopHeaders
          ⟨"GET", "http", "example.com", "example.com",
            [("Connection", ["Connection"])]⟩).Header = none
      ∧ (StripHopByHopHeaders
          ⟨"GET", "http", "example.com", "example.com",
            [("Connection", ["Connection"])]⟩).Header.Get "Connection" ≠ "close" := by
  decide

/-- C2: after `StripHopByHopHeaders` none of the seven hop-by-hop headers
(`Proxy-Connection`, `Proxy-Authenticate`, `Proxy-Authorization`, `TE`,
`Trailers`, `Transfer-Encoding`, `Upgrade`) is present in the request's header
map, whatever the request's headers were. -/
theorem strip_removes_hop_by_hop (request : Request) (n : String)
    (hn : n ∈ hopByHopHeaders) :
    Header.lookup (CanonicalMIMEHeaderKey n) (StripHopByHopHeaders request).Header = none
      ∧ (StripHopByHopHeaders request).Header.Get n = "" := by
  have h1 : Header.lookup (CanonicalMIMEHeaderKey n)
      (StripHopByHopHeaders request).Header = none := by
    show Header.lookup _ (stripHeader request.Header) = none
    rw [stripHeader_eq]
    apply lookup_stripConnection_none
    · simp only [hopByHopHeaders, List.mem_cons, List.mem_singleton, List.not_mem_nil,
        or_false] at hn
      rcases hn with h1 | h1 | h1 | h1 | h1 | h1 | h1 <;> subst h1 <;> decide
    · exact lookup_delHopByHop_mem _ n hn
  refine ⟨h1, ?_⟩
  unfold Header.Get
  rw [h1]

/-- Witness of C2 on a request that carries all seven headers and lists one of
them in its `Connection` header. -/
theorem strip_removes_hop_by_hop_witness :
    "TE" ∈ hopByHopHeaders
      ∧ Header.lookup (CanonicalMIMEHeaderKey "TE")
          (StripHopByHopHeaders
            ⟨"GET", "http", "example.com", "example.com",
              [("Te", ["trailers"]), ("Connection", ["TE, Upgrade"]),
                ("Upgrade", ["h2c"]), ("Proxy-Connection", ["keep-alive"]),
                ("Proxy-Authenticate", ["a"]), ("Proxy-Authorization", ["b"]),
                ("Trailers", ["c"]), ("Transfer-Encoding", ["chunked"])]⟩).Header = none
      ∧ (StripHopByHopHeaders
            ⟨"GET", "http", "example.com", "example.com",
              [("Te", ["trailers"]), ("Connection", ["TE, Upgrade"]),
                ("Upgrade", ["h2c"]), ("Proxy-Connection", ["keep-alive"]),
                ("Proxy-Authenticate", ["a"]), ("Proxy-Authorization", ["b"]),
                ("Trailers", ["c"]), ("Transfer-Encoding", ["chunked"])]⟩).Header.Get "TE"
          = "" :=
  ⟨by decide, strip_removes_hop_by_hop _ "TE" (by decide)⟩

/-- C3: when the old `Connection` header value is non-empty, every header named
by one of its comma-separated, whitespace-trimmed tokens is absent from the
request after `StripHopByHopHeaders`. -/
theorem strip_removes_listed_headers (request : Request)
    (hne : request.Header.Get "Connection" ≠ "") (t : String)
    (ht : t ∈ (SplitComma (request.Header.Get "Connection")).map TrimSpace) :
    Header.lookup (CanonicalMIMEHeaderKey t) (StripHopByHopHeaders request).Header = none := by
  show Header.lookup _ (stripHeader request.Header) = none
  rw [stripHeader_eq]
  unfold stripConnection
  simp only [Get_Connection_delHopByHop]
  have hc : ¬ (request.Header.Get "Connection").length = 0 := fun h1 =>
    hne ((String.length_eq_zero_iff_empty _).mp h1)
  simp only [hc, if_false]
  obtain ⟨t0, ht0, rfl⟩ := List.mem_map.mp ht
  exact Header.lookup_foldl_Del_mem _ _ t0 ht0

/-- Witness of C3: scenario 4 of the specification, with the token written in
lower case. -/
theorem strip_removes_listed_headers_witness :
    Header.Get [("Connection", ["X-Custom-A, x-custom-b"]), ("X-Custom-A", ["1"]),
        ("X-Custom-B", ["2"]), ("X-Keep", ["3"])] "Connection" ≠ ""
      ∧ "x-custom-b" ∈ (SplitComma (Header.Get [("Connection", ["X-Custom-A, x-custom-b"]),
          ("X-Custom-A", ["1"]), ("X-Custom-B", ["2"]), ("X-Keep", ["3"])]
          "Connection")).map TrimSpace
      ∧ Header.lookup (CanonicalMIMEHeaderKey "x-custom-b")
          (StripHopByHopHeaders
            ⟨"GET", "http", "example.com", "example.com",
              [("Connection", ["X-Custom-A, x-custom-b"]), ("X-Custom-A", ["1"]),
                ("X-Custom-B", ["2"]), ("X-Keep", ["3"])]⟩).Header = none :=
  ⟨by decide, by decide,
    strip_removes_listed_headers
      ⟨"GET", "http", "example.com", "example.com",
        [("Connection", ["X-Custom-A, x-custom-b"]), ("X-Custom-A", ["1"]),
          ("X-Custom-B", ["2"]), ("X-Keep", ["3"])]⟩ (by decide) "x-custom-b" (by decide)⟩

/-- C4: a header whose name is not (the canonical form of) one of the seven
unconditionally deleted names, is not `Connection`, and is not named by a token
of a non-empty old `Connection` value keeps its values through
`StripHopByHopHeaders`; when the old `Connection` value is empty the token
condition is void, so no header other than the seven and `Connection` changes. -/
theorem strip_frame (request : Request) (k : String)
    (h7 : k ∉ hopByHopHeaders.map CanonicalMIMEHeaderKey) (hc : k ≠ "Connection")
    (ht : request.Header.Get "Connection" ≠ "" →
      ∀ t ∈ (SplitComma (request.Header.Get "Connection")).map TrimSpace,
        CanonicalMIMEHeaderKey t ≠ k) :
    Header.lookup k (StripHopByHopHeaders request).Header = Header.lookup k request.Header := by
  show Header.lookup _ (stripHeader request.Header) = _
  rw [stripHeader_eq]
  unfold stripConnection
  simp only [Get_Connection_delHopByHop]
  have hset : Header.lookup k ((delHopByHop request.Header).Set "Connection" "close")
      = Header.lookup k request.Header := by
    rw [lookup_Set_ne _ _ _ (by rw [canonical_Connection]; exact hc),
      lookup_delHopByHop_frame _ _ h7]
  by_cases hl : (request.Header.Get "Connection").length = 0
  · simp only [hl, if_true]
    exact hset
  · simp only [hl, if_false]
    have hne : request.Header.Get "Connection" ≠ "" := fun h1 =>
      hl ((String.length_eq_zero_iff_empty _).mpr h1)
    rw [Header.lookup_foldl_Del_frame, hset]
    intro t0 ht0
    exact ht hne (TrimSpace t0) (List.mem_map_of_mem _ ht0)

/-- Witness of C4: scenario 4 of the specification retains `X-Keep: 3`. -/
theorem strip_frame_witness :
    "X-Keep" ∉ hopByHopHeaders.map CanonicalMIMEHeaderKey ∧ "X-Keep" ≠ "Connection"
      ∧ Header.lookup "X-Keep"
          (StripHopByHopHeaders
            ⟨"GET", "http", "example.com", "example.com",
              [("Connection", ["X-Custom-A, X-Custom-B"]), ("X-Custom-A", ["1"]),
                ("X-Custom-B", ["2"]), ("X-Keep", ["3"])]⟩).Header = some ["3"] :=
  ⟨by decide, by decide,
    strip_frame
      ⟨"GET", "http", "example.com", "example.com",
        [("Connection", ["X-Custom-A, X-Custom-B"]), ("X-Custom-A", ["1"]),
          ("X-Custom-B", ["2"]), ("X-Keep", ["3"])]⟩ "X-Keep" (by decide) (by decide)
      (by decide)⟩

/-! ## Decimal text -/

theorem digitVal_digitChar (k : Nat) (hk : k < 10) : digitVal (digitChar k) = some k := by
  revert k
  decide

theorem uitoaLoop_fuel (f1 : Nat) :
    ∀ (f2 n : Nat) (acc : List Char), n < f1 → n < f2 →
      uitoaLoop f1 n acc = uitoaLoop f2 n acc := by
  induction f1 with
  | zero => intro f2 n acc h1; omega
  | succ f1 ih =>
    intro f2 n acc h1 h2
    cases f2 with
    | zero => omega
    | succ f2 =>
      simp only [uitoaLoop]
      by_cases hn : n < 10
      · simp only [hn, if_true]
      · simp only [hn, if_false]
        exact ih f2 (n / 10) _ (by omega) (by omega)

theorem uitoaLoop_acc (f : Nat) :
    ∀ (n : Nat) (acc : List Char), n < f → uitoaLoop f n acc = uitoaLoop f n [] ++ acc := by
  induction f with
  | zero => intro n acc h; omega
  | succ f ih =>
    intro n acc h
    simp only [uitoaLoop]
    by_cases hn : n < 10
    · simp only [hn, if_true, List.singleton_append]
    · simp only [hn, if_false]
      rw [ih (n / 10) (digitChar (n % 10) :: acc) (by omega),
        ih (n / 10) [digitChar (n % 10)] (by omega)]
      simp

theorem uitoaChars_lt (n : Nat) (hn : n < 10) : uitoaChars n = [digitChar n] := by
  simp [uitoaChars, uitoaLoop, hn]

theorem uitoaChars_ge (n : Nat) (hn : 10 ≤ n) :
    uitoaChars n = uitoaChars (n / 10) ++ [digitChar (n % 10)] := by
  have h1 : ¬ n < 10 := by omega
  unfold uitoaChars
  rw [uitoaLoop, if_neg h1, uitoaLoop_acc n (n / 10) _ (by omega)]
  rw [uitoaLoop_fuel n (n / 10 + 1) (n / 10) [] (by omega) (by omega)]

/-- The decimal text of a number consists of digits. -/
theorem digitVal_of_mem_uitoaChars (n : Nat) :
    ∀ c ∈ uitoaChars n, ∃ v, v < 10 ∧ digitVal c = some v := by
  induction n using Nat.strong_induction_on with
  | _ n ih =>
    by_cases hn : n < 10
    · rw [uitoaChars_lt n hn]
      intro c hc
      rw [List.mem_singleton] at hc
      subst hc
      exact ⟨n, hn, digitVal_digitChar n hn⟩
    · rw [uitoaChars_ge n (by omega)]
      intro c hc
      rcases List.mem_append.mp hc with h1 | h1
      · exact ih (n / 10) (by omega) c h1
      · rw [List.mem_singleton] at h1
        subst h1
        exact ⟨n % 10, Nat.mod_lt _ (by omega), digitVal_digitChar _ (Nat.mod_lt _ (by omega))⟩

theorem uitoaChars_ne_nil (n : Nat) : uitoaChars n ≠ [] := by
  by_cases hn : n < 10
  · rw [uitoaChars_lt n hn]; simp
  · rw [uitoaChars_ge n (by omega)]; simp

theorem parseUintLoop_append (ds rest : List Char) :
    ∀ (m v : Nat), parseUintLoop m ds = .ok v →
      parseUintLoop m (ds ++ rest) = parseUintLoop v rest := by
  induction ds with
  | nil =>
    intro m v h
    simp only [parseUintLoop, Except.ok.injEq] at h
    subst h
    rfl
  | cons c cs ih =>
    intro m v h
    simp only [parseUintLoop, List.cons_append] at h ⊢
    cases hd : digitVal c with
    | none => rw [hd] at h; cases h
    | some d =>
      rw [hd] at h
      simp only at h ⊢
      by_cases ho : 2 ^ 64 ≤ m * 10 + d
      · rw [if_pos ho] at h; cases h
      · rw [if_neg ho] at h ⊢
        exact ih _ _ h

theorem parseUintLoop_uitoaChars (n : Nat) (hn : n < 2 ^ 64) :
    parseUintLoop 0 (uitoaChars n) = .ok n := by
  induction n using Nat.strong_induction_on with
  | _ n ih =>
    by_cases h10 : n < 10
    · rw [uitoaChars_lt n h10]
      have h1 : ¬ 2 ^ 64 ≤ n := by omega
      simp [parseUintLoop, digitVal_digitChar n h10]
      omega
    · rw [uitoaChars_ge n (by omega),
        parseUintLoop_append _ _ 0 (n / 10) (ih (n / 10) (by omega) (by omega))]
      have h1 : n / 10 * 10 + n % 10 = n := by omega
      have h2 : ¬ 2 ^ 64 ≤ n := by omega
      simp [parseUintLoop, digitVal_digitChar _ (Nat.mod_lt n (by omega : 0 < 10)), h1]
      omega

/-- `strconv.Atoi` reads the decimal text of a number below `2 ^ 63` back. -/
theorem atoiChars_uitoaChars (n : Nat) (hn : n < 2 ^ 63) :
    atoiChars (uitoaChars n) = .ok (n : Int) := by
  have hne := uitoaChars_ne_nil n
  obtain ⟨c, cs, hcs⟩ := List.exists_cons_of_ne_nil hne
  obtain ⟨v, hv, hd⟩ := digitVal_of_mem_uitoaChars n c (by rw [hcs]; exact List.mem_cons_self _ _)
  have hplus : c ≠ '+' := by
    intro h; subst h; simp [digitVal] at hd
  have hminus : c ≠ '-' := by
    intro h; subst h; simp [digitVal] at hd
  have hp : parseUintChars (uitoaChars n) = .ok n := by
    unfold parseUintChars
    rw [if_neg hne]
    exact parseUintLoop_uitoaChars n (by omega)
  unfold atoiChars
  rw [if_neg hne]
  have hh : (uitoaChars n).head? = some c := by rw [hcs]; rfl
  have hn2 : ¬ 2 ^ 63 ≤ n := by omega
  simp [hh, hplus, hminus, hp]
  omega

theorem decimalValue_ge (ds : List Char) : ∀ n, n ≤ decimalValue n ds := by
  induction ds with
  | nil => intro n; exact Nat.le_refl n
  | cons c cs ih =>
    intro n
    have h := ih (n * 10 + (digitVal c).getD 0)
    simp only [decimalValue]
    omega

/-- The digit loop of `ParseUint` succeeds exactly on digits whose value fits 64
bits, with that value. -/
theorem parseUintLoop_ok_iff (ds : List Char) :
    ∀ (n v : Nat), n < 2 ^ 64 →
      (parseUintLoop n ds = .ok v ↔
        (∀ c ∈ ds, (digitVal c).isSome = true) ∧ decimalValue n ds < 2 ^ 64
          ∧ v = decimalValue n ds) := by
  induction ds with
  | nil =>
    intro n v hn
    simp only [parseUintLoop, decimalValue, Except.ok.injEq, List.not_mem_nil, false_implies,
      implies_true, true_and]
    constructor
    · intro h; exact ⟨hn, h.symm⟩
    · intro h; exact h.2.symm
  | cons c cs ih =>
    intro n v hn
    cases hd : digitVal c with
    | none =>
      simp only [parseUintLoop, hd, List.mem_cons, forall_eq_or_imp, Option.isSome_none,
        Bool.false_eq_true, false_and, iff_false]
      intro h
      cases h
    | some d =>
      by_cases ho : 2 ^ 64 ≤ n * 10 + d
      · have hge := decimalValue_ge cs (n * 10 + d)
        simp only [parseUintLoop, hd, if_pos ho, decimalValue, Option.getD_some]
        constructor
        · intro h; cases h
        · intro h; omega
      · have h := ih (n * 10 + d) v (by omega)
        simp only [parseUintLoop, hd, if_neg ho, decimalValue, Option.getD_some,
          List.mem_cons, forall_eq_or_imp, Option.isSome_some, true_and]
        exact h

/-- `strconv.Atoi` accepts exactly the texts of integers. -/
theorem Atoi_ok_iff (s : String) : (∃ v, Atoi s = .ok v) ↔ IsIntegerText s := by
  unfold Atoi atoiChars IsIntegerText
  by_cases he : s.data = []
  · simp [he]
  · rw [if_neg he]
    simp only
    generalize hbody : (if s.data.head? = some '+' ∨ s.data.head? = some '-'
      then s.data.drop 1 else s.data) = body
    unfold parseUintChars
    by_cases hb : body = []
    · simp [hb]
    · rw [if_neg hb]
      cases hp : parseUintLoop 0 body with
      | error e =>
        have hno : ¬ ((∀ c ∈ body, (digitVal c).isSome = true) ∧ decimalValue 0 body < 2 ^ 64) := by
          intro h
          have h1 := (parseUintLoop_ok_iff body 0 (decimalValue 0 body) (by omega)).mpr
            ⟨h.1, h.2, rfl⟩
          rw [hp] at h1
          cases h1
        constructor
        · rintro ⟨v, hv⟩; cases hv
        · rintro ⟨_, hdig, hrange⟩
          exfalso
          apply hno
          refine ⟨hdig, ?_⟩
          split at hrange <;> omega
      | ok un =>
        obtain ⟨hdig, hlt, hun⟩ := (parseUintLoop_ok_iff body 0 un (by omega)).mp hp
        subst hun
        by_cases hneg : s.data.head? = some '-'
        · simp only [hneg, decide_True, not_true_eq_false, false_and, if_false, true_and,
            if_true]
          by_cases hr : 2 ^ 63 < decimalValue 0 body
          · simp only [if_pos hr]
            constructor
            · rintro ⟨v, hv⟩; cases hv
            · intro h; omega
          · simp only [if_neg hr]
            exact ⟨fun _ => ⟨hb, hdig, by omega⟩, fun _ => ⟨_, rfl⟩⟩
        · simp only [hneg, decide_False, not_false_eq_true, true_and, false_and, if_false,
            Bool.false_eq_true]
          by_cases hr : 2 ^ 63 ≤ decimalValue 0 body
          · simp only [if_pos hr]
            constructor
            · rintro ⟨v, hv⟩; cases hv
            · intro h; omega
          · simp only [if_neg hr]
            exact ⟨fun _ => ⟨hb, hdig, by omega⟩, fun _ => ⟨_, rfl⟩⟩

theorem Atoi_error_iff (s : String) : (∃ err, Atoi s = .error err) ↔ ¬ IsIntegerText s := by
  rw [← Atoi_ok_iff]
  cases Atoi s with
  | error e => simp
  | ok v => simp

/-! ## `SplitHostPort` -/

theorem byteIndex_eq_none {s : List Char} {c : Char} (h : c ∉ s) : byteIndex s c = none := by
  induction s with
  | nil => rfl
  | cons x xs ih =>
    have h1 : x ≠ c := fun h2 => h (h2 ▸ List.mem_cons_self _ _)
    have h2 : c ∉ xs := fun h3 => h (List.mem_cons_of_mem _ h3)
    simp [byteIndex, h1, ih h2]

theorem byteIndex_isSome_of_mem {s : List Char} {c : Char} (h : c ∈ s) :
    (byteIndex s c).isSome = true := by
  induction s with
  | nil => cases h
  | cons x xs ih =>
    by_cases h1 : x = c
    · simp [byteIndex, h1]
    · have h2 : c ∈ xs := by
        rcases List.mem_cons.mp h with h3 | h3
        · exact absurd h3.symm h1
        · exact h3
      have h3 := ih h2
      simp only [byteIndex, h1, if_false, Option.isSome_map']
      exact h3

theorem byteIndex_append_cons {s : List Char} {c : Char} (t : List Char) (h : c ∉ s) :
    byteIndex (s ++ c :: t) c = some s.length := by
  induction s with
  | nil => simp [byteIndex]
  | cons x xs ih =>
    have h1 : x ≠ c := fun h2 => h (h2 ▸ List.mem_cons_self _ _)
    have h2 : c ∉ xs := fun h3 => h (List.mem_cons_of_mem _ h3)
    simp [byteIndex, h1, ih h2]

theorem last_eq_none {s : List Char} {c : Char} (h : c ∉ s) : last s c = none := by
  induction s with
  | nil => rfl
  | cons x xs ih =>
    have h1 : x ≠ c := fun h2 => h (h2 ▸ List.mem_cons_self _ _)
    have h2 : c ∉ xs := fun h3 => h (List.mem_cons_of_mem _ h3)
    simp [last, h1, ih h2]

theorem last_append_cons (s : List Char) {c : Char} {t : List Char} (h : c ∉ t) :
    last (s ++ c :: t) c = some s.length := by
  induction s with
  | nil => simp [last, last_eq_none h]
  | cons x xs ih => simp [last, ih]

/-- An unbracketed `host:port` is split at its colon. -/
theorem splitHostPortChars_plain (host port : List Char)
    (hh : ∀ c ∈ host, c ≠ ':' ∧ c ≠ '[' ∧ c ≠ ']' ∧ c ≠ '%')
    (hp : ∀ c ∈ port, c ≠ ':' ∧ c ≠ '[' ∧ c ≠ ']') :
    splitHostPortChars (host ++ ':' :: port) = .ok (host, port) := by
  have h1 : last (host ++ ':' :: port) ':' = some host.length :=
    last_append_cons host (fun h => (hp _ h).1 rfl)
  have h2 : (host ++ ':' :: port).head? ≠ some '[' := by
    cases host with
    | nil => simp
    | cons x xs =>
      simp only [List.cons_append, List.head?_cons, ne_eq, Option.some.injEq]
      exact (hh x (List.mem_cons_self _ _)).2.1
  have h3 : byteIndex host ':' = none := byteIndex_eq_none (fun h => (hh _ h).1 rfl)
  have h4 : byteIndex host '%' = none := byteIndex_eq_none (fun h => (hh _ h).2.2.2 rfl)
  have h5 : byteIndex (host ++ ':' :: port) '[' = none := by
    apply byteIndex_eq_none
    intro h
    rcases List.mem_append.mp h with h | h
    · exact (hh _ h).2.1 rfl
    · rcases List.mem_cons.mp h with h | h
      · exact absurd h (by decide)
      · exact (hp _ h).2.1 rfl
  have h6 : byteIndex (host ++ ':' :: port) ']' = none := by
    apply byteIndex_eq_none
    intro h
    rcases List.mem_append.mp h with h | h
    · exact (hh _ h).2.2.1 rfl
    · rcases List.mem_cons.mp h with h | h
      · exact absurd h (by decide)
      · exact (hp _ h).2.2 rfl
  unfold splitHostPortChars
  rw [h1]
  simp only [if_neg h2, List.take_left', h3, h4, Option.isSome_none, Bool.false_eq_true,
    if_false, splitHostPortTail, List.drop_zero, h5, h6]
  simp

/-- A bracketed `[host]:port` is split into the text between the brackets and
the text after the colon. -/
theorem splitHostPortChars_bracket (host port : List Char)
    (hh : ∀ c ∈ host, c ≠ '[' ∧ c ≠ ']')
    (hp : ∀ c ∈ port, c ≠ ':' ∧ c ≠ '[' ∧ c ≠ ']') :
    splitHostPortChars ('[' :: (host ++ ']' :: ':' :: port)) = .ok (host, port) := by
  have h1 : last ('[' :: (host ++ ']' :: ':' :: port)) ':' = some (host.length + 2) := by
    have h := last_append_cons ('[' :: (host ++ [']'])) (c := ':') (t := port)
      (fun h => (hp _ h).1 rfl)
    simpa using h
  have h2 : byteIndex ('[' :: (host ++ ']' :: ':' :: port)) ']' = some (host.length + 1) := by
    have h := byteIndex_append_cons (s := host) (c := ']') (':' :: port)
      (fun h => (hh _ h).2 rfl)
    simp [byteIndex, h]
  have h3 : byteIndex (host ++ ']' :: ':' :: port) '[' = none := by
    apply byteIndex_eq_none
    intro h
    rcases List.mem_append.mp h with h | h
    · exact (hh _ h).1 rfl
    · rcases List.mem_cons.mp h with h | h
      · exact absurd h (by decide)
      · rcases List.mem_cons.mp h with h | h
        · exact absurd h (by decide)
        · exact (hp _ h).2.1 rfl
  have h4 : byteIndex (':' :: port) ']' = none := by
    apply byteIndex_eq_none
    intro h
    rcases List.mem_cons.mp h with h | h
    · exact absurd h (by decide)
    · exact (hp _ h).2.2 rfl
  have h5 : ('[' :: (host ++ ']' :: ':' :: port)).drop (host.length + 1 + 1) = ':' :: port := by
    simp
  have h6 : ('[' :: (host ++ ']' :: ':' :: port)).drop (host.length + 2 + 1) = port := by
    simp
  have h7 : (('[' :: (host ++ ']' :: ':' :: port)).take (host.length + 1)).drop 1 = host := by
    have h := @List.take_left' Char ('[' :: host) (']' :: ':' :: port) (host.length + 1)
      (by simp)
    simp only [List.cons_append] at h
    rw [h]
    rfl
  have h8 : ¬ host.length + 1 + 1 = ('[' :: (host ++ ']' :: ':' :: port)).length := by
    simp only [List.length_cons, List.length_append]
    omega
  unfold splitHostPortChars
  rw [h1]
  simp only [List.head?_cons, if_true, h2, if_neg h8]
  unfold splitHostPortTail
  rw [h5, h6, h7]
  simp [h3, h4]

/-- A text without a colon has no port. -/
theorem splitHostPortChars_no_colon (s : List Char) (h : ':' ∉ s) :
    splitHostPortChars s = .error ⟨"missing port in address", ⟨s⟩⟩ := by
  unfold splitHostPortChars
  rw [last_eq_none h]

/-- A bracketed host with nothing after the closing bracket has no port. -/
theorem splitHostPortChars_bracket_only (host : List Char) (hh : ']' ∉ host) :
    splitHostPortChars ('[' :: (host ++ [']']))
      = .error ⟨"missing port in address", ⟨'[' :: (host ++ [']'])⟩⟩ := by
  have h2 : byteIndex ('[' :: (host ++ [']'])) ']' = some (host.length + 1) := by
    have h := byteIndex_append_cons (s := host) (c := ']') [] hh
    simp [byteIndex, h]
  unfold splitHostPortChars
  cases hl : last ('[' :: (host ++ [']'])) ':' with
  | none => rfl
  | some i =>
    simp only [List.head?_cons, if_true, h2]
    rw [if_pos (by simp)]

/-- The errors of `SplitHostPort`: one of six messages, about the given text. -/
theorem splitHostPortChars_error (s : List Char) (e : AddrError)
    (h : splitHostPortChars s = .error e) :
    e.Addr = ⟨s⟩ ∧ (e.Err = "missing port in address" ∨ e.Err = "too many colons in address"
      ∨ e.Err = "missing brackets in address" ∨ e.Err = "missing ']' in address"
      ∨ e.Err = "unexpected '[' in address" ∨ e.Err = "unexpected ']' in address") := by
  unfold splitHostPortChars splitHostPortTail at h
  split at h
  · cases h; simp
  · split at h
    · split at h
      · cases h; simp
      · split at h
        · cases h; simp
        · split at h
          · split at h
            · cases h; simp
            · split at h
              · cases h; simp
              · cases h
          · split at h
            · cases h; simp
            · cases h; simp
    · simp only at h
      split at h
      · cases h; simp
      · split at h
        · cases h; simp
        · split at h
          · cases h; simp
          · split at h
            · cases h; simp
            · cases h

/-- Among the errors of `SplitHostPort` only `missing port in address` passes the
test `strings.Contains(addrError.Err, "missing port")` of `parseHost`. -/
theorem Contains_missing_port_iff (s : List Char) (e : AddrError)
    (h : splitHostPortChars s = .error e) :
    Contains e.Err "missing port" = true ↔ e.Err = "missing port in address" := by
  obtain ⟨_, h1 | h1 | h1 | h1 | h1 | h1⟩ := splitHostPortChars_error s e h <;>
    rw [h1] <;> decide

/-! ## Claims about `parseHost` -/

theorem hostDestination_eq (host : String) (port : Port) :
    hostDestination host port
      = ⟨.TCP, (match ParseIP host with
          | some ip => IPAddress ip
          | none => DomainAddress host), port⟩ := by
  unfold hostDestination TCPDestination
  cases ParseIP host <;> rfl

theorem uitoaChars_not_special (p : Nat) :
    ∀ c ∈ uitoaChars p, c ≠ ':' ∧ c ≠ '[' ∧ c ≠ ']' := by
  intro c hc
  obtain ⟨v, _, hv⟩ := digitVal_of_mem_uitoaChars p c hc
  refine ⟨?_, ?_, ?_⟩ <;> intro h <;> subst h <;> simp [digitVal] at hv

theorem toPort_natCast (p : Nat) (hp : p ≤ 65535) : toPort (p : Int) = p := by
  unfold toPort
  have h1 : (p : Int) % 65536 = (p : Int) := by omega
  rw [h1]
  exact Int.toNat_ofNat p

/-- `parseHost` on `host:port` with a plain host and a decimal port. -/
theorem parseHost_plain_port (host : List Char) (p : Nat) (d : Port) (hp : p ≤ 65535)
    (hh : ∀ c ∈ host, c ≠ ':' ∧ c ≠ '[' ∧ c ≠ ']' ∧ c ≠ '%') :
    parseHost ⟨host ++ ':' :: uitoaChars p⟩ d = .ok (hostDestination ⟨host⟩ p) := by
  unfold parseHost SplitHostPort
  simp only [splitHostPortChars_plain host _ hh (uitoaChars_not_special p), Atoi,
    atoiChars_uitoaChars p (by omega), toPort_natCast p hp]

/-- `parseHost` on `[host]:port` with a decimal port. -/
theorem parseHost_bracket_port (host : List Char) (p : Nat) (d : Port) (hp : p ≤ 65535)
    (hh : ∀ c ∈ host, c ≠ '[' ∧ c ≠ ']') :
    parseHost ⟨'[' :: (host ++ ']' :: ':' :: uitoaChars p)⟩ d
      = .ok (hostDestination ⟨host⟩ p) := by
  unfold parseHost SplitHostPort
  simp only [splitHostPortChars_bracket host _ hh (uitoaChars_not_special p), Atoi,
    atoiChars_uitoaChars p (by omega), toPort_natCast p hp]

/-- `parseHost` on a text for which `SplitHostPort` reports a missing port. -/
theorem parseHost_missing_port (rawHost : String) (d : Port)
    (h : splitHostPortChars rawHost.data = .error ⟨"missing port in address", rawHost⟩) :
    parseHost rawHost d = .ok (hostDestination rawHost d) := by
  unfold parseHost SplitHostPort
  rw [h]
  have hc : Contains "missing port in address" "missing port" = true := by decide
  simp only [hc, if_true]

/-- C6: `parseHost` returns an error exactly when `SplitHostPort` fails with an
error other than `missing port in address`, or it splits the raw host and the
port text is not the text of an integer; when the error is `missing port in
address` the call succeeds with the TCP destination whose address is built from
the whole raw host and whose port is the default port. -/
theorem parseHost_error_iff (rawHost : String) (defaultPort : Port) :
    ((∃ err, parseHost rawHost defaultPort = .error err) ↔
      ((∃ e, SplitHostPort rawHost = .error e ∧ e.Err ≠ "missing port in address")
        ∨ ∃ host rawPort,
            SplitHostPort rawHost = .ok (host, rawPort) ∧ ¬ IsIntegerText rawPort))
      ∧ ∀ e, SplitHostPort rawHost = .error e → e.Err = "missing port in address" →
          parseHost rawHost defaultPort
            = .ok ⟨.TCP, (match ParseIP rawHost with
                | some ip => IPAddress ip
                | none => DomainAddress rawHost), defaultPort⟩ := by
  have hsplit : ∀ e, SplitHostPort rawHost = .error e →
      splitHostPortChars rawHost.data = .error e := by
    intro e he
    unfold SplitHostPort at he
    cases hs : splitHostPortChars rawHost.data with
    | error e1 => rw [hs] at he; cases he; rfl
    | ok r => rw [hs] at he; cases he
  constructor
  · cases hs : SplitHostPort rawHost with
    | error e =>
      have hiff := Contains_missing_port_iff rawHost.data e (hsplit e hs)
      by_cases hc : Contains e.Err "missing port" = true
      · have hok : parseHost rawHost defaultPort = .ok (hostDestination rawHost defaultPort) := by
          unfold parseHost
          rw [hs]
          simp only [hc, if_true]
        constructor
        · rintro ⟨err, herr⟩
          rw [hok] at herr
          cases herr
        · rintro (⟨e1, he1, hne⟩ | ⟨host, rawPort, he1, _⟩)
          · cases he1
            exact absurd (hiff.mp hc) hne
          · cases he1
      · have herr : parseHost rawHost defaultPort = .error (.addr e) := by
          unfold parseHost
          rw [hs]
          simp only [hc, if_false]
          rfl
        constructor
        · intro _
          exact Or.inl ⟨e, rfl, fun h1 => hc (hiff.mpr h1)⟩
        · intro _
          exact ⟨_, herr⟩
    | ok r =>
      obtain ⟨host, rawPort⟩ := r
      cases ha : Atoi rawPort with
      | error err =>
        have herr : parseHost rawHost defaultPort = .error (.num err) := by
          unfold parseHost
          rw [hs]
          simp only [ha]
        constructor
        · intro _
          exact Or.inr ⟨host, rawPort, rfl, (Atoi_error_iff rawPort).mp ⟨err, ha⟩⟩
        · intro _
          exact ⟨_, herr⟩
      | ok intPort =>
        have hok : parseHost rawHost defaultPort
            = .ok (hostDestination host (toPort intPort)) := by
          unfold parseHost
          rw [hs]
          simp only [ha]
        constructor
        · rintro ⟨err, herr⟩
          rw [hok] at herr
          cases herr
        · rintro (⟨e1, he1, _⟩ | ⟨host1, rawPort1, he1, hnot⟩)
          · cases he1
          · cases he1
            exact absurd ((Atoi_ok_iff rawPort).mp ⟨intPort, ha⟩) hnot
  · intro e he hmsg
    have h1 := hsplit e he
    obtain ⟨haddr, _⟩ := splitHostPortChars_error rawHost.data e h1
    have h2 : e = ⟨"missing port in address", rawHost⟩ := by
      cases e
      simp only at hmsg haddr
      rw [hmsg, haddr]
    rw [h2] at h1
    rw [parseHost_missing_port rawHost defaultPort h1, hostDestination_eq]

/-- Witness of C6 on `example.com`, where the port is missing. -/
theorem parseHost_error_iff_witness :
    parseHost "example.com" 443 = .ok ⟨.TCP, .Domain "example.com", 443⟩ :=
  (parseHost_error_iff "example.com" 443).2 ⟨"missing port in address", "example.com"⟩
    (by decide) rfl

/-- C7: for a host `h` in `host[:port]` syntax, a port `p` in `0..65535` and any
default port `d`, `parseHost` on `h:p` returns a TCP destination with port `p`,
and `parseHost` on `h` alone returns a TCP destination with port `d`. -/
theorem parseHost_port (h : String) (p : Nat) (d : Port) (hp : p ≤ 65535) (hh : IsHost h) :
    (∃ a, parseHost (h ++ ":" ++ uitoa p) d = .ok ⟨.TCP, a, p⟩)
      ∧ ∃ a, parseHost h d = .ok ⟨.TCP, a, d⟩ := by
  have hdata : (h ++ ":" ++ uitoa p).data = h.data ++ ':' :: uitoaChars p := by
    simp [String.data_append, uitoa]
  have hstr : h ++ ":" ++ uitoa p = ⟨h.data ++ ':' :: uitoaChars p⟩ := by
    rw [← hdata]
  rcases hh with hplain | ⟨x, hx, hxb⟩
  · constructor
    · rw [hstr, parseHost_plain_port h.data p d hp hplain, hostDestination_eq]
      exact ⟨_, rfl⟩
    · have hm := splitHostPortChars_no_colon h.data (fun hc => (hplain _ hc).1 rfl)
      rw [parseHost_missing_port h d hm, hostDestination_eq]
      exact ⟨_, rfl⟩
  · constructor
    · have h1 : h.data ++ ':' :: uitoaChars p = '[' :: (x ++ ']' :: ':' :: uitoaChars p) := by
        rw [hx]; simp
      rw [hstr, h1, parseHost_bracket_port x p d hp hxb, hostDestination_eq]
      exact ⟨_, rfl⟩
    · have hm := splitHostPortChars_bracket_only x (fun hc => (hxb _ hc).2 rfl)
      rw [← hx] at hm
      rw [parseHost_missing_port h d hm, hostDestination_eq]
      exact ⟨_, rfl⟩

/-- Witness of C7 on `example.com`, port 8080, default port 80. -/
theorem parseHost_port_witness :
    (∃ a, parseHost ("example.com" ++ ":" ++ uitoa 8080) 80 = .ok ⟨.TCP, a, 8080⟩)
      ∧ ∃ a, parseHost "example.com" 80 = .ok ⟨.TCP, a, 80⟩ :=
  parseHost_port "example.com" 8080 80 (by decide) (Or.inl (by decide))

/-- C8: the claim says a bracketed IPv6 literal without a port, such as `[::1]`,
yields the IP address form. The code hands the raw host, brackets included, to
`net.ParseIP`, which rejects it: the address is the domain `[::1]`; with a port,
`[::1]:80`, the brackets are removed and the address is the IPv6 address. -/
theorem parseHost_bracketed_ipv6_without_port :
    parseHost "[::1]" 80 = .ok ⟨.TCP, .Domain "[::1]", 80⟩
      ∧ parseHost "[::1]:80" 80
        = .ok ⟨.TCP, .IPv6 [0, 0, 0, 0, 0, 0, 0, 0, 0, 0, 0, 0, 0, 0, 0, 1], 80⟩ := by
  decide

/-! ## Hexadecimal text -/

theorem hexVal_hexDigit (d : Nat) (hd : d < 16) : hexVal (hexDigit d) = some d := by
  revert d
  decide

theorem hexDigit_not_special (d : Nat) (hd : d < 16) :
    hexDigit d ≠ ':' ∧ hexDigit d ≠ '.' ∧ hexDigit d ≠ '[' ∧ hexDigit d ≠ ']' := by
  revert d
  decide

/-- The text of a group, by the number of its digits. -/
theorem hexChars_cases (g : Nat) (hg : g < 65536) :
    hexChars g = [hexDigit (g % 16)] ∧ g < 16
      ∨ hexChars g = [hexDigit (g / 16 % 16), hexDigit (g % 16)] ∧ 16 ≤ g ∧ g < 256
      ∨ hexChars g = [hexDigit (g / 256 % 16), hexDigit (g / 16 % 16), hexDigit (g % 16)]
          ∧ 256 ≤ g ∧ g < 4096
      ∨ hexChars g = [hexDigit (g / 4096 % 16), hexDigit (g / 256 % 16),
            hexDigit (g / 16 % 16), hexDigit (g % 16)] ∧ 4096 ≤ g := by
  have e7 : g / 16 ^ 7 = 0 := by norm_num; omega
  have e6 : g / 16 ^ 6 = 0 := by norm_num; omega
  have e5 : g / 16 ^ 5 = 0 := by norm_num; omega
  have e4 : g / 16 ^ 4 = 0 := by norm_num; omega
  have e3 : g / 16 ^ 3 = g / 4096 := by norm_num
  have e2 : g / 16 ^ 2 = g / 256 := by norm_num
  have e1 : g / 16 ^ 1 = g / 16 := by norm_num
  have e0 : g / 16 ^ 0 = g := by norm_num
  unfold hexChars
  by_cases h0 : g = 0
  · left
    subst h0
    exact ⟨by decide, by decide⟩
  · rw [if_neg h0]
    simp only [List.filterMap_cons, List.filterMap_nil, e7, e6, e5, e4, e3, e2, e1, e0,
      Nat.lt_irrefl, if_false]
    by_cases h1 : g < 16
    · left
      have a3 : ¬ 0 < g / 4096 := by omega
      have a2 : ¬ 0 < g / 256 := by omega
      have a1 : ¬ 0 < g / 16 := by omega
      have a0 : 0 < g := by omega
      simp only [a3, a2, a1, a0, if_false, if_true]
      exact ⟨trivial, h1⟩
    · right
      by_cases h2 : g < 256
      · left
        have a3 : ¬ 0 < g / 4096 := by omega
        have a2 : ¬ 0 < g / 256 := by omega
        have a1 : 0 < g / 16 := by omega
        have a0 : 0 < g := by omega
        simp only [a3, a2, a1, a0, if_false, if_true]
        exact ⟨trivial, by omega, h2⟩
      · right
        by_cases h3 : g < 4096
        · left
          have a3 : ¬ 0 < g / 4096 := by omega
          have a2 : 0 < g / 256 := by omega
          have a1 : 0 < g / 16 := by omega
          have a0 : 0 < g := by omega
          simp only [a3, a2, a1, a0, if_false, if_true]
          exact ⟨trivial, by omega, h3⟩
        · right
          have a3 : 0 < g / 4096 := by omega
          have a2 : 0 < g / 256 := by omega
          have a1 : 0 < g / 16 := by omega
          have a0 : 0 < g := by omega
          simp only [a3, a2, a1, a0, if_true]
          exact ⟨trivial, by omega⟩

theorem xtoiLoop_stop (n : Nat) (rest : List Char)
    (hrest : ∀ c, rest.head? = some c → hexVal c = none) :
    xtoiLoop n rest = (n, rest, true) := by
  cases rest with
  | nil => rfl
  | cons c cs =>
    have h := hrest c rfl
    simp [xtoiLoop, h]

theorem xtoiLoop_digit (n d : Nat) (cs : List Char) (hd : d < 16) (hb : n * 16 + d < big) :
    xtoiLoop n (hexDigit d :: cs) = xtoiLoop (n * 16 + d) cs := by
  have h1 : ¬ big ≤ n * 16 + d := by omega
  simp [xtoiLoop, hexVal_hexDigit d hd, h1]

/-- `xtoi` reads the text of a group back and stops behind it. -/
theorem xtoi_hexChars (g : Nat) (rest : List Char) (hg : g < 65536)
    (hrest : ∀ c, rest.head? = some c → hexVal c = none) :
    xtoi (hexChars g ++ rest) = (g, rest, true) := by
  have hbig : big = 16777215 := by decide
  have hloop : xtoiLoop 0 (hexChars g ++ rest) = (g, rest, true)
      ∧ rest.length ≠ (hexChars g ++ rest).length := by
    rcases hexChars_cases g hg with ⟨h, h1⟩ | ⟨h, h1, h2⟩ | ⟨h, h1, h2⟩ | ⟨h, h1⟩
    · rw [h]
      refine ⟨?_, by simp only [List.length_append, List.length_cons, List.length_nil]; omega⟩
      simp only [List.cons_append, List.nil_append]
      rw [xtoiLoop_digit _ _ _ (by omega) (by omega), xtoiLoop_stop _ _ hrest]
      congr 1
      omega
    · rw [h]
      refine ⟨?_, by simp only [List.length_append, List.length_cons, List.length_nil]; omega⟩
      simp only [List.cons_append, List.nil_append]
      rw [xtoiLoop_digit _ _ _ (by omega) (by omega),
        xtoiLoop_digit _ _ _ (by omega) (by omega), xtoiLoop_stop _ _ hrest]
      congr 1
      omega
    · rw [h]
      refine ⟨?_, by simp only [List.length_append, List.length_cons, List.length_nil]; omega⟩
      simp only [List.cons_append, List.nil_append]
      rw [xtoiLoop_digit _ _ _ (by omega) (by omega),
        xtoiLoop_digit _ _ _ (by omega) (by omega),
        xtoiLoop_digit _ _ _ (by omega) (by omega), xtoiLoop_stop _ _ hrest]
      congr 1
      omega
    · rw [h]
      refine ⟨?_, by simp only [List.length_append, List.length_cons, List.length_nil]; omega⟩
      simp only [List.cons_append, List.nil_append]
      rw [xtoiLoop_digit _ _ _ (by omega) (by omega),
        xtoiLoop_digit _ _ _ (by omega) (by omega),
        xtoiLoop_digit _ _ _ (by omega) (by omega),
        xtoiLoop_digit _ _ _ (by omega) (by omega), xtoiLoop_stop _ _ hrest]
      congr 1
      omega
  unfold xtoi
  rw [hloop.1]
  simp only [Bool.not_true, Bool.false_eq_true, if_false, if_neg hloop.2]

theorem hexChars_ne_nil (g : Nat) (hg : g < 65536) : hexChars g ≠ [] := by
  rcases hexChars_cases g hg with ⟨h, _⟩ | ⟨h, _⟩ | ⟨h, _⟩ | ⟨h, _⟩ <;> rw [h] <;> simp

/-- The text of a group consists of hexadecimal digits. -/
theorem hexChars_mem (g : Nat) (hg : g < 65536) :
    ∀ c ∈ hexChars g, ∃ d, d < 16 ∧ c = hexDigit d := by
  intro c hc
  rcases hexChars_cases g hg with ⟨h, _⟩ | ⟨h, _⟩ | ⟨h, _⟩ | ⟨h, _⟩ <;> rw [h] at hc <;>
    simp only [List.mem_cons, List.mem_singleton, List.not_mem_nil, or_false] at hc
  · exact ⟨_, Nat.mod_lt _ (by omega), hc⟩
  · rcases hc with hc | hc <;> exact ⟨_, Nat.mod_lt _ (by omega), hc⟩
  · rcases hc with hc | hc | hc <;> exact ⟨_, Nat.mod_lt _ (by omega), hc⟩
  · rcases hc with hc | hc | hc | hc <;> exact ⟨_, Nat.mod_lt _ (by omega), hc⟩

theorem hexChars_not_special (g : Nat) (hg : g < 65536) :
    ∀ c ∈ hexChars g, c ≠ ':' ∧ c ≠ '.' ∧ c ≠ '[' ∧ c ≠ ']' := by
  intro c hc
  obtain ⟨d, hd, rfl⟩ := hexChars_mem g hg c hc
  exact hexDigit_not_special d hd

theorem hexVal_colon : hexVal ':' = none := by decide

/-- One turn of the loop of `parseIPv6` on the text of a group that is followed
by the end of the text or by a colon. -/
theorem parseIPv6Loop_group (k g : Nat) (s1 : List Char) (ip : List Nat)
    (ellipsis : Option Nat) (hg : g < 65536)
    (hs : ∀ c, s1.head? = some c → c = ':') :
    parseIPv6Loop (k + 1) (hexChars g ++ s1) ip ellipsis
      = afterGroup k s1 (ip ++ [g / 256, g % 256]) ellipsis := by
  have hx := xtoi_hexChars g s1 hg (fun c hc => by rw [hs c hc]; exact hexVal_colon)
  have hdot : s1.head? ≠ some '.' := by
    intro h
    exact absurd (hs _ h) (by decide)
  have hn : ¬ 65535 < g := by omega
  rw [parseIPv6Loop, hx]
  simp only [Bool.not_true, Bool.false_or, decide_eq_true_eq, if_neg hn, if_neg hdot]
  unfold afterGroup
  rfl

theorem head_hexChars_append (g : Nat) (rest : List Char) (hg : g < 65536) :
    ∃ c cs, hexChars g ++ rest = c :: cs ∧ c ≠ ':' ∧ c ≠ '.' := by
  obtain ⟨c, cs, hcs⟩ := List.exists_cons_of_ne_nil (hexChars_ne_nil g hg)
  have hc := hexChars_not_special g hg c (by rw [hcs]; exact List.mem_cons_self _ _)
  exact ⟨c, cs ++ rest, by rw [hcs]; rfl, hc.1, hc.2.1⟩

theorem head_colonGroups (gs : List Nat) (rest : List Char)
    (hrest : ∀ c, rest.head? = some c → c = ':') :
    ∀ c, (colonGroups gs ++ rest).head? = some c → c = ':' := by
  cases gs with
  | nil => simpa [colonGroups] using hrest
  | cons g gs =>
    intro c hc
    simp only [colonGroups, List.flatMap_cons, List.cons_append, List.head?_cons,
      Option.some.injEq] at hc
    exact hc.symm

theorem colonGroups_cons (g : Nat) (gs : List Nat) :
    colonGroups (g :: gs) = ':' :: (hexChars g ++ colonGroups gs) := by
  simp [colonGroups]

theorem joinGroups_cons (g : Nat) (gs : List Nat) :
    joinGroups (g :: gs) = hexChars g ++ colonGroups gs := rfl

theorem bytesOf_cons (g : Nat) (gs : List Nat) :
    bytesOf (g :: gs) = g / 256 :: g % 256 :: bytesOf gs := by
  simp [bytesOf]

theorem bytesOf_append (a b : List Nat) : bytesOf (a ++ b) = bytesOf a ++ bytesOf b := by
  simp [bytesOf]

theorem length_bytesOf (gs : List Nat) : (bytesOf gs).length = 2 * gs.length := by
  induction gs with
  | nil => rfl
  | cons g gs ih => rw [bytesOf_cons]; simp only [List.length_cons, ih]; omega

/-- After a group, a colon and a group before each further group: the loop of
`parseIPv6` stores them all and ends at the end of the text. -/
theorem afterGroup_colonGroups (gs : List Nat) :
    ∀ (k : Nat) (ip : List Nat) (ellipsis : Option Nat), gs.length ≤ k →
      (∀ g ∈ gs, g < 65536) →
      afterGroup k (colonGroups gs) ip ellipsis = some (ip ++ bytesOf gs, ellipsis, []) := by
  induction gs with
  | nil =>
    intro k ip ellipsis _ _
    simp [afterGroup, colonGroups, bytesOf]
  | cons g gs ih =>
    intro k ip ellipsis hk hgs
    have hg : g < 65536 := hgs g (List.mem_cons_self _ _)
    obtain ⟨c, cs, hcs, hc, _⟩ := head_hexChars_append g (colonGroups gs) hg
    cases k with
    | zero => simp at hk
    | succ k =>
      have hstep := parseIPv6Loop_group k g (colonGroups gs) ip ellipsis hg
        (by simpa using head_colonGroups gs [] (by simp))
      rw [colonGroups_cons, afterGroup]
      have h1 : ¬ ((':' : Char) ≠ ':' || decide (hexChars g ++ colonGroups gs = [])) = true := by
        rw [hcs]; simp
      have h2 : (hexChars g ++ colonGroups gs).head? ≠ some ':' := by
        rw [hcs]; simpa using hc
      rw [if_neg h1, if_neg h2, hstep,
        ih k _ ellipsis (by simpa using hk) (fun g1 h => hgs g1 (List.mem_cons_of_mem _ h)),
        bytesOf_cons]
      simp

/-- After a group, further groups, then `::` and the groups behind it: the loop
of `parseIPv6` stores the groups and notes the ellipsis where the `::` stands. -/
theorem afterGroup_ellipsis (A : List Nat) :
    ∀ (k : Nat) (ip B : List Nat), A.length + B.length ≤ k →
      (∀ g ∈ A, g < 65536) → (∀ g ∈ B, g < 65536) →
      afterGroup k (colonGroups A ++ ':' :: ':' :: joinGroups B) ip none
        = some (ip ++ bytesOf A ++ bytesOf B, some (ip.length + 2 * A.length), []) := by
  induction A with
  | nil =>
    intro k ip B hk _ hB
    simp only [colonGroups, List.flatMap_nil, List.nil_append, afterGroup]
    have h1 : ¬ ((':' : Char) ≠ ':' || decide (':' :: joinGroups B = [])) = true := by simp
    rw [if_neg h1]
    simp only [List.head?_cons, if_true, Option.isSome_none, Bool.false_eq_true, if_false,
      List.drop_succ_cons, List.drop_zero]
    cases B with
    | nil => simp [joinGroups, bytesOf]
    | cons b bs =>
      have hb : b < 65536 := hB b (List.mem_cons_self _ _)
      obtain ⟨c, cs, hcs, _, _⟩ := head_hexChars_append b (colonGroups bs) hb
      have h2 : joinGroups (b :: bs) ≠ [] := by
        simp only [joinGroups]; rw [hcs]; simp
      rw [if_neg h2]
      cases k with
      | zero => simp at hk
      | succ k =>
        simp only [joinGroups]
        rw [parseIPv6Loop_group k b (colonGroups bs) ip _ hb
            (by simpa using head_colonGroups bs [] (by simp)),
          afterGroup_colonGroups bs k _ _ (by simpa using hk)
            (fun g1 h => hB g1 (List.mem_cons_of_mem _ h)), bytesOf_cons]
        simp [bytesOf]
  | cons a A ih =>
    intro k ip B hk hA hB
    have ha : a < 65536 := hA a (List.mem_cons_self _ _)
    obtain ⟨c, cs, hcs, hc, _⟩ :=
      head_hexChars_append a (colonGroups A ++ ':' :: ':' :: joinGroups B) ha
    cases k with
    | zero => simp at hk
    | succ k =>
      have hstep := parseIPv6Loop_group k a (colonGroups A ++ ':' :: ':' :: joinGroups B) ip
        none ha (head_colonGroups A _ (by simp))
      rw [colonGroups_cons, List.cons_append, List.append_assoc, afterGroup]
      have h1 : ¬ ((':' : Char) ≠ ':'
          || decide (hexChars a ++ (colonGroups A ++ ':' :: ':' :: joinGroups B) = []))
          = true := by
        rw [hcs]; simp
      have h2 : (hexChars a ++ (colonGroups A ++ ':' :: ':' :: joinGroups B)).head?
          ≠ some ':' := by
        rw [hcs]; simpa using hc
      rw [if_neg h1, if_neg h2, hstep,
        ih k _ B (by simp only [List.length_cons] at hk; omega)
          (fun g1 h => hA g1 (List.mem_cons_of_mem _ h)) hB, bytesOf_cons]
      simp only [List.append_assoc, List.cons_append, List.nil_append, List.length_append,
        List.length_cons, List.length_nil]
      have hlen : ip.length + (0 + 1 + 1) + 2 * A.length = ip.length + 2 * (A.length + 1) := by
        omega
      rw [hlen]

theorem joinGroups_take_two (g : Nat) (gs : List Nat) (rest : List Char) (hg : g < 65536) :
    ((joinGroups (g :: gs) ++ rest).take 2 = [':', ':']) = False := by
  obtain ⟨c, cs, hcs, hc, _⟩ := head_hexChars_append g (colonGroups gs ++ rest) hg
  simp only [joinGroups, List.append_assoc]
  rw [hcs]
  cases cs <;> simp [hc]

/-- `parseIPv6` on eight groups separated by colons. -/
theorem parseIPv6_joinGroups (gs : List Nat) (hlen : gs.length = 8)
    (hgs : ∀ g ∈ gs, g < 65536) : parseIPv6 (joinGroups gs) = some (bytesOf gs) := by
  cases gs with
  | nil => simp at hlen
  | cons g rest =>
    have hg : g < 65536 := hgs g (List.mem_cons_self _ _)
    have hlead := joinGroups_take_two g rest [] hg
    rw [List.append_nil] at hlead
    have hloop : parseIPv6Loop 8 (joinGroups (g :: rest)) [] none
        = some (bytesOf (g :: rest), none, []) := by
      simp only [joinGroups]
      rw [parseIPv6Loop_group 7 g (colonGroups rest) [] none hg
          (by simpa using head_colonGroups rest [] (by simp)),
        afterGroup_colonGroups rest 7 _ none (by simp at hlen; omega)
          (fun g1 h => hgs g1 (List.mem_cons_of_mem _ h)), bytesOf_cons]
      simp
    have hl : ¬ (bytesOf (g :: rest)).length < 16 := by
      rw [length_bytesOf, hlen]; omega
    unfold parseIPv6
    simp only [hlead, decide_False, Bool.false_eq_true, false_and, if_false, hloop, ne_eq,
      not_true_eq_false, if_neg hl, Option.isSome_none]

theorem bytesOf_replicate_zero (n : Nat) :
    bytesOf (List.replicate n 0) = List.replicate (2 * n) 0 := by
  induction n with
  | zero => rfl
  | succ n ih =>
    rw [List.replicate_succ, bytesOf_cons, ih]
    have h : 2 * (n + 1) = (2 * n + 1) + 1 := by omega
    rw [h, List.replicate_succ, List.replicate_succ]

/-- `parseIPv6` on groups, `::`, groups: the ellipsis is filled with zero bytes. -/
theorem parseIPv6_ellipsis (A B : List Nat) (hlen : A.length + B.length < 8)
    (hA : ∀ g ∈ A, g < 65536) (hB : ∀ g ∈ B, g < 65536) :
    parseIPv6 (joinGroups A ++ ':' :: ':' :: joinGroups B)
      = some (bytesOf A ++ List.replicate (16 - 2 * A.length - 2 * B.length) 0 ++ bytesOf B) := by
  cases A with
  | nil =>
    have hlead : (([] : List Char) ++ ':' :: ':' :: joinGroups B).take 2 = [':', ':'] := rfl
    cases B with
    | nil =>
      unfold parseIPv6
      simp [joinGroups, bytesOf]
    | cons b bs =>
      have hb : b < 65536 := hB b (List.mem_cons_self _ _)
      obtain ⟨c, cs, hcs, _, _⟩ := head_hexChars_append b (colonGroups bs) hb
      have hne : ¬ (([] : List Char) ++ ':' :: ':' :: joinGroups (b :: bs)).drop 2 = [] := by
        simp only [joinGroups, List.nil_append, List.drop_succ_cons, List.drop_zero]
        rw [hcs]; simp
      have hloop : parseIPv6Loop 8 (joinGroups (b :: bs)) [] (some 0)
          = some (bytesOf (b :: bs), some 0, []) := by
        simp only [joinGroups]
        rw [parseIPv6Loop_group 7 b (colonGroups bs) [] _ hb
            (by simpa using head_colonGroups bs [] (by simp)),
          afterGroup_colonGroups bs 7 _ _ (by simp at hlen; omega)
            (fun g1 h => hB g1 (List.mem_cons_of_mem _ h)), bytesOf_cons]
        simp
      have hl : (bytesOf (b :: bs)).length < 16 := by
        rw [length_bytesOf]; simp at hlen ⊢; omega
      unfold parseIPv6
      simp only [joinGroups, List.nil_append] at hlead hne ⊢
      simp only [List.take_succ_cons, List.take_zero, decide_True, true_and,
        List.drop_succ_cons, List.drop_zero, if_true]
      rw [if_neg (by simpa using hne)]
      simp only [joinGroups] at hloop
      have hnil : bytesOf [] = [] := rfl
      simp only [hloop, ne_eq, not_true_eq_false, if_false, if_pos hl, List.take_zero,
        List.drop_zero, List.nil_append, length_bytesOf, hnil, List.length_nil]
      have hl2 : 2 * (b :: bs).length < 16 := by
        rw [length_bytesOf] at hl
        exact hl
      simp only [if_pos hl2, Nat.mul_zero, Nat.sub_zero]
  | cons a A =>
    have ha : a < 65536 := hA a (List.mem_cons_self _ _)
    have hlead := joinGroups_take_two a A (':' :: ':' :: joinGroups B) ha
    have hloop : parseIPv6Loop 8 (joinGroups (a :: A) ++ ':' :: ':' :: joinGroups B) [] none
        = some (bytesOf (a :: A) ++ bytesOf B, some (2 * (a :: A).length), []) := by
      rw [show joinGroups (a :: A) = hexChars a ++ colonGroups A from rfl, List.append_assoc]
      rw [parseIPv6Loop_group 7 a (colonGroups A ++ ':' :: ':' :: joinGroups B) [] none ha
          (head_colonGroups A _ (by simp)),
        afterGroup_ellipsis A 7 _ B (by simp at hlen; omega)
          (fun g1 h => hA g1 (List.mem_cons_of_mem _ h)) hB, bytesOf_cons]
      simp only [List.nil_append, List.cons_append, List.length_cons, List.length_nil]
      have h2 : 0 + 1 + 1 + 2 * A.length = 2 * (A.length + 1) := by omega
      rw [h2]
    have hl : (bytesOf (a :: A) ++ bytesOf B).length < 16 := by
      rw [List.length_append, length_bytesOf, length_bytesOf]; omega
    have htake : (bytesOf (a :: A) ++ bytesOf B).take (2 * (a :: A).length)
        = bytesOf (a :: A) := by
      rw [List.take_left']
      exact length_bytesOf _
    have hdrop : (bytesOf (a :: A) ++ bytesOf B).drop (2 * (a :: A).length) = bytesOf B := by
      rw [List.drop_left']
      exact length_bytesOf _
    unfold parseIPv6
    simp only [hlead, decide_False, Bool.false_eq_true, false_and, if_false, hloop, ne_eq,
      not_true_eq_false, if_pos hl, htake, hdrop, List.length_append, length_bytesOf]
    have h3 : 16 - (2 * (a :: A).length + 2 * B.length)
        = 16 - 2 * (a :: A).length - 2 * B.length := by omega
    have hl2 : 2 * (a :: A).length + 2 * B.length < 16 := by
      rw [List.length_append, length_bytesOf, length_bytesOf] at hl
      exact hl
    rw [h3, if_pos hl2]

/-! ## The text of an IPv6 address -/

theorem drop_eq_getD_cons (gs : List Nat) :
    ∀ k, k < gs.length → gs.drop k = gs.getD k 0 :: gs.drop (k + 1) := by
  induction gs with
  | nil => intro k hk; simp at hk
  | cons g gs ih =>
    intro k hk
    cases k with
    | zero => rfl
    | succ k =>
      have h := ih k (by simpa using hk)
      simpa using h

theorem getD_take (gs : List Nat) :
    ∀ k e, k < e → (gs.take e).getD k 0 = gs.getD k 0 := by
  induction gs with
  | nil => intro k e _; simp
  | cons g gs ih =>
    intro k e hke
    cases e with
    | zero => omega
    | succ e =>
      cases k with
      | zero => rfl
      | succ k =>
        have h := ih k e (by omega)
        simpa using h

/-- Behind the run (or without one) the second loop of `IP.String` writes a
colon and the text of every remaining group. -/
theorem ipv6TextLoop_tail (gs : List Nat) (run : Option (Nat × Nat)) (fuel : Nat) :
    ∀ k, 0 < k → gs.length - k ≤ fuel → (∀ e0 e1, run = some (e0, e1) → e0 < k) →
      ipv6TextLoop fuel gs k run = colonGroups (gs.drop k) := by
  induction fuel with
  | zero =>
    intro k _ hf _
    have h : gs.length ≤ k := by omega
    simp [ipv6TextLoop, List.drop_eq_nil_of_le h, colonGroups]
  | succ fuel ih =>
    intro k hk hf hrun
    by_cases hlt : k < gs.length
    · have hrec := ih (k + 1) (by omega) (by omega)
        (fun e0 e1 h => by have := hrun e0 e1 h; omega)
      rw [drop_eq_getD_cons gs k hlt, colonGroups_cons]
      cases run with
      | none =>
        rw [ipv6TextLoop, if_pos hlt]
        simp [hk, hrec]
      | some r =>
        obtain ⟨e0, e1⟩ := r
        have hne : ¬ k = e0 := by have := hrun e0 e1 rfl; omega
        rw [ipv6TextLoop, if_pos hlt]
        simp [hne, hk, hrec]
    · have h : gs.length ≤ k := by omega
      simp [ipv6TextLoop, hlt, List.drop_eq_nil_of_le h, colonGroups]

/-- Up to the run the second loop of `IP.String` writes a colon and the text of
every group, then `::` and the groups behind the run. -/
theorem ipv6TextLoop_before (gs : List Nat) (e0 e1 : Nat) (he : e0 < e1)
    (he1 : e1 ≤ gs.length) (fuel : Nat) :
    ∀ k, 0 < k → k ≤ e0 → gs.length - k ≤ fuel →
      ipv6TextLoop fuel gs k (some (e0, e1))
        = colonGroups ((gs.take e0).drop k) ++ ':' :: ':' :: joinGroups (gs.drop e1) := by
  induction fuel with
  | zero => intro k _ hk hf; omega
  | succ fuel ih =>
    intro k hk hke hf
    have hlt : k < gs.length := by omega
    rw [ipv6TextLoop, if_pos hlt]
    by_cases hk0 : k = e0
    · subst hk0
      have hd : (gs.take k).drop k = [] := List.drop_eq_nil_of_le (by simp)
      simp only [if_true, hd, colonGroups, List.flatMap_nil, List.nil_append]
      by_cases hend : gs.length ≤ e1
      · simp [hend, List.drop_eq_nil_of_le hend, joinGroups]
      · rw [if_neg hend, drop_eq_getD_cons gs e1 (by omega), joinGroups_cons,
          ipv6TextLoop_tail gs _ fuel (e1 + 1) (by omega) (by omega)
            (fun a b h => by cases h; omega)]
        simp
    · have hkl : k < (gs.take e0).length := by
        rw [List.length_take]; omega
      rw [if_neg hk0, ih (k + 1) (by omega) (by omega) (by omega),
        drop_eq_getD_cons (gs.take e0) k hkl, getD_take gs k e0 (by omega), colonGroups_cons]
      simp [hk]

/-- The text Go `IP.String` writes for eight groups: all groups when no run is
replaced, else the groups before the run, `::`, the groups behind it. -/
theorem ipv6TextLoop_eq (gs : List Nat) (hlen : gs.length = 8) (run : Option (Nat × Nat))
    (hrun : ∀ e0 e1, run = some (e0, e1) → e0 < e1 ∧ e1 ≤ gs.length) :
    ipv6TextLoop 8 gs 0 run = runText gs run := by
  have h0 : 0 < gs.length := by omega
  have hgs : gs = gs.getD 0 0 :: gs.drop 1 := by
    have h := drop_eq_getD_cons gs 0 h0
    simpa using h
  cases run with
  | none =>
    rw [ipv6TextLoop, if_pos h0]
    simp only [Nat.lt_irrefl, if_false, List.nil_append, runText]
    rw [ipv6TextLoop_tail gs none 7 1 (by omega) (by omega) (fun a b h => by cases h)]
    conv_rhs => rw [hgs]
    rfl
  | some r =>
    obtain ⟨e0, e1⟩ := r
    obtain ⟨he, he1⟩ := hrun e0 e1 rfl
    rw [ipv6TextLoop, if_pos h0]
    simp only [runText]
    by_cases hz : 0 = e0
    · subst hz
      have hj : joinGroups [] = [] := rfl
      simp only [if_true, List.take_zero, hj, List.nil_append]
      by_cases hend : gs.length ≤ e1
      · simp [hend, List.drop_eq_nil_of_le hend, joinGroups]
      · rw [if_neg hend, drop_eq_getD_cons gs e1 (by omega), joinGroups_cons,
          ipv6TextLoop_tail gs _ 7 (e1 + 1) (by omega) (by omega)
            (fun a b h => by cases h; omega)]
        simp
    · simp only [if_neg hz, Nat.lt_irrefl, if_false, List.nil_append]
      rw [ipv6TextLoop_before gs e0 e1 he he1 7 1 (by omega) (by omega) (by omega)]
      have ht : gs.take e0 = gs.getD 0 0 :: (gs.take e0).drop 1 := by
        have hl : 0 < (gs.take e0).length := by rw [List.length_take]; omega
        have h := drop_eq_getD_cons (gs.take e0) 0 hl
        rw [getD_take gs 0 e0 (by omega)] at h
        simpa using h
      conv_rhs => rw [ht]
      simp [joinGroups]

theorem zeroRun_le (l : List Nat) : zeroRun l ≤ l.length := by
  induction l with
  | nil => simp [zeroRun]
  | cons g gs ih =>
    cases g with
    | zero => simp only [zeroRun, List.length_cons]; omega
    | succ g => simp [zeroRun]

theorem take_zeroRun (l : List Nat) : l.take (zeroRun l) = List.replicate (zeroRun l) 0 := by
  induction l with
  | nil => simp [zeroRun]
  | cons g gs ih =>
    cases g with
    | zero => simp only [zeroRun, List.take_succ_cons, ih, List.replicate_succ]
    | succ g => simp [zeroRun]

/-- The first loop of `IP.String` only ever holds a run of zero groups. -/
theorem longestZeroRunLoop_valid (gs : List Nat) (fuel : Nat) :
    ∀ (k : Nat) (best : Option (Nat × Nat)),
      (∀ e0 e1, best = some (e0, e1) → e0 < e1 ∧ e1 ≤ gs.length
        ∧ (gs.drop e0).take (e1 - e0) = List.replicate (e1 - e0) 0) →
      ∀ e0 e1, longestZeroRunLoop fuel gs k best = some (e0, e1) → e0 < e1 ∧ e1 ≤ gs.length
        ∧ (gs.drop e0).take (e1 - e0) = List.replicate (e1 - e0) 0 := by
  induction fuel with
  | zero =>
    intro k best hbest e0 e1 h
    exact hbest e0 e1 h
  | succ fuel ih =>
    intro k best hbest e0 e1 h
    unfold longestZeroRunLoop at h
    by_cases hk : k < gs.length
    · rw [if_pos hk] at h
      simp only at h
      split at h
      · rename_i hn
        refine ih _ _ ?_ e0 e1 h
        intro a b hab
        simp only [Option.some.injEq, Prod.mk.injEq] at hab
        obtain ⟨rfl, rfl⟩ := hab
        have hle := zeroRun_le (gs.drop k)
        rw [List.length_drop] at hle
        refine ⟨by omega, by omega, ?_⟩
        have hsub : k + zeroRun (gs.drop k) - k = zeroRun (gs.drop k) := by omega
        rw [hsub]
        exact take_zeroRun _
      · exact ih _ _ hbest e0 e1 h
    · rw [if_neg hk] at h
      exact hbest e0 e1 h

theorem longestZeroRun_valid (gs : List Nat) (e0 e1 : Nat)
    (h : longestZeroRun gs = some (e0, e1)) :
    e0 < e1 ∧ e1 ≤ gs.length ∧ (gs.drop e0).take (e1 - e0) = List.replicate (e1 - e0) 0 := by
  unfold longestZeroRun at h
  cases hl : longestZeroRunLoop gs.length gs 0 none with
  | none => rw [hl] at h; cases h
  | some r =>
    obtain ⟨a, b⟩ := r
    rw [hl] at h
    simp only at h
    split at h
    · cases h
    · simp only [Option.some.injEq, Prod.mk.injEq] at h
      obtain ⟨rfl, rfl⟩ := h
      exact longestZeroRunLoop_valid gs gs.length 0 none (fun _ _ h1 => by cases h1) a b hl

/-- The groups of an address hold its bytes. -/
theorem bytesOf_groupsOf (n : Nat) :
    ∀ ip : List Nat, ip.length = 2 * n → (∀ b ∈ ip, b < 256) →
      bytesOf (groupsOf ip) = ip ∧ (groupsOf ip).length = n
        ∧ ∀ g ∈ groupsOf ip, g < 65536 := by
  induction n with
  | zero =>
    intro ip hlen _
    have h : ip = [] := List.length_eq_zero.mp (by omega)
    subst h
    exact ⟨rfl, rfl, fun g hg => by cases hg⟩
  | succ n ih =>
    intro ip hlen hb
    match ip, hlen, hb with
    | [], hlen, _ => simp at hlen
    | [_], hlen, _ => simp at hlen; omega
    | a :: b :: rest, hlen, hb =>
      have ha : a < 256 := hb a (by simp)
      have hb1 : b < 256 := hb b (by simp)
      obtain ⟨h1, h2, h3⟩ := ih rest (by simp at hlen; omega)
        (fun x hx => hb x (by simp [hx]))
      refine ⟨?_, ?_, ?_⟩
      · rw [groupsOf, bytesOf_cons, h1]
        have e1 : (a * 256 + b) / 256 = a := by omega
        have e2 : (a * 256 + b) % 256 = b := by omega
        rw [e1, e2]
      · rw [groupsOf, List.length_cons, h2]
      · intro g hg
        rw [groupsOf] at hg
        rcases List.mem_cons.mp hg with hg | hg
        · subst hg; omega
        · exact h3 g hg

theorem colonGroups_mem (gs : List Nat) (hgs : ∀ g ∈ gs, g < 65536) :
    ∀ c ∈ colonGroups gs, c = ':' ∨ ∃ d, d < 16 ∧ c = hexDigit d := by
  induction gs with
  | nil => intro c hc; simp [colonGroups] at hc
  | cons g gs ih =>
    intro c hc
    rw [colonGroups_cons] at hc
    rcases List.mem_cons.mp hc with hc | hc
    · exact Or.inl hc
    · rcases List.mem_append.mp hc with hc | hc
      · exact Or.inr (hexChars_mem g (hgs g (List.mem_cons_self _ _)) c hc)
      · exact ih (fun g1 h => hgs g1 (List.mem_cons_of_mem _ h)) c hc

theorem joinGroups_mem (gs : List Nat) (hgs : ∀ g ∈ gs, g < 65536) :
    ∀ c ∈ joinGroups gs, c = ':' ∨ ∃ d, d < 16 ∧ c = hexDigit d := by
  cases gs with
  | nil => intro c hc; simp [joinGroups] at hc
  | cons g gs =>
    intro c hc
    rw [joinGroups_cons] at hc
    rcases List.mem_append.mp hc with hc | hc
    · exact Or.inr (hexChars_mem g (hgs g (List.mem_cons_self _ _)) c hc)
    · exact colonGroups_mem gs (fun g1 h => hgs g1 (List.mem_cons_of_mem _ h)) c hc

/-- `parseIPv6` reads the text Go `IP.String` writes for sixteen bytes back. -/
theorem parseIPv6_ipv6Text (ip : List Nat) (hlen : ip.length = 16) (hb : ∀ b ∈ ip, b < 256) :
    parseIPv6 (ipv6TextLoop 8 (groupsOf ip) 0 (longestZeroRun (groupsOf ip))) = some ip := by
  obtain ⟨h1, h2, h3⟩ := bytesOf_groupsOf 8 ip (by omega) hb
  rw [ipv6TextLoop_eq (groupsOf ip) h2 _ (fun e0 e1 h =>
    ⟨(longestZeroRun_valid _ e0 e1 h).1, (longestZeroRun_valid _ e0 e1 h).2.1⟩)]
  cases hr : longestZeroRun (groupsOf ip) with
  | none =>
    simp only [runText]
    rw [parseIPv6_joinGroups _ h2 h3, h1]
  | some r =>
    obtain ⟨e0, e1⟩ := r
    obtain ⟨he, he1, hz⟩ := longestZeroRun_valid _ e0 e1 hr
    simp only [runText]
    have hA : ((groupsOf ip).take e0).length = e0 := by
      rw [List.length_take]; omega
    have hB : ((groupsOf ip).drop e1).length = 8 - e1 := by
      rw [List.length_drop, h2]
    rw [parseIPv6_ellipsis _ _ (by rw [hA, hB]; omega)
      (fun g hg => h3 g (List.mem_of_mem_take hg))
      (fun g hg => h3 g (List.mem_of_mem_drop hg)), hA, hB]
    have hsplit : groupsOf ip = (groupsOf ip).take e0 ++ (List.replicate (e1 - e0) 0
        ++ (groupsOf ip).drop e1) := by
      have h4 : (groupsOf ip).drop e0 = ((groupsOf ip).drop e0).take (e1 - e0)
          ++ ((groupsOf ip).drop e0).drop (e1 - e0) := (List.take_append_drop _ _).symm
      rw [hz, List.drop_drop] at h4
      have h5 : e0 + (e1 - e0) = e1 := by omega
      have h6 : e1 - e0 + e0 = e1 := by omega
      simp only [h5, h6] at h4
      rw [← h4, List.take_append_drop]
    have hcount : 16 - 2 * e0 - 2 * (8 - e1) = 2 * (e1 - e0) := by omega
    rw [hcount, ← bytesOf_replicate_zero, List.append_assoc, ← bytesOf_append,
      ← bytesOf_append, ← hsplit, h1]

/-- The text Go `IP.String` writes for sixteen bytes holds colons and
hexadecimal digits only, and at least one colon. -/
theorem ipv6Text_chars (ip : List Nat) (hlen : ip.length = 16) (hb : ∀ b ∈ ip, b < 256) :
    (∀ c ∈ ipv6TextLoop 8 (groupsOf ip) 0 (longestZeroRun (groupsOf ip)),
        c = ':' ∨ ∃ d, d < 16 ∧ c = hexDigit d)
      ∧ ':' ∈ ipv6TextLoop 8 (groupsOf ip) 0 (longestZeroRun (groupsOf ip)) := by
  obtain ⟨_, h2, h3⟩ := bytesOf_groupsOf 8 ip (by omega) hb
  rw [ipv6TextLoop_eq (groupsOf ip) h2 _ (fun e0 e1 h =>
    ⟨(longestZeroRun_valid _ e0 e1 h).1, (longestZeroRun_valid _ e0 e1 h).2.1⟩)]
  cases hr : longestZeroRun (groupsOf ip) with
  | none =>
    simp only [runText]
    refine ⟨joinGroups_mem _ h3, ?_⟩
    match hg : groupsOf ip, h2 with
    | [], h2 => simp at h2
    | [_], h2 => simp at h2
    | g0 :: g1 :: rest, _ =>
      rw [joinGroups_cons, colonGroups_cons]
      simp
  | some r =>
    obtain ⟨e0, e1⟩ := r
    simp only [runText]
    refine ⟨?_, by simp⟩
    intro c hc
    rcases List.mem_append.mp hc with hc | hc
    · exact joinGroups_mem _ (fun g hg => h3 g (List.mem_of_mem_take hg)) c hc
    · rcases List.mem_cons.mp hc with hc | hc
      · exact Or.inl hc
      · rcases List.mem_cons.mp hc with hc | hc
        · exact Or.inl hc
        · exact joinGroups_mem _ (fun g hg => h3 g (List.mem_of_mem_drop hg)) c hc

theorem parseIPChars_of_colon (s : List Char) (hdot : ∀ c ∈ s, c ≠ '.') (hcolon : ':' ∈ s) :
    parseIPChars s = parseIPv6 s := by
  unfold parseIPChars
  cases hf : s.find? (fun c => c = '.' || c = ':') with
  | none =>
    have h := List.find?_eq_none.mp hf ':' hcolon
    simp at h
  | some c =>
    have hc : c ∈ s := List.mem_of_find?_eq_some hf
    simp only [if_neg (hdot c hc)]

theorem parseIPChars_of_dot (ds rest : List Char) (hds : ∀ c ∈ ds, c ≠ '.' ∧ c ≠ ':') :
    parseIPChars (ds ++ '.' :: rest) = parseIPv4 (ds ++ '.' :: rest) := by
  have hf : (ds ++ '.' :: rest).find? (fun c => c = '.' || c = ':') = some '.' := by
    induction ds with
    | nil => simp
    | cons c cs ih =>
      have h1 := hds c (List.mem_cons_self _ _)
      have h2 := ih (fun x hx => hds x (List.mem_cons_of_mem _ hx))
      simp [List.find?_cons, h1.1, h1.2, h2]
  unfold parseIPChars
  rw [hf]
  simp

/-- `ParseIP` reads the text of a sixteen-byte address that is not IPv4-mapped
back. -/
theorem parseIPChars_ipStringChars_v6 (ip : List Nat) (hlen : ip.length = 16)
    (hb : ∀ b ∈ ip, b < 256) (hv4 : ip.take 12 ≠ v4InV6Prefix) :
    parseIPChars (ipStringChars ip) = some ip
      ∧ ∀ c ∈ ipStringChars ip, c ≠ '[' ∧ c ≠ ']' := by
  have htext : ipStringChars ip
      = ipv6TextLoop 8 (groupsOf ip) 0 (longestZeroRun (groupsOf ip)) := by
    unfold ipStringChars
    simp [hlen, hv4]
  obtain ⟨hchars, hcolon⟩ := ipv6Text_chars ip hlen hb
  rw [htext]
  constructor
  · rw [parseIPChars_of_colon _ ?_ hcolon, parseIPv6_ipv6Text ip hlen hb]
    intro c hc
    rcases hchars c hc with h | ⟨d, hd, h⟩
    · rw [h]; decide
    · rw [h]; exact (hexDigit_not_special d hd).2.1
  · intro c hc
    rcases hchars c hc with h | ⟨d, hd, h⟩
    · rw [h]; decide
    · rw [h]; exact (hexDigit_not_special d hd).2.2

/-! ## The text of an IPv4 address -/

theorem dtoiLoop_stop (n : Nat) (rest : List Char)
    (hrest : ∀ c, rest.head? = some c → digitVal c = none) :
    dtoiLoop n rest = (n, rest, true) := by
  cases rest with
  | nil => rfl
  | cons c cs =>
    have h := hrest c rfl
    simp [dtoiLoop, h]

theorem dtoiLoop_append (ds rest : List Char) :
    ∀ (m v : Nat), dtoiLoop m ds = (v, [], true) →
      dtoiLoop m (ds ++ rest) = dtoiLoop v rest := by
  induction ds with
  | nil =>
    intro m v h
    simp only [dtoiLoop, Prod.mk.injEq, and_true] at h
    subst h
    rfl
  | cons c cs ih =>
    intro m v h
    simp only [dtoiLoop, List.cons_append] at h ⊢
    cases hd : digitVal c with
    | none => rw [hd] at h; simp at h
    | some d =>
      rw [hd] at h
      simp only at h ⊢
      by_cases ho : big ≤ m * 10 + d
      · rw [if_pos ho] at h; simp at h
      · rw [if_neg ho] at h ⊢
        exact ih _ _ h

theorem dtoiLoop_uitoaChars (n : Nat) (hn : n < big) :
    dtoiLoop 0 (uitoaChars n) = (n, [], true) := by
  have hbig : big = 16777215 := by decide
  induction n using Nat.strong_induction_on with
  | _ n ih =>
    by_cases h10 : n < 10
    · rw [uitoaChars_lt n h10]
      have h1 : ¬ big ≤ n := by omega
      simp [dtoiLoop, digitVal_digitChar n h10, h1]
    · rw [uitoaChars_ge n (by omega),
        dtoiLoop_append _ _ 0 (n / 10) (ih (n / 10) (by omega) (by omega))]
      have h1 : n / 10 * 10 + n % 10 = n := by omega
      have h2 : ¬ big ≤ n := by omega
      simp [dtoiLoop, digitVal_digitChar _ (Nat.mod_lt n (by omega : 0 < 10)), h1, h2]

/-- `dtoi` reads the decimal text of a number back and stops behind it. -/
theorem dtoi_uitoaChars (n : Nat) (rest : List Char) (hn : n < big)
    (hrest : ∀ c, rest.head? = some c → digitVal c = none) :
    dtoi (uitoaChars n ++ rest) = (n, rest, true) := by
  have hlen : rest.length ≠ (uitoaChars n ++ rest).length := by
    have h := List.length_pos.mpr (uitoaChars_ne_nil n)
    rw [List.length_append]
    omega
  unfold dtoi
  rw [dtoiLoop_append _ _ 0 n (dtoiLoop_uitoaChars n hn), dtoiLoop_stop n rest hrest]
  simp only [Bool.not_true, Bool.false_eq_true, if_false, if_neg hlen]

theorem uitoaChars_not_dot (n : Nat) :
    ∀ c ∈ uitoaChars n, c ≠ '.' ∧ c ≠ ':' ∧ c ≠ '[' ∧ c ≠ ']' ∧ c ≠ '%' := by
  intro c hc
  obtain ⟨v, _, hv⟩ := digitVal_of_mem_uitoaChars n c hc
  refine ⟨?_, ?_, ?_, ?_, ?_⟩ <;> intro h <;> subst h <;> simp [digitVal] at hv

theorem digitVal_dot : digitVal '.' = none := by decide

/-- One octet of `parseIPv4`, the first one. -/
theorem parseIPv4Loop_first (k n : Nat) (rest : List Char) (hn : n ≤ 255)
    (hrest : ∀ c, rest.head? = some c → digitVal c = none) :
    parseIPv4Loop (k + 1) true (uitoaChars n ++ rest)
      = match parseIPv4Loop k false rest with
        | none => none
        | some (ns, s3) => some (n :: ns, s3) := by
  have hbig : big = 16777215 := by decide
  have hne : uitoaChars n ++ rest ≠ [] := by
    simp [uitoaChars_ne_nil n]
  have hn2 : ¬ 255 < n := by omega
  rw [parseIPv4Loop, if_neg hne]
  simp only [if_true, dtoi_uitoaChars n rest (by omega) hrest, Bool.not_true, Bool.false_or,
    decide_eq_true_eq, if_neg hn2]

/-- One octet of `parseIPv4` behind a dot. -/
theorem parseIPv4Loop_dot (k n : Nat) (rest : List Char) (hn : n ≤ 255)
    (hrest : ∀ c, rest.head? = some c → digitVal c = none) :
    parseIPv4Loop (k + 1) false ('.' :: (uitoaChars n ++ rest))
      = match parseIPv4Loop k false rest with
        | none => none
        | some (ns, s3) => some (n :: ns, s3) := by
  have hbig : big = 16777215 := by decide
  have hn2 : ¬ 255 < n := by omega
  rw [parseIPv4Loop, if_neg (by simp)]
  simp only [Bool.false_eq_true, if_false, List.head?_cons, if_true, List.drop_succ_cons,
    List.drop_zero, dtoi_uitoaChars n rest (by omega) hrest, Bool.not_true, Bool.false_or,
    decide_eq_true_eq, if_neg hn2]

/-- `ParseIP` reads the dotted text of four bytes back, as the IPv4-mapped
sixteen bytes. -/
theorem parseIPChars_dottedChars (a b c d : Nat) (ha : a < 256) (hb : b < 256) (hc : c < 256)
    (hd : d < 256) :
    parseIPChars (dottedChars [a, b, c, d]) = some (v4InV6Prefix ++ [a, b, c, d])
      ∧ ∀ x ∈ dottedChars [a, b, c, d], x ≠ ':' ∧ x ≠ '[' ∧ x ≠ ']' ∧ x ≠ '%' := by
  have hdot : ∀ (rest : List Char) (x : Char), ('.' :: rest).head? = some x →
      digitVal x = none := by
    intro rest x hx
    simp only [List.head?_cons, Option.some.injEq] at hx
    rw [← hx]
    exact digitVal_dot
  have htext : dottedChars [a, b, c, d]
      = uitoaChars a ++ '.' :: (uitoaChars b ++ '.' :: (uitoaChars c ++ '.'
          :: (uitoaChars d ++ []))) := by
    simp [dottedChars]
  constructor
  · rw [htext, parseIPChars_of_dot _ _ (fun x hx =>
      ⟨(uitoaChars_not_dot a x hx).1, (uitoaChars_not_dot a x hx).2.1⟩)]
    unfold parseIPv4
    rw [parseIPv4Loop_first 3 a _ (by omega) (hdot _),
      parseIPv4Loop_dot 2 b _ (by omega) (hdot _),
      parseIPv4Loop_dot 1 c _ (by omega) (hdot _),
      parseIPv4Loop_dot 0 d [] (by omega) (by simp)]
    rfl
  · rw [htext]
    intro x hx
    simp only [List.mem_append, List.mem_cons, List.not_mem_nil, or_false] at hx
    have hdotc : ('.' : Char) ≠ ':' ∧ ('.' : Char) ≠ '[' ∧ ('.' : Char) ≠ ']'
        ∧ ('.' : Char) ≠ '%' := by decide
    rcases hx with hx | hx | hx | hx | hx | hx | hx
    · exact (uitoaChars_not_dot a x hx).2
    · rw [hx]; exact hdotc
    · exact (uitoaChars_not_dot b x hx).2
    · rw [hx]; exact hdotc
    · exact (uitoaChars_not_dot c x hx).2
    · rw [hx]; exact hdotc
    · exact (uitoaChars_not_dot d x hx).2

/-! ## Round trip through the textual form -/

/-- C9, as stated, fails: the destination that `parseHost` itself returns for
`[a:b]:80`, the domain `a:b` on port 80, has the textual form `a:b:80`, which
`parseHost` rejects; and the domain `1.2.3.4` on port 80 has the textual form
`1.2.3.4:80`, which is read back as an IPv4 address. -/
theorem domain_text_not_read_back :
    parseHost "[a:b]:80" 443 = .ok ⟨.TCP, .Domain "a:b", 80⟩
      ∧ Destination.NetAddr ⟨.TCP, .Domain "a:b", 80⟩ = some "a:b:80"
      ∧ parseHost "a:b:80" 443 = .error (.addr ⟨"too many colons in address", "a:b:80"⟩)
      ∧ Destination.NetAddr ⟨.TCP, .Domain "1.2.3.4", 80⟩ = some "1.2.3.4:80"
      ∧ parseHost "1.2.3.4:80" 443 = .ok ⟨.TCP, .IPv4 [1, 2, 3, 4], 80⟩ := by
  decide

theorem String.append_colon_uitoa (host : List Char) (p : Nat) :
    (⟨host⟩ : String) ++ ":" ++ uitoa p = ⟨host ++ ':' :: uitoaChars p⟩ := by
  apply String.ext
  simp [String.data_append, uitoa]

theorem IPAddress_v4 (a b c d : Nat) :
    IPAddress (v4InV6Prefix ++ [a, b, c, d]) = .IPv4 [a, b, c, d] := by
  simp [IPAddress, v4InV6Prefix]

theorem IPAddress_v6 (ip : List Nat) (hlen : ip.length = 16)
    (hv4 : ip.take 12 ≠ v4InV6Prefix) : IPAddress ip = .IPv6 ip := by
  simp [IPAddress, hlen, hv4]

/-- C9, amended: for every TCP destination with a port in `0..65535` whose
address is an IPv4 address, an IPv6 address that is not IPv4-mapped, or a
domain that holds none of `:`, `[`, `]`, `%` and is not the text of an IP
address, the textual `host:port` form exists and `parseHost`, under any default
port, reads it back as the same destination: same address form, same address,
same port. -/
theorem parseHost_NetAddr (a : Address) (p d : Port) (ha : a.RoundTrips) (hp : p ≤ 65535) :
    ∃ text, Destination.NetAddr ⟨.TCP, a, p⟩ = some text
      ∧ parseHost text d = .ok ⟨.TCP, a, p⟩ := by
  cases a with
  | IPv4 ip =>
    obtain ⟨hlen, hb⟩ := ha
    match ip, hlen, hb with
    | [b0, b1, b2, b3], _, hb =>
      obtain ⟨hparse, hchars⟩ := parseIPChars_dottedChars b0 b1 b2 b3 (hb b0 (by simp))
        (hb b1 (by simp)) (hb b2 (by simp)) (hb b3 (by simp))
      have htext : ipStringChars [b0, b1, b2, b3] = dottedChars [b0, b1, b2, b3] := by
        simp [ipStringChars]
      refine ⟨_, rfl, ?_⟩
      simp only [Address.String, htext]
      rw [String.append_colon_uitoa, parseHost_plain_port _ p d hp hchars, hostDestination_eq]
      simp only [ParseIP, hparse, IPAddress_v4]
  | IPv6 ip =>
    obtain ⟨hlen, hb, hv4⟩ := ha
    obtain ⟨hparse, hchars⟩ := parseIPChars_ipStringChars_v6 ip hlen hb hv4
    refine ⟨_, rfl, ?_⟩
    simp only [Address.String]
    rw [String.append_colon_uitoa]
    have hshape : '[' :: (ipStringChars ip ++ [']']) ++ ':' :: uitoaChars p
        = '[' :: (ipStringChars ip ++ ']' :: ':' :: uitoaChars p) := by simp
    rw [hshape, parseHost_bracket_port _ p d hp hchars, hostDestination_eq]
    simp only [ParseIP, hparse, IPAddress_v6 ip hlen hv4]
  | Domain domain =>
    obtain ⟨hchars, hnone⟩ := ha
    refine ⟨_, rfl, ?_⟩
    simp only [Address.String]
    have hd : domain = ⟨domain.data⟩ := rfl
    rw [hd, String.append_colon_uitoa, parseHost_plain_port _ p d hp hchars, hostDestination_eq]
    rw [← hd, hnone]
    rfl
  | Nil => exact absurd ha (by simp [Address.RoundTrips])

/-- Witness of C9 (amended): the address `2001:db8::ff00:42:8329` on port 443. -/
theorem parseHost_NetAddr_witness :
    ∃ text, Destination.NetAddr
          ⟨.TCP, .IPv6 [0x20, 1, 0xd, 0xb8, 0, 0, 0, 0, 0, 0, 0xff, 0, 0, 0x42, 0x83, 0x29], 443⟩
        = some text
      ∧ parseHost text 80
        = .ok ⟨.TCP, .IPv6 [0x20, 1, 0xd, 0xb8, 0, 0, 0, 0, 0, 0, 0xff, 0, 0, 0x42, 0x83, 0x29],
            443⟩ :=
  parseHost_NetAddr
    (.IPv6 [0x20, 1, 0xd, 0xb8, 0, 0, 0, 0, 0, 0, 0xff, 0, 0, 0x42, 0x83, 0x29]) 443 80
    ⟨by decide, by decide, by decide⟩ (by decide)

/-! ## Claims about the connection handler -/

theorem buildSession_of_empty_URLHost (remote : Destination) (request : Request)
    (hu : request.URLHost = "") :
    buildSession remote request
      = match parseHost request.Host (specDefaultPort request) with
        | .error err => .error err
        | .ok dest => .ok { Source := remote, Destination := dest } := by
  unfold buildSession specDefaultPort
  by_cases hl : request.Host.length = 0
  · have h0 : request.Host = "" := (String.length_eq_zero_iff_empty _).mp hl
    rw [if_pos hl, hu, h0]
  · rw [if_neg hl]

/-- C5, as stated, fails: a `GET` request with an empty `request.URL.Host` whose
`Host` header is `example.com:port` is not a CONNECT request, yet the handler
writes no response at all (the host is rejected by `parseHost` and the handler
returns, closing the connection). -/
theorem no_400_when_host_is_rejected :
    ToUpper "GET" ≠ "CONNECT"
      ∧ handleConnection ⟨.TCP, .IPv4 [127, 0, 0, 1], 50000⟩
          (some ⟨"GET", "", "", "example.com:port", []⟩) = [.CloseConn]
      ∧ ∀ r, Event.WriteResponse r ∉ handleConnection ⟨.TCP, .IPv4 [127, 0, 0, 1], 50000⟩
          (some ⟨"GET", "", "", "example.com:port", []⟩) := by
  have h : handleConnection ⟨.TCP, .IPv4 [127, 0, 0, 1], 50000⟩
      (some ⟨"GET", "", "", "example.com:port", []⟩) = [.CloseConn] := by decide
  refine ⟨by decide, h, ?_⟩
  intro r hr
  rw [h] at hr
  simp at hr

/-- C5, amended: for a request whose method is not CONNECT and whose
`request.URL.Host` is empty, the handler never invokes the packet dispatcher;
if `parseHost` accepts the `Host` value it writes exactly one response, with
status 400 Bad Request, protocol HTTP/1.1 and header `Connection: close`, and if
`parseHost` rejects the `Host` value it writes nothing. -/
theorem plain_empty_url_host (remote : Destination) (request : Request)
    (hm : ToUpper request.Method ≠ "CONNECT") (hu : request.URLHost = "") :
    (∀ session, Event.DispatchToOutbound session ∉ handleConnection remote (some request))
      ∧ ((∃ dest, parseHost request.Host (specDefaultPort request) = .ok dest) →
          ∃ r, handleConnection remote (some request) = [.WriteResponse r, .CloseConn]
            ∧ r.StatusCode = 400 ∧ r.Status = "Bad Request" ∧ r.Proto = "HTTP/1.1"
            ∧ r.ProtoMajor = 1 ∧ r.ProtoMinor = 1
            ∧ Header.lookup "Connection" r.Header = some ["close"])
      ∧ ((∃ err, parseHost request.Host (specDefaultPort request) = .error err) →
          handleConnection remote (some request) = [.CloseConn]) := by
  have hb := buildSession_of_empty_URLHost remote request hu
  have hplain : ∀ session, handlePlainHTTP request session
      = [.WriteResponse (GenerateResponse 400 "Bad Request")] := by
    intro session
    simp [handlePlainHTTP, hu]
  cases hp : parseHost request.Host (specDefaultPort request) with
  | error err =>
    rw [hp] at hb
    have he : handleConnection remote (some request) = [.CloseConn] := by
      simp [handleConnection, hb]
    refine ⟨?_, ?_, fun _ => he⟩
    · intro session hs
      rw [he] at hs
      simp at hs
    · rintro ⟨dest, hd⟩
      cases hd
  | ok dest =>
    rw [hp] at hb
    have he : handleConnection remote (some request)
        = [.WriteResponse (GenerateResponse 400 "Bad Request"), .CloseConn] := by
      simp [handleConnection, hb, hm, hplain]
    refine ⟨?_, fun _ => ⟨_, he, rfl, rfl, rfl, rfl, rfl, by decide⟩, ?_⟩
    · intro session hs
      rw [he] at hs
      simp at hs
    · rintro ⟨err, hd⟩
      cases hd

/-- Witness of C5 (amended): scenario 3 of the specification, `GET /` with no
`Host` header. -/
theorem plain_empty_url_host_witness :
    ToUpper "GET" ≠ "CONNECT"
      ∧ ∃ r, handleConnection ⟨.TCP, .IPv4 [127, 0, 0, 1], 50000⟩
            (some ⟨"GET", "", "", "", []⟩) = [.WriteResponse r, .CloseConn]
          ∧ r.StatusCode = 400 ∧ r.Status = "Bad Request" ∧ r.Proto = "HTTP/1.1"
          ∧ r.ProtoMajor = 1 ∧ r.ProtoMinor = 1
          ∧ Header.lookup "Connection" r.Header = some ["close"] :=
  ⟨by decide,
    (plain_empty_url_host ⟨.TCP, .IPv4 [127, 0, 0, 1], 50000⟩ ⟨"GET", "", "", "", []⟩
      (by decide) rfl).2.1 ⟨⟨.TCP, .Domain "", 80⟩, by decide⟩⟩

/-- C10: for every parsed request the destination placed in the `SessionInfo` is
`parseHost(host, defaultPort)`, with `defaultPort` 443 if the lower-cased URL
scheme is `https` and 80 otherwise, and `host` the value of `request.Host` if it
is non-empty and of `request.URL.Host` otherwise; when `parseHost` fails no
`SessionInfo` is built. Every session handed to the dispatcher is that one. -/
theorem session_destination (remote : Destination) (request : Request) :
    buildSession remote request
        = (match parseHost (specSourceHost request) (specDefaultPort request) with
          | .error err => .error err
          | .ok dest => .ok { Source := remote, Destination := dest })
      ∧ ∀ session, Event.DispatchToOutbound session ∈ handleConnection remote (some request) →
          parseHost (specSourceHost request) (specDefaultPort request)
            = .ok session.Destination ∧ session.Source = remote := by
  have hb : buildSession remote request
      = (match parseHost (specSourceHost request) (specDefaultPort request) with
        | .error err => .error err
        | .ok dest => .ok { Source := remote, Destination := dest }) := by
    unfold buildSession specDefaultPort specSourceHost
    by_cases hl : request.Host.length = 0
    · have h0 : request.Host = "" := (String.length_eq_zero_iff_empty _).mp hl
      have h1 : ¬ request.Host ≠ "" := fun h2 => h2 h0
      rw [if_pos hl, if_neg h1]
    · have h0 : request.Host ≠ "" := fun h1 => hl ((String.length_eq_zero_iff_empty _).mpr h1)
      rw [if_neg hl, if_pos h0]
  refine ⟨hb, ?_⟩
  intro session hs
  cases hp : parseHost (specSourceHost request) (specDefaultPort request) with
  | error err =>
    rw [hp] at hb
    simp [handleConnection, hb] at hs
  | ok dest =>
    rw [hp] at hb
    simp only [handleConnection, hb, List.mem_append, List.mem_singleton] at hs
    have hd : session = { Source := remote, Destination := dest } := by
      rcases hs with hs | hs
      · by_cases hm : ToUpper request.Method = "CONNECT"
        · simpa [hm, handleConnect] using hs
        · by_cases hu : request.URLHost.length ≤ 0
          · simp [hm, handlePlainHTTP, hu] at hs
          · simpa [hm, handlePlainHTTP, hu] using hs
      · cases hs
    subst hd
    exact ⟨rfl, rfl⟩


/-- C11, as stated, fails twice. A `CONNECT` request with an empty
`request.URL.Host` whose `Host` header is `example.com:port` has the method
`CONNECT` and is not handled in tunnel mode: `parseHost` rejects the host and the
handler only closes the connection, without a tunnel and without a response. And
the 200 response written to the client for `CONNECT example.com:443` does not
have an empty header set: the response value has an empty header map, but the
bytes `Response.Write` sends hold the header line `Content-Length: 0`. -/
theorem connect_not_tunnelled_when_host_is_rejected :
    ToUpper "CONNECT" = "CONNECT"
      ∧ handleConnection ⟨.TCP, .IPv4 [127, 0, 0, 1], 50000⟩
          (some ⟨"CONNECT", "", "", "example.com:port", []⟩) = [.CloseConn]
      ∧ Event.Transport ∉ handleConnection ⟨.TCP, .IPv4 [127, 0, 0, 1], 50000⟩
          (some ⟨"CONNECT", "", "", "example.com:port", []⟩)
      ∧ ∃ r, handleConnection ⟨.TCP, .IPv4 [127, 0, 0, 1], 50000⟩
              (some ⟨"CONNECT", "", "example.com:443", "example.com:443", []⟩)
            = [.WriteResponse r,
                .DispatchToOutbound
                  ⟨⟨.TCP, .IPv4 [127, 0, 0, 1], 50000⟩, ⟨.TCP, .Domain "example.com", 443⟩⟩,
                .Transport, .CloseConn]
          ∧ r.Header = []
          ∧ ∀ statusText, r.Write statusText
              = "HTTP/1.1 200 OK\r\nContent-Length: 0\r\n\r\n" := by
  have h : handleConnection ⟨.TCP, .IPv4 [127, 0, 0, 1], 50000⟩
      (some ⟨"CONNECT", "", "", "example.com:port", []⟩) = [.CloseConn] := by decide
  refine ⟨by decide, h, ?_, ⟨"200 OK", 200, "HTTP/1.1", 1, 1, [], none, 0, false⟩, by decide, rfl,
    fun _ => rfl⟩
  rw [h]
  decide

/-- C11, amended: a request is handled in tunnel mode if and only if its method,
upper-cased, equals `CONNECT` (so `connect` and `Connect` qualify) and `parseHost`
accepts its host, so that the `SessionInfo` is built; a request whose host is
rejected is dropped, whatever its method: the handler only closes the
connection. In tunnel mode the handler writes exactly one response, before it
dispatches and tunnels: its value has status 200 OK, protocol HTTP/1.1, an empty
header map, no body and content length 0, and `Response.Write` sends it as the
status line `HTTP/1.1 200 OK`, the one header line `Content-Length: 0` and an
empty body; no 400 response is written, whatever `request.URL.Host` is. -/
theorem tunnel_iff_connect (statusText : Nat → Option String) (remote : Destination)
    (request : Request) :
    (Event.Transport ∈ handleConnection remote (some request)
        ↔ ToUpper request.Method = "CONNECT"
          ∧ ∃ session, buildSession remote request = .ok session)
      ∧ (∀ session, buildSession remote request = .ok session →
          ToUpper request.Method = "CONNECT" →
          ∃ r, handleConnection remote (some request)
              = [.WriteResponse r, .DispatchToOutbound session, .Transport, .CloseConn]
            ∧ r.Status = "200 OK" ∧ r.StatusCode = 200 ∧ r.Proto = "HTTP/1.1"
            ∧ r.ProtoMajor = 1 ∧ r.ProtoMinor = 1 ∧ r.Header = [] ∧ r.Body = none
            ∧ r.ContentLength = 0
            ∧ r.Write statusText = "HTTP/1.1 200 OK\r\nContent-Length: 0\r\n\r\n"
            ∧ ∀ r1, Event.WriteResponse r1 ∈ handleConnection remote (some request) →
                r1.StatusCode ≠ 400)
      ∧ (∀ err, buildSession remote request = .error err →
          handleConnection remote (some request) = [.CloseConn])
      ∧ ToUpper "connect" = "CONNECT" ∧ ToUpper "Connect" = "CONNECT" := by
  refine ⟨?_, ?_, ?_, by decide, by decide⟩
  · cases hs : buildSession remote request with
    | error err =>
      have he : handleConnection remote (some request) = [.CloseConn] := by
        simp [handleConnection, hs]
      rw [he]
      simp
    | ok session =>
      by_cases hm : ToUpper request.Method = "CONNECT"
      · have he : handleConnection remote (some request)
            = [.WriteResponse ⟨"200 OK", 200, "HTTP/1.1", 1, 1, [], none, 0, false⟩,
                .DispatchToOutbound session, .Transport, .CloseConn] := by
          simp [handleConnection, hs, hm, handleConnect]
        rw [he]
        simp [hm]
      · constructor
        · intro ht
          exfalso
          by_cases hu : request.URLHost.length ≤ 0
          · simp [handleConnection, hs, hm, handlePlainHTTP, hu] at ht
          · simp [handleConnection, hs, hm, handlePlainHTTP, hu] at ht
        · intro h
          exact absurd h.1 hm
  · intro session hs hm
    have he : handleConnection remote (some request)
        = [.WriteResponse ⟨"200 OK", 200, "HTTP/1.1", 1, 1, [], none, 0, false⟩,
            .DispatchToOutbound session, .Transport, .CloseConn] := by
      simp [handleConnection, hs, hm, handleConnect]
    refine ⟨_, he, rfl, rfl, rfl, rfl, rfl, rfl, rfl, rfl, rfl, ?_⟩
    intro r1 hr1
    rw [he] at hr1
    simp only [List.mem_cons, Event.WriteResponse.injEq, List.mem_singleton, reduceCtorEq,
      or_false, List.not_mem_nil] at hr1
    rw [hr1]
    decide
  · intro err hs
    simp [handleConnection, hs]

/-- Witness of C11: `connect` in lower case, with an empty `request.URL.Host` and
the `Host` header `example.com:443`, is handled in tunnel mode, and the client
receives `HTTP/1.1 200 OK` with the one header line `Content-Length: 0`. -/
theorem tunnel_iff_connect_witness :
    Event.Transport ∈ handleConnection ⟨.TCP, .IPv4 [127, 0, 0, 1], 50000⟩
        (some ⟨"connect", "", "", "example.com:443", []⟩)
      ∧ ∃ r, handleConnection ⟨.TCP, .IPv4 [127, 0, 0, 1], 50000⟩
              (some ⟨"connect", "", "", "example.com:443", []⟩)
            = [.WriteResponse r,
                .DispatchToOutbound
                  ⟨⟨.TCP, .IPv4 [127, 0, 0, 1], 50000⟩, ⟨.TCP, .Domain "example.com", 443⟩⟩,
                .Transport, .CloseConn]
          ∧ r.Write (fun _ => none) = "HTTP/1.1 200 OK\r\nContent-Length: 0\r\n\r\n" :=
  have h := tunnel_iff_connect (fun _ => none) ⟨.TCP, .IPv4 [127, 0, 0, 1], 50000⟩
    ⟨"connect", "", "", "example.com:443", []⟩
  have hs : buildSession ⟨.TCP, .IPv4 [127, 0, 0, 1], 50000⟩
      ⟨"connect", "", "", "example.com:443", []⟩
      = .ok ⟨⟨.TCP, .IPv4 [127, 0, 0, 1], 50000⟩, ⟨.TCP, .Domain "example.com", 443⟩⟩ := by
    decide
  let ⟨r, h1, _, _, _, _, _, _, _, _, h2, _⟩ := h.2.1 _ hs (by decide)
  ⟨h.1.mpr ⟨by decide, _, hs⟩, r, h1, h2⟩

/-! ## Claims about `Dial` -/

/-- C12: for a TCP destination `Dial` invokes exactly the dialer selected by
`StreamConfig.Network` (TCP, KCP, WebSocket, RawTCP), once, on the arguments of
`Dial`, and returns its result: its error with a nil connection if the error is
not nil, else its connection with a nil error. For every other value of
`StreamConfig.Network` it invokes no dialer and returns a nil connection and
`ErrUnsupportedStreamType`. -/
theorem Dial_tcp_destination {Conn : Type} (dialers : internet.Dialers Conn) (src : Address)
    (dest : Destination) (settings : internet.StreamConfig) (hd : dest.Network = .TCP) :
    internet.Dial dialers src dest (some settings)
      = match internet.selectedDialer settings.Network with
        | some name =>
          some ([⟨name, src, dest, ⟨some settings⟩⟩],
            match (dialers.get name src dest ⟨some settings⟩).err with
            | some e => ⟨none, some e⟩
            | none => ⟨(dialers.get name src dest ⟨some settings⟩).connection, none⟩)
        | none => some ([], ⟨none, some .ErrUnsupportedStreamType⟩) := by
  unfold internet.Dial
  rw [if_pos hd]
  obtain ⟨network, security⟩ := settings
  cases network <;>
    simp only [internet.selectedDialer, internet.Dialers.get, internet.dialed]
  · cases he : (dialers.TCPDialer src dest ⟨some ⟨.TCP, security⟩⟩).err <;> simp
  · cases he : (dialers.KCPDialer src dest ⟨some ⟨.KCP, security⟩⟩).err <;> simp
  · cases he : (dialers.WSDialer src dest ⟨some ⟨.WebSocket, security⟩⟩).err <;> simp
  · cases he : (dialers.RawTCPDialer src dest ⟨some ⟨.RawTCP, security⟩⟩).err <;> simp

/-- Witness of C12: a WebSocket stream whose dialer fails, and a UDP stream
setting, which no dialer serves. -/
theorem Dial_tcp_destination_witness :
    @internet.Dial Nat
        ⟨fun _ _ _ => ⟨some 1, none⟩, fun _ _ _ => ⟨some 2, none⟩, fun _ _ _ => ⟨some 3, none⟩,
          fun _ _ _ => ⟨some 4, none⟩, fun _ _ _ => ⟨some 5, some (.dialer "refused")⟩⟩
        (.IPv4 [0, 0, 0, 0]) ⟨.TCP, .Domain "example.com", 443⟩ (some ⟨.WebSocket, .None⟩)
      = some ([⟨.WSDialer, .IPv4 [0, 0, 0, 0], ⟨.TCP, .Domain "example.com", 443⟩,
            ⟨some ⟨.WebSocket, .None⟩⟩⟩], ⟨none, some (.dialer "refused")⟩) :=
  Dial_tcp_destination _ _ ⟨.TCP, .Domain "example.com", 443⟩ ⟨.WebSocket, .None⟩ rfl

/-- C13: for a UDP destination and every stream configuration, also none at all,
`Dial` invokes `UDPDialer` once on its own arguments and returns exactly what
`UDPDialer` returns; no other dialer is invoked and no error is made up. -/
theorem Dial_udp_destination {Conn : Type} (dialers : internet.Dialers Conn) (src : Address)
    (dest : Destination) (settings : Option internet.StreamConfig)
    (hd : dest.Network = .UDP) :
    internet.Dial dialers src dest settings
      = some ([⟨.UDPDialer, src, dest, ⟨settings⟩⟩], dialers.UDPDialer src dest ⟨settings⟩) := by
  unfold internet.Dial
  have h : ¬ dest.Network = .TCP := by rw [hd]; decide
  rw [if_neg h]

/-- Witness of C13: a UDP destination with a stream network that `Dial` does not
support for TCP, and a `UDPDialer` that returns both a connection and an error. -/
theorem Dial_udp_destination_witness :
    @internet.Dial Nat
        ⟨fun _ _ _ => ⟨some 1, none⟩, fun _ _ _ => ⟨some 2, none⟩, fun _ _ _ => ⟨some 3, none⟩,
          fun _ _ _ => ⟨some 4, some (.dialer "late")⟩, fun _ _ _ => ⟨some 5, none⟩⟩
        (.IPv4 [0, 0, 0, 0]) ⟨.UDP, .IPv4 [8, 8, 8, 8], 53⟩ (some ⟨.Unknown, .None⟩)
      = some ([⟨.UDPDialer, .IPv4 [0, 0, 0, 0], ⟨.UDP, .IPv4 [8, 8, 8, 8], 53⟩,
            ⟨some ⟨.Unknown, .None⟩⟩⟩], ⟨some 4, some (.dialer "late")⟩) :=
  Dial_udp_destination _ _ ⟨.UDP, .IPv4 [8, 8, 8, 8], 53⟩ (some ⟨.Unknown, .None⟩) rfl

/-! ## Claims about the configuration decoders -/

/-- C14: a decoded inbound detour allocation configuration has the strategy
of the text; its refresh is the given value if that is not zero, else 5 for the
strategy `random` and 9999 for any other; its concurrency is the given value if
that is not zero, else 3 for the strategy `random` and 0 for any other. In
particular the strategy `random` with nothing else given yields concurrency 3
and refresh 5. The decoder returns no error. -/
theorem allocation_defaults (this : point.InboundDetourAllocationConfig)
    (jsonConfig : point.JsonInboundDetourAllocationConfig) :
    (∃ cfg, point.InboundDetourAllocationConfig.UnmarshalJSON this (.ok jsonConfig)
          = (cfg, none)
        ∧ cfg.Strategy = jsonConfig.Strategy
        ∧ cfg.Refresh = (if jsonConfig.RefreshMin ≠ 0 then jsonConfig.RefreshMin
            else if jsonConfig.Strategy = "random" then 5 else 9999)
        ∧ cfg.Concurrency = (if jsonConfig.Concurrency ≠ 0 then jsonConfig.Concurrency
            else if jsonConfig.Strategy = "random" then 3 else 0))
      ∧ point.InboundDetourAllocationConfig.UnmarshalJSON this (.ok ⟨"random", 0, 0⟩)
          = (⟨"random", 3, 5⟩, none) := by
  refine ⟨⟨_, rfl, ?_, ?_, ?_⟩, rfl⟩
  · by_cases hs : jsonConfig.Strategy = point.AllocationStrategyRandom <;>
      by_cases hr : jsonConfig.RefreshMin = 0 <;>
      by_cases hc : jsonConfig.Concurrency = 0 <;>
      simp [hs, hr, hc, point.DefaultRefreshMinute]
  · by_cases hs : jsonConfig.Strategy = point.AllocationStrategyRandom <;>
      by_cases hr : jsonConfig.RefreshMin = 0 <;>
      by_cases hc : jsonConfig.Concurrency = 0 <;>
      simp [hs, hr, hc, point.DefaultRefreshMinute] <;>
      simp [point.AllocationStrategyRandom] at hs ⊢ <;> simp [hs]
  · by_cases hs : jsonConfig.Strategy = point.AllocationStrategyRandom <;>
      by_cases hr : jsonConfig.RefreshMin = 0 <;>
      by_cases hc : jsonConfig.Concurrency = 0 <;>
      simp [hs, hr, hc, point.DefaultRefreshMinute] <;>
      simp [point.AllocationStrategyRandom] at hs ⊢ <;> simp [hs]

/-- C15: for the inbound configuration and for an inbound detour configuration
(whose port range is given, without which its decoder fails): when no listen
address is given the decoder succeeds and `ListenOn` is the any-IP address; when
the listen address is an IPv4 or IPv6 address the decoder succeeds and
`ListenOn` is that address; when the listen address is a domain the decoder
returns an error. -/
theorem listen_address_decoding (thisI : point.InboundConnectionConfig)
    (jsonI : point.JsonInboundConnectionConfig) (thisD : point.InboundDetourConfig)
    (jsonD : point.JsonInboundDetourConfig) :
    (jsonI.Listen = none →
        ∃ cfg, thisI.UnmarshalJSON (.ok jsonI) = some (cfg, none) ∧ cfg.ListenOn = point.AnyIP)
      ∧ (∀ ip, jsonI.Listen = some (.IPv4 ip) ∨ jsonI.Listen = some (.IPv6 ip) →
        ∃ cfg, thisI.UnmarshalJSON (.ok jsonI) = some (cfg, none)
          ∧ some cfg.ListenOn = jsonI.Listen)
      ∧ (∀ domain, jsonI.Listen = some (.Domain domain) →
        ∃ cfg err, thisI.UnmarshalJSON (.ok jsonI) = some (cfg, some err))
      ∧ (jsonD.PortRange ≠ none → jsonD.ListenOn = none →
        ∃ cfg, thisD.UnmarshalJSON (.ok jsonD) = some (cfg, none) ∧ cfg.ListenOn = point.AnyIP)
      ∧ (jsonD.PortRange ≠ none →
        ∀ ip, jsonD.ListenOn = some (.IPv4 ip) ∨ jsonD.ListenOn = some (.IPv6 ip) →
        ∃ cfg, thisD.UnmarshalJSON (.ok jsonD) = some (cfg, none)
          ∧ some cfg.ListenOn = jsonD.ListenOn)
      ∧ (∀ domain, jsonD.ListenOn = some (.Domain domain) →
        ∃ cfg err, thisD.UnmarshalJSON (.ok jsonD) = some (cfg, some err)) := by
  obtain ⟨portI, listenI, protocolI, streamI, settingsI, passiveI⟩ := jsonI
  obtain ⟨protocolD, rangeD, listenD, settingsD, tagD, allocationD, streamD, passiveD⟩ := jsonD
  simp only
  refine ⟨?_, ?_, ?_, ?_, ?_, ?_⟩
  · intro h
    subst h
    cases streamI <;> exact ⟨_, rfl, rfl⟩
  · intro ip h
    rcases h with h | h <;> subst h <;> cases streamI <;> exact ⟨_, rfl, rfl⟩
  · intro domain h
    subst h
    exact ⟨_, _, rfl⟩
  · intro hp h
    subst h
    cases rangeD with
    | none => exact absurd rfl hp
    | some portRange => cases streamD <;> cases allocationD <;> exact ⟨_, rfl, rfl⟩
  · intro hp ip h
    cases rangeD with
    | none => exact absurd rfl hp
    | some portRange =>
      rcases h with h | h <;> subst h <;> cases streamD <;> cases allocationD <;>
        exact ⟨_, rfl, rfl⟩
  · intro domain h
    subst h
    cases rangeD with
    | none => exact ⟨_, _, rfl⟩
    | some portRange => exact ⟨_, _, rfl⟩

/-- Witness of C15: an inbound configuration that listens on `127.0.0.1`. -/
theorem listen_address_decoding_witness :
    ∃ cfg, point.InboundConnectionConfig.UnmarshalJSON
          ⟨0, .Nil, "", none, "", false⟩
          (.ok ⟨1080, some (.IPv4 [127, 0, 0, 1]), "socks", none, "", false⟩)
        = some (cfg, none)
      ∧ some cfg.ListenOn = some (Address.IPv4 [127, 0, 0, 1]) :=
  (listen_address_decoding ⟨0, .Nil, "", none, "", false⟩
    ⟨1080, some (.IPv4 [127, 0, 0, 1]), "socks", none, "", false⟩
    ⟨"", ⟨0, 0⟩, .Nil, "", "", none, none, false⟩
    ⟨"", none, none, "", "", none, none, false⟩).2.1 [127, 0, 0, 1] (Or.inl rfl)

/-! ## Claims about `Point.Start` -/

/-- C16: a Point whose effective port (the inbound configuration port, or the
legacy top-level port when the inbound port is 0) is 0 returns
`ErrBadConfiguration` from `Start` without any call of `Start` on the inbound
handler or on a detour handler and without any wait. -/
theorem Start_port_zero (pConfig : point.Config) (ich : Nat → Option point.Error)
    (idh : List (Option point.Error)) (h : point.specEffectivePort pConfig = 0) :
    (point.NewPoint pConfig ich idh).Start = ([], some .ErrBadConfiguration) := by
  have hp : (point.NewPoint pConfig ich idh).port = 0 := h
  simp [point.Point.Start, hp]

/-- Witness of C16: no port in the inbound configuration and no legacy port,
with handlers that would start at once. -/
theorem Start_port_zero_witness :
    (point.NewPoint ⟨0, ⟨0, .IPv4 [0, 0, 0, 0], "http", none, "", false⟩⟩ (fun _ => none)
        [none, none]).Start = ([], some .ErrBadConfiguration) :=
  Start_port_zero ⟨0, ⟨0, .IPv4 [0, 0, 0, 0], "http", none, "", false⟩⟩ (fun _ => none)
    [none, none] rfl

/-! ## Claims about the TCP listener -/

theorem ListenTCP_queue (bind network : Option tcp.Error) (tls : Option (Option tcp.Error))
    (l : tcp.TCPListener) (h : tcp.ListenTCP bind network tls = .ok l) :
    l.awaitingConns = [] ∧ l.acccepting = true := by
  unfold tcp.ListenTCP at h
  cases bind with
  | some e => cases h
  | none =>
    cases network with
    | some e => cases h
    | none =>
      cases tls with
      | none => cases h; exact ⟨rfl, rfl⟩
      | some t =>
        cases t with
        | none => cases h; exact ⟨rfl, rfl⟩
        | some e => cases h

/-- Every operation keeps the queue within its capacity, and empty once the
listener has stopped accepting. -/
theorem step_keeps_queue (s t : tcp.TCPListener) (op : tcp.Op)
    (hinv : s.awaitingConns.length ≤ 32 ∧ (s.acccepting = false → s.awaitingConns = []))
    (hstep : tcp.step s op = some t) :
    t.awaitingConns.length ≤ 32 ∧ (t.acccepting = false → t.awaitingConns = []) := by
  obtain ⟨hlen, hempty⟩ := hinv
  obtain ⟨acc, lc, q, qc, tlsc, cc⟩ := s
  simp only at hlen hempty
  cases op with
  | keepAccepting conn err =>
    simp only [tcp.step, Option.some.injEq] at hstep
    subst hstep
    cases acc with
    | false => exact ⟨hlen, hempty⟩
    | true =>
      by_cases hl : q.length < 32
      · have h1 : (tcp.TCPListener.KeepAccepting ⟨true, lc, q, qc, tlsc, cc⟩ conn err).1
            = ⟨true, lc, q ++ [⟨conn, err⟩], qc, tlsc, cc⟩ := by
          simp [tcp.TCPListener.KeepAccepting, tcp.awaitingConnsCap, hl]
        rw [h1]
        refine ⟨?_, fun h => by cases h⟩
        simp only [List.length_append, List.length_singleton]
        omega
      · cases conn with
        | none =>
          have h1 : (tcp.TCPListener.KeepAccepting ⟨true, lc, q, qc, tlsc, cc⟩ none err).1
              = ⟨true, lc, q, qc, tlsc, cc⟩ := by
            simp [tcp.TCPListener.KeepAccepting, tcp.awaitingConnsCap, hl]
          rw [h1]
          exact ⟨hlen, fun h => by cases h⟩
        | some c =>
          have h1 : (tcp.TCPListener.KeepAccepting ⟨true, lc, q, qc, tlsc, cc⟩ (some c) err).1
              = ⟨true, lc, q, qc, tlsc, cc ++ [c]⟩ := by
            simp [tcp.TCPListener.KeepAccepting, tcp.awaitingConnsCap, hl]
          rw [h1]
          exact ⟨hlen, fun h => by cases h⟩
  | recycle dest conn =>
    simp only [tcp.step, Option.some.injEq] at hstep
    subst hstep
    cases acc with
    | false => exact ⟨hlen, hempty⟩
    | true =>
      by_cases hl : q.length < 32
      · have h1 : tcp.TCPListener.Recycle ⟨true, lc, q, qc, tlsc, cc⟩ dest conn
            = ⟨true, lc, q ++ [⟨some conn, none⟩], qc, tlsc, cc⟩ := by
          simp [tcp.TCPListener.Recycle, tcp.awaitingConnsCap, hl]
        rw [h1]
        refine ⟨?_, fun h => by cases h⟩
        simp only [List.length_append, List.length_singleton]
        omega
      · have h1 : tcp.TCPListener.Recycle ⟨true, lc, q, qc, tlsc, cc⟩ dest conn
            = ⟨true, lc, q, qc, tlsc, cc ++ [conn]⟩ := by
          simp [tcp.TCPListener.Recycle, tcp.awaitingConnsCap, hl]
        rw [h1]
        exact ⟨hlen, fun h => by cases h⟩
  | accept =>
    simp only [tcp.step, Option.some.injEq] at hstep
    subst hstep
    cases acc with
    | false => exact ⟨hlen, hempty⟩
    | true =>
      cases q with
      | nil => cases qc <;> exact ⟨hlen, fun h => by cases h⟩
      | cons connErr rest =>
        have h1 : (tcp.TCPListener.Accept ⟨true, lc, connErr :: rest, qc, tlsc, cc⟩).1
            = ⟨true, lc, rest, qc, tlsc, cc⟩ := by
          obtain ⟨c, e⟩ := connErr
          cases e <;> rfl
        rw [h1]
        simp only [List.length_cons] at hlen
        exact ⟨by simp only; omega, fun h => by cases h⟩
  | close =>
    simp only [tcp.step, tcp.TCPListener.Close] at hstep
    cases qc with
    | true => simp at hstep
    | false =>
      simp only [Bool.false_eq_true, if_false, Option.some.injEq] at hstep
      subst hstep
      exact ⟨by simp, fun _ => rfl⟩

theorem run_keeps_queue (ops : List tcp.Op) :
    ∀ s t : tcp.TCPListener,
      (s.awaitingConns.length ≤ 32 ∧ (s.acccepting = false → s.awaitingConns = [])) →
      tcp.run s ops = some t →
      t.awaitingConns.length ≤ 32 ∧ (t.acccepting = false → t.awaitingConns = []) := by
  induction ops with
  | nil =>
    intro s t hinv hrun
    simp only [tcp.run, Option.some.injEq] at hrun
    subst hrun
    exact hinv
  | cons op ops ih =>
    intro s t hinv hrun
    simp only [tcp.run] at hrun
    cases hs : tcp.step s op with
    | none => rw [hs] at hrun; cases hrun
    | some next =>
      rw [hs] at hrun
      exact ih next t (step_keeps_queue s next op hinv hs) hrun

/-- C17: in every state reached from a successful `ListenTCP` by any sequence of
turns of the accept loop, `Recycle` calls, `Accept` calls and `Close`, at most
32 entries are queued; and when the queue is full, a turn of the accept loop or
a `Recycle` leaves the queue as it is and closes the arriving connection. -/
theorem awaitingConns_bounded (bind network : Option tcp.Error)
    (tls : Option (Option tcp.Error)) (l s : tcp.TCPListener) (ops : List tcp.Op)
    (hl : tcp.ListenTCP bind network tls = .ok l) (hr : tcp.run l ops = some s) :
    s.awaitingConns.length ≤ 32
      ∧ (s.awaitingConns.length = 32 →
          (∀ conn err, (s.KeepAccepting (some conn) err).1.awaitingConns = s.awaitingConns
              ∧ (s.KeepAccepting (some conn) err).1.closedConns = s.closedConns ++ [conn])
            ∧ (∀ err, (s.KeepAccepting none err).1 = s)
            ∧ ∀ dest conn, (s.Recycle dest conn).awaitingConns = s.awaitingConns
              ∧ (s.Recycle dest conn).closedConns = s.closedConns ++ [conn]) := by
  obtain ⟨hq, _⟩ := ListenTCP_queue bind network tls l hl
  obtain ⟨hlen, hempty⟩ := run_keeps_queue ops l s ⟨by simp [hq], fun _ => hq⟩ hr
  refine ⟨hlen, ?_⟩
  intro hfull
  have ha : s.acccepting = true := by
    by_cases h : s.acccepting = true
    · exact h
    · simp only [Bool.not_eq_true] at h
      rw [hempty h] at hfull
      simp at hfull
  have hnl : ¬ s.awaitingConns.length < tcp.awaitingConnsCap := by
    simp only [tcp.awaitingConnsCap]; omega
  refine ⟨?_, ?_, ?_⟩
  · intro conn err
    simp only [tcp.TCPListener.KeepAccepting, ha, Bool.not_true, Bool.false_eq_true, if_false,
      if_neg hnl, and_self]
  · intro err
    simp only [tcp.TCPListener.KeepAccepting, ha, Bool.not_true, Bool.false_eq_true, if_false,
      if_neg hnl]
  · intro dest conn
    simp only [tcp.TCPListener.Recycle, ha, Bool.not_true, Bool.false_eq_true, if_false,
      if_neg hnl, and_self]

/-- Witness of C17: thirty-three connections arrive and none is accepted; the
queue holds 32 of them, the last one was closed, and a recycled connection is
closed as well. -/
theorem awaitingConns_bounded_witness :
    (List.replicate 32 (tcp.ConnectionWithError.mk (some 1) none)).length ≤ 32
      ∧ (tcp.TCPListener.Recycle
            ⟨true, false, List.replicate 32 ⟨some 1, none⟩, false, false, [1]⟩ "" 9).closedConns
          = [1, 9] :=
  ⟨(awaitingConns_bounded none none none ⟨true, false, [], false, false, []⟩
      ⟨true, false, List.replicate 32 ⟨some 1, none⟩, false, false, [1]⟩
      (List.replicate 33 (.keepAccepting (some 1) none)) rfl (by decide)).1,
    ((awaitingConns_bounded none none none ⟨true, false, [], false, false, []⟩
      ⟨true, false, List.replicate 32 ⟨some 1, none⟩, false, false, [1]⟩
      (List.replicate 33 (.keepAccepting (some 1) none)) rfl (by decide)).2 (by decide)).2.2 "" 9 |>.2⟩

/-- C18: the claim says a connection recycled after `Close` is closed by
`Recycle`. On the listener that `ListenTCP` returns, after `Close`, the call
`Recycle("", 7)` returns at once: the listener is unchanged, socket 7 is neither
queued nor among the closed sockets. Before `Close`, with a full queue, the same
call closes the socket. -/
theorem Recycle_after_Close_leaves_socket_open :
    tcp.ListenTCP none none none = .ok ⟨true, false, [], false, false, []⟩
      ∧ tcp.TCPListener.Close ⟨true, false, [], false, false, []⟩
          = some ⟨false, true, [], true, false, []⟩
      ∧ tcp.TCPListener.Recycle ⟨false, true, [], true, false, []⟩ "" 7
          = ⟨false, true, [], true, false, []⟩
      ∧ 7 ∉ (tcp.TCPListener.Recycle ⟨false, true, [], true, false, []⟩ "" 7).closedConns
      ∧ (tcp.TCPListener.Recycle ⟨false, true, [], true, false, []⟩ "" 7).awaitingConns = []
      ∧ (tcp.TCPListener.Recycle
            ⟨true, false, List.replicate 32 ⟨some 1, none⟩, false, false, []⟩ "" 7).closedConns
          = [7] := by
  decide

/-! ## Claims about the WebSocket connection -/

/-- C19: the claim says that after the first `Close` reads return end-of-stream,
writes fail and a second `Close` has no effect, for reusable connections too. A
reusable connection keeps its socket reference through `Close`: the connection
is unchanged, a `Read` and a `Write` after it still go to the socket and return
what the socket returns, and a second `Close` hands the socket to the manager a
second time. The connection that is not reusable behaves as claimed. -/
theorem reusable_Close_keeps_socket_reference :
    ws.Connection.Close (some (ws.NewConnection "example.com:443" (some 5) ⟨"", true⟩)) none
        = (some (ws.NewConnection "example.com:443" (some 5) ⟨"", true⟩),
            [.Recycle "example.com:443" 5], none)
      ∧ ws.Connection.Read (some (ws.NewConnection "example.com:443" (some 5) ⟨"", true⟩))
          (4, none) = ([.SocketRead 5], 4, none)
      ∧ ws.Connection.Write (some (ws.NewConnection "example.com:443" (some 5) ⟨"", true⟩))
          (4, none) = ([.SocketWrite 5], 4, none)
      ∧ ws.Connection.Close
          (ws.Connection.Close
            (some (ws.NewConnection "example.com:443" (some 5) ⟨"", true⟩)) none).1 none
        = (some (ws.NewConnection "example.com:443" (some 5) ⟨"", true⟩),
            [.Recycle "example.com:443" 5], none)
      ∧ ws.Connection.Close
          (ws.Connection.Close
            (some (ws.NewConnection "example.com:443" (some 5) ⟨"", false⟩)) none).1 none
        = (some ⟨"example.com:443", none, false, ⟨"", false⟩⟩, [], some .ErrClosedPipe) := by
  decide

theorem SetReusable_config (c : ws.Connection) (b : Bool) :
    (c.SetReusable b).config = c.config := by
  unfold ws.Connection.SetReusable
  split <;> rfl

theorem foldl_SetReusable (flags : List Bool) :
    ∀ c : ws.Connection, (c.reusable = true → c.config.ConnectionReuse = true) →
      (flags.foldl ws.Connection.SetReusable c).config = c.config
        ∧ ((flags.foldl ws.Connection.SetReusable c).reusable = true →
            c.config.ConnectionReuse = true) := by
  induction flags with
  | nil => intro c hc; exact ⟨rfl, hc⟩
  | cons b rest ih =>
    intro c hc
    have hstep : (c.SetReusable b).reusable = true →
        (c.SetReusable b).config.ConnectionReuse = true := by
      rw [SetReusable_config]
      intro h
      by_cases hr : c.config.ConnectionReuse = true
      · exact hr
      · simp only [Bool.not_eq_true] at hr
        simp only [ws.Connection.SetReusable, hr, Bool.not_false, if_true] at h
        exact hc h
    obtain ⟨h1, h2⟩ := ih (c.SetReusable b) hstep
    rw [SetReusable_config] at h1 h2
    exact ⟨h1, h2⟩

/-- C20: on an open connection, `Close` of a reusable connection makes exactly
one call, `Recycle(dest, conn)` on the manager, does not close the socket, keeps
the connection as it is and returns nil; `Close` of a connection that is not
reusable makes exactly one call, `Close` on the socket, returns what that call
returns and clears the socket reference. A connection built by `NewConnection`
and then given any sequence of `SetReusable` calls is reusable only if its
configuration has `ConnectionReuse` set, and without it `SetReusable` changes
nothing. -/
theorem Close_open_connection (c : ws.Connection) (sock : Nat) (socketClose : Option ws.Error)
    (ho : c.conn = some sock) :
    (c.Reusable = true →
        ws.Connection.Close (some c) socketClose = (some c, [.Recycle c.dest sock], none))
      ∧ (c.Reusable = false →
        ws.Connection.Close (some c) socketClose
          = (some { c with conn := none }, [.SocketClose sock], socketClose))
      ∧ (∀ (dest : String) (conn : Option Nat) (config : ws.Config) (flags : List Bool),
          (flags.foldl ws.Connection.SetReusable (ws.NewConnection dest conn config)).Reusable
              = true → config.ConnectionReuse = true)
      ∧ (c.config.ConnectionReuse = false → ∀ b, c.SetReusable b = c) := by
  refine ⟨?_, ?_, ?_, ?_⟩
  · intro hr
    simp only [ws.Connection.Close, ho, hr, if_true]
  · intro hr
    simp only [ws.Connection.Close, ho, hr, Bool.false_eq_true, if_false]
  · intro dest conn config flags h
    exact (foldl_SetReusable flags (ws.NewConnection dest conn config) (fun h1 => h1)).2 h
  · intro hc b
    simp only [ws.Connection.SetReusable, hc, Bool.not_false, if_true]

/-- Witness of C20: the connection of the test, with `ConnectionReuse` set. -/
theorem Close_open_connection_witness :
    ws.Connection.Close (some (ws.NewConnection "echo.websocket.org:443" (some 3) ⟨"", true⟩))
        none
      = (some (ws.NewConnection "echo.websocket.org:443" (some 3) ⟨"", true⟩),
          [.Recycle "echo.websocket.org:443" 3], none) :=
  (Close_open_connection (ws.NewConnection "echo.websocket.org:443" (some 3) ⟨"", true⟩) 3 none
    rfl).1 rfl

/-! ## The port conversion of `parseHost` -/

/-- A text `strconv.Atoi` accepts holds a sign and decimal digits only. -/
theorem Atoi_not_special (n : String) (v : Int) (hn : Atoi n = .ok v) :
    ∀ c ∈ n.data, c ≠ ':' ∧ c ≠ '[' ∧ c ≠ ']' := by
  obtain ⟨_, hdig, _⟩ := (Atoi_ok_iff n).mp ⟨v, hn⟩
  intro c hc
  have hcases : c = '+' ∨ c = '-' ∨ (digitVal c).isSome = true := by
    cases hd : n.data with
    | nil => rw [hd] at hc; cases hc
    | cons x xs =>
      rw [hd] at hc hdig
      by_cases hs : x = '+' ∨ x = '-'
      · have hh : (x :: xs).head? = some '+' ∨ (x :: xs).head? = some '-' := by
          rcases hs with hs | hs <;> simp [hs]
        rw [if_pos hh] at hdig
        rcases List.mem_cons.mp hc with h | h
        · rcases hs with hs | hs
          · exact Or.inl (h.trans hs)
          · exact Or.inr (Or.inl (h.trans hs))
        · exact Or.inr (Or.inr (hdig c (by simpa using h)))
      · have hh : ¬ ((x :: xs).head? = some '+' ∨ (x :: xs).head? = some '-') := by
          simpa using hs
        rw [if_neg hh] at hdig
        exact Or.inr (Or.inr (hdig c hc))
  rcases hcases with h | h | h
  · subst h; decide
  · subst h; decide
  · refine ⟨?_, ?_, ?_⟩ <;> intro hx <;> subst hx <;> simp [digitVal] at h

/-- `parseHost` on `host:port` with a plain host and a port text that
`strconv.Atoi` accepts. -/
theorem parseHost_plain_text (host : List Char) (n : String) (v : Int) (d : Port)
    (hn : Atoi n = .ok v)
    (hh : ∀ c ∈ host, c ≠ ':' ∧ c ≠ '[' ∧ c ≠ ']' ∧ c ≠ '%') :
    parseHost ⟨host ++ ':' :: n.data⟩ d = .ok (hostDestination ⟨host⟩ (toPort v)) := by
  unfold parseHost SplitHostPort
  simp only [splitHostPortChars_plain host _ hh (Atoi_not_special n v hn), hn]

/-- `parseHost` on `[host]:port` with a port text that `strconv.Atoi` accepts. -/
theorem parseHost_bracket_text (host : List Char) (n : String) (v : Int) (d : Port)
    (hn : Atoi n = .ok v) (hh : ∀ c ∈ host, c ≠ '[' ∧ c ≠ ']') :
    parseHost ⟨'[' :: (host ++ ']' :: ':' :: n.data)⟩ d
      = .ok (hostDestination ⟨host⟩ (toPort v)) := by
  unfold parseHost SplitHostPort
  simp only [splitHostPortChars_bracket host _ hh (Atoi_not_special n v hn), hn]

/-- C23: `parseHost` makes no range check on the port. For a host `h` in
`host[:port]` syntax and a port text `n` that `strconv.Atoi` accepts with value
`v` (negative values and values above 65535 included), `parseHost` on `h:n`
succeeds with a TCP destination whose port is `v` modulo `2 ^ 16`; so `h:65536`
yields port 0, `h:65616` yields port 80 and `h:-1` yields port 65535. -/
theorem parseHost_port_modulo (h n : String) (v : Int) (d : Port) (hh : IsHost h)
    (hn : Atoi n = .ok v) :
    (∃ a p, parseHost (h ++ ":" ++ n) d = .ok ⟨.TCP, a, p⟩ ∧ (p : Int) = v % 2 ^ 16)
      ∧ parseHost "h:65536" d = .ok ⟨.TCP, .Domain "h", 0⟩
      ∧ parseHost "h:65616" d = .ok ⟨.TCP, .Domain "h", 80⟩
      ∧ parseHost "h:-1" d = .ok ⟨.TCP, .Domain "h", 65535⟩ := by
  have hport : ((toPort v : Nat) : Int) = v % 2 ^ 16 := by
    unfold toPort
    have h0 : (0 : Int) ≤ v % 65536 := Int.emod_nonneg v (by decide)
    rw [Int.toNat_of_nonneg h0]
    norm_num
  have hstr : h ++ ":" ++ n = ⟨h.data ++ ':' :: n.data⟩ := by
    apply String.ext
    simp [String.data_append]
  refine ⟨?_, by rfl, by rfl, by rfl⟩
  rcases hh with hplain | ⟨x, hx, hxb⟩
  · rw [hstr, parseHost_plain_text h.data n v d hn hplain, hostDestination_eq]
    exact ⟨_, _, rfl, hport⟩
  · have h1 : h.data ++ ':' :: n.data = '[' :: (x ++ ']' :: ':' :: n.data) := by
      rw [hx]; simp
    rw [hstr, h1, parseHost_bracket_text x n v d hn hxb, hostDestination_eq]
    exact ⟨_, _, rfl, hport⟩

/-- Witness of C23 on `example.com:65616`: the port is 80. -/
theorem parseHost_port_modulo_witness :
    ∃ a p, parseHost ("example.com" ++ ":" ++ "65616") 443 = .ok ⟨.TCP, a, p⟩
      ∧ (p : Int) = (65616 : Int) % 2 ^ 16 :=
  (parseHost_port_modulo "example.com" "65616" 65616 443 (Or.inl (by decide)) (by decide)).1

/-! ## The order of the 200 response and the dispatch -/

/-- C22, as stated, fails: on `CONNECT example.com:443` the first thing the
handler does is to write the 200 response; no call of `DispatchToOutbound`
comes before it. -/
theorem connect_200_written_before_dispatch :
    ¬ ∀ (pre post : List Event) (r : Response),
        handleConnection ⟨.TCP, .IPv4 [127, 0, 0, 1], 50000⟩
            (some ⟨"CONNECT", "", "example.com:443", "example.com:443", []⟩)
          = pre ++ .WriteResponse r :: post →
        r.StatusCode = 200 → ∃ s, Event.DispatchToOutbound s ∈ pre := by
  intro h
  obtain ⟨s, hs⟩ := h []
    [.DispatchToOutbound ⟨⟨.TCP, .IPv4 [127, 0, 0, 1], 50000⟩, ⟨.TCP, .Domain "example.com", 443⟩⟩,
      .Transport, .CloseConn]
    ⟨"200 OK", 200, "HTTP/1.1", 1, 1, [], none, 0, false⟩ (by decide) rfl
  cases hs

/-- C22, amended: in every CONNECT session (the `SessionInfo` was built and the
upper-cased method is `CONNECT`) the handler first writes the 200 OK response to
the client and only then obtains the Ray: the trace is the 200 response, one call
of `DispatchToOutbound` with the session, the tunnel and the close; whatever
precedes a call of `DispatchToOutbound` in the trace is exactly that response. -/
theorem connect_dispatch_after_200 (remote : Destination) (request : Request)
    (session : SessionInfo) (hs : buildSession remote request = .ok session)
    (hm : ToUpper request.Method = "CONNECT") :
    ∃ r, r.StatusCode = 200 ∧ r.Status = "200 OK"
      ∧ handleConnection remote (some request)
          = [.WriteResponse r, .DispatchToOutbound session, .Transport, .CloseConn]
      ∧ ∀ (pre post : List Event) (s : SessionInfo),
          handleConnection remote (some request) = pre ++ .DispatchToOutbound s :: post →
          pre = [.WriteResponse r] ∧ s = session ∧ post = [.Transport, .CloseConn] := by
  have he : handleConnection remote (some request)
      = [.WriteResponse ⟨"200 OK", 200, "HTTP/1.1", 1, 1, [], none, 0, false⟩,
          .DispatchToOutbound session, .Transport, .CloseConn] := by
    simp [handleConnection, hs, hm, handleConnect]
  refine ⟨_, rfl, rfl, he, ?_⟩
  intro pre post s h
  rw [he] at h
  rcases pre with _ | ⟨p1, _ | ⟨p2, _ | ⟨p3, _ | ⟨p4, pre⟩⟩⟩⟩
  · simp at h
  · simp only [List.cons_append, List.nil_append, List.cons.injEq, Event.DispatchToOutbound.injEq]
      at h
    obtain ⟨h1, h2, h3⟩ := h
    exact ⟨by rw [h1], h2.symm, h3.symm⟩
  · simp at h
  · simp at h
  · simp at h

/-- Witness of C22 as amended, on `CONNECT example.com:443`. -/
theorem connect_dispatch_after_200_witness :
    ∃ r, r.StatusCode = 200 ∧ r.Status = "200 OK"
      ∧ handleConnection ⟨.TCP, .IPv4 [127, 0, 0, 1], 50000⟩
            (some ⟨"CONNECT", "", "example.com:443", "example.com:443", []⟩)
          = [.WriteResponse r,
              .DispatchToOutbound
                ⟨⟨.TCP, .IPv4 [127, 0, 0, 1], 50000⟩, ⟨.TCP, .Domain "example.com", 443⟩⟩,
              .Transport, .CloseConn] :=
  let ⟨r, h1, h2, h3, _⟩ := connect_dispatch_after_200 ⟨.TCP, .IPv4 [127, 0, 0, 1], 50000⟩
    ⟨"CONNECT", "", "example.com:443", "example.com:443", []⟩
    ⟨⟨.TCP, .IPv4 [127, 0, 0, 1], 50000⟩, ⟨.TCP, .Domain "example.com", 443⟩⟩
    (by decide) (by decide)
  ⟨r, h1, h2, h3⟩

namespace kcp

/-! ## The KCP connection -/

theorem openAll_sealAll (auths : List internet.Authenticator)
    (h : ∀ auth ∈ auths, ∀ payload, auth.Open (auth.Seal payload) = some payload)
    (payload : List Nat) :
    internet.openAll auths (internet.sealAll auths payload) = some payload := by
  induction auths with
  | nil => rfl
  | cons auth rest ih =>
    simp only [internet.sealAll, internet.openAll, h auth (List.mem_cons_self _ _)]
    exact ih (fun a ha => h a (List.mem_cons_of_mem _ ha))

theorem Open_Seal (auth : internet.AuthenticatorChain) (h : auth.Inverse) (payload : List Nat) :
    auth.Open (auth.Seal payload) = some payload :=
  openAll_sealAll auth.chain h payload

theorem uint32_uint32Bytes (v : Nat) (hv : v < 2 ^ 32) :
    uint32 (v % 256) (v / 256 % 256) (v / 65536 % 256) (v / 16777216 % 256) = v := by
  unfold uint32
  omega

theorem ReadSegment_Bytes (seg : Segment) (hc : seg.Conv < 2 ^ 32) (hn : seg.Number < 2 ^ 32) :
    ReadSegment seg.Bytes = some seg := by
  obtain ⟨conv, cmd, number, data⟩ := seg
  cases cmd <;>
    simp [Segment.Bytes, uint32Bytes, ReadSegment, uint32_uint32Bytes conv hc,
      uint32_uint32Bytes number hn]

/-- A data segment with the expected number is appended to the received bytes. -/
theorem Input_data (this : Connection) (data : List Nat) (hi : this.auth.Inverse)
    (hc : this.conv < 2 ^ 32) (hn : this.receivingNext < 2 ^ 32)
    (hs : this.state = .StateActive) :
    this.Input (this.auth.Seal (Segment.Bytes ⟨this.conv, .Data, this.receivingNext, data⟩))
      = { this with
          received := this.received ++ data
          receivingNext := (this.receivingNext + 1) % 2 ^ 32 } := by
  unfold Connection.Input
  rw [Open_Seal this.auth hi]
  simp only [ReadSegment_Bytes ⟨this.conv, .Data, this.receivingNext, data⟩ hc hn]
  simp [hs]

/-- The peer's notice of closing changes the state and nothing else. -/
theorem Input_terminate (this : Connection) (number : Nat) (hi : this.auth.Inverse)
    (hc : this.conv < 2 ^ 32) (hn : number < 2 ^ 32) :
    this.Input (this.auth.Seal (Segment.Bytes ⟨this.conv, .Terminate, number, []⟩))
      = { this with state := this.state.peerClosed } := by
  unfold Connection.Input
  rw [Open_Seal this.auth hi]
  simp only [ReadSegment_Bytes ⟨this.conv, .Terminate, number, []⟩ hc hn]
  simp

theorem flatten_chunks (mss : Nat) (hm : 0 < mss) :
    ∀ (fuel : Nat) (b : List Nat), b.length ≤ fuel → (chunks mss fuel b).flatten = b := by
  intro fuel
  induction fuel with
  | zero =>
    intro b hb
    have : b = [] := List.length_eq_zero.mp (Nat.le_zero.mp hb)
    subst this
    rfl
  | succ fuel ih =>
    intro b hb
    unfold chunks
    by_cases he : b = []
    · simp [he]
    · rw [if_neg he, List.flatten_cons, ih]
      · exact List.take_append_drop mss b
      · have : 0 < b.length := List.length_pos.mpr he
        rw [List.length_drop]
        omega

theorem chunks_ne_nil (mss : Nat) (hm : 0 < mss) :
    ∀ (fuel : Nat) (b : List Nat), ∀ piece ∈ chunks mss fuel b, piece ≠ [] := by
  intro fuel
  induction fuel with
  | zero => intro b piece hp; simp [chunks] at hp
  | succ fuel ih =>
    intro b piece hp
    unfold chunks at hp
    by_cases he : b = []
    · simp [he] at hp
    · rw [if_neg he] at hp
      rcases List.mem_cons.mp hp with h | h
      · subst h
        intro h0
        rcases List.take_eq_nil_iff.mp h0 with h1 | h1
        · omega
        · exact he h1
      · exact ih _ piece h

/-- A step of a transfer keeps the link in transfer and accounts for every byte:
what was received or still on its way is what the step read, followed by what is
received or on its way now. -/
theorem transfer_step (conv : Nat) (auth : internet.AuthenticatorChain) (hi : auth.Inverse)
    (hc : conv < 2 ^ 32) (link link1 : Link) (op : Op) (o : Observation) (k : Nat)
    (rest : List (List Nat)) (hop : op.IsTransfer = true) (hstep : step link op = some (link1, o))
    (h : link.InTransfer conv auth k rest) :
    ∃ k1 rest1, link1.InTransfer conv auth k1 rest1
      ∧ link.connServer.received ++ rest.flatten
          = readBytes [o] ++ (link1.connServer.received ++ rest1.flatten)
      ∧ noError [o] = true := by
  obtain ⟨hs, hcv, ha, hr, hu⟩ := h
  cases op with
  | clientWrite b => cases hop
  | clientClose => cases hop
  | serverClose => cases hop
  | serverRead n =>
    simp only [step, Connection.Read, hs, reduceCtorEq, or_self, if_false] at hstep
    by_cases he : link.connServer.received = []
    · simp [he] at hstep
    · simp only [he, if_false, Option.some.injEq, Prod.mk.injEq] at hstep
      obtain ⟨h1, h2⟩ := hstep
      subst h1 h2
      refine ⟨k, rest, ⟨rfl, hcv, ha, hr, hu⟩, ?_, rfl⟩
      simp only [readBytes, List.append_nil]
      rw [← List.append_assoc, List.take_append_drop]
  | fetchDown =>
    simp only [step] at hstep
    cases hd : link.down with
    | nil => simp [hd] at hstep
    | cons d ds =>
      simp only [hd, Option.some.injEq, Prod.mk.injEq] at hstep
      obtain ⟨h1, h2⟩ := hstep
      subst h1 h2
      exact ⟨k, rest, ⟨hs, hcv, ha, hr, hu⟩, by simp [readBytes], rfl⟩
  | fetchUp =>
    simp only [step] at hstep
    cases rest with
    | nil =>
      simp [datagrams, dataSegments] at hu
      simp [hu] at hstep
    | cons piece rest1 =>
      have hu1 : link.up = auth.Seal (Segment.Bytes ⟨conv, .Data, k % 2 ^ 32, piece⟩)
          :: datagrams conv auth (k + 1) rest1 := by
        rw [hu]; rfl
      simp only [hu1, Option.some.injEq, Prod.mk.injEq] at hstep
      obtain ⟨h1, h2⟩ := hstep
      subst h1 h2
      have hin := Input_data link.connServer piece (by rw [ha]; exact hi) (by rw [hcv]; exact hc)
        (by rw [hr]; exact Nat.mod_lt _ (by decide)) hs
      rw [ha, hcv, hr] at hin
      refine ⟨k + 1, rest1, ⟨?_, ?_, ?_, ?_, rfl⟩, ?_, rfl⟩
      · simp only [hin]; exact hs
      · simp only [hin]
      · simp only [hin]
      · simp only [hin]; omega
      · simp only [hin, readBytes, List.flatten_cons, List.nil_append, List.append_assoc]

theorem readBytes_cons (o : Observation) (os : List Observation) :
    readBytes (o :: os) = readBytes [o] ++ readBytes os := by
  cases o <;> simp [readBytes]

theorem noError_cons (o : Observation) (os : List Observation) :
    noError (o :: os) = (noError [o] && noError os) := by
  cases o <;> simp [noError]

/-- A schedule of transfer steps keeps the link in transfer and accounts for
every byte. -/
theorem transfer_run (conv : Nat) (auth : internet.AuthenticatorChain) (hi : auth.Inverse)
    (hc : conv < 2 ^ 32) :
    ∀ (ops : List Op) (link link1 : Link) (out : List Observation) (k : Nat)
      (rest : List (List Nat)),
      (∀ op ∈ ops, op.IsTransfer = true) → run link ops = some (link1, out) →
      link.InTransfer conv auth k rest →
      ∃ k1 rest1, link1.InTransfer conv auth k1 rest1
        ∧ link.connServer.received ++ rest.flatten
            = readBytes out ++ (link1.connServer.received ++ rest1.flatten)
        ∧ noError out = true := by
  intro ops
  induction ops with
  | nil =>
    intro link link1 out k rest _ hrun h
    simp only [run, Option.some.injEq, Prod.mk.injEq] at hrun
    obtain ⟨h1, h2⟩ := hrun
    subst h1 h2
    exact ⟨k, rest, h, rfl, rfl⟩
  | cons op ops ih =>
    intro link link1 out k rest hops hrun h
    simp only [run] at hrun
    cases hst : step link op with
    | none => simp [hst] at hrun
    | some p =>
      obtain ⟨link2, o⟩ := p
      simp only [hst] at hrun
      cases hr : run link2 ops with
      | none => simp [hr] at hrun
      | some q =>
        obtain ⟨link3, os⟩ := q
        simp only [hr, Option.some.injEq, Prod.mk.injEq] at hrun
        obtain ⟨h1, h2⟩ := hrun
        subst h1 h2
        obtain ⟨k2, rest2, hin2, heq2, hne2⟩ :=
          transfer_step conv auth hi hc link link2 op o k rest
            (hops op (List.mem_cons_self _ _)) hst h
        obtain ⟨k3, rest3, hin3, heq3, hne3⟩ :=
          ih link2 link3 os k2 rest2 (fun x hx => hops x (List.mem_cons_of_mem _ hx)) hr hin2
        refine ⟨k3, rest3, hin3, ?_, ?_⟩
        · rw [readBytes_cons, heq2, heq3, List.append_assoc]
        · rw [noError_cons, hne2, hne3]; rfl

theorem datagrams_eq_nil (conv : Nat) (auth : internet.AuthenticatorChain) (k : Nat)
    (rest : List (List Nat)) (h : datagrams conv auth k rest = []) : rest = [] := by
  cases rest with
  | nil => rfl
  | cons piece rest1 => simp [datagrams, dataSegments] at h

/-- The read loop of the test ends, within `fuel` turns, with every byte that
was received or on its way. -/
theorem readLoop_transfer (conv : Nat) (auth : internet.AuthenticatorChain) (hi : auth.Inverse)
    (hc : conv < 2 ^ 32) :
    ∀ (fuel : Nat) (link : Link) (k : Nat) (rest : List (List Nat)) (serverReceived : List Nat)
      (ok : Bool) (totalWritten : Nat),
      link.InTransfer conv auth k rest → (∀ piece ∈ rest, piece ≠ []) →
      totalWritten
        = serverReceived.length + link.connServer.received.length + rest.flatten.length →
      totalWritten - serverReceived.length + rest.length < fuel →
      ∃ r, readLoop fuel link totalWritten serverReceived ok = some r
        ∧ r.serverReceived = serverReceived ++ link.connServer.received ++ rest.flatten
        ∧ r.errIsNil = ok ∧ r.link.up = [] ∧ r.link.down = link.down
        ∧ r.link.connClient = link.connClient
        ∧ r.link.connServer.received = [] ∧ r.link.connServer.state = .StateActive
        ∧ r.link.connServer.conv = conv ∧ r.link.connServer.auth = auth
        ∧ r.link.connServer.sendingNext = link.connServer.sendingNext := by
  intro fuel
  induction fuel with
  | zero => intro link k rest sr ok total _ _ _ hf; omega
  | succ fuel ih =>
    intro link k rest sr ok total h hne htot hf
    obtain ⟨hs, hcv, ha, hr, hu⟩ := h
    unfold readLoop
    by_cases hlt : sr.length < total
    · rw [if_pos hlt]
      by_cases he : link.connServer.received = []
      · -- the read waits: the next datagram is fetched
        have hread : step link (.serverRead (total - sr.length)) = none := by
          simp [step, Connection.Read, hs, he]
        rw [hread]
        cases rest with
        | nil => simp [he] at htot; omega
        | cons piece rest1 =>
          have hu1 : link.up = auth.Seal (Segment.Bytes ⟨conv, .Data, k % 2 ^ 32, piece⟩)
              :: datagrams conv auth (k + 1) rest1 := by
            rw [hu]; rfl
          have hin := Input_data link.connServer piece (by rw [ha]; exact hi)
            (by rw [hcv]; exact hc) (by rw [hr]; exact Nat.mod_lt _ (by decide)) hs
          rw [ha, hcv, hr] at hin
          simp only [step, hu1, hin]
          obtain ⟨r, hr1, hr2, hr3, hr4, hr5, hr6, hr7, hr8, hr9, hr10, hr11⟩ :=
            ih { link with
                  connServer := { link.connServer with
                    conv := conv
                    auth := auth
                    received := link.connServer.received ++ piece
                    receivingNext := (k % 2 ^ 32 + 1) % 2 ^ 32 }
                  up := datagrams conv auth (k + 1) rest1 }
              (k + 1) rest1 sr ok total ⟨hs, rfl, rfl, by simp only []; omega, rfl⟩
              (fun p hp => hne p (List.mem_cons_of_mem _ hp))
              (by simp only [List.length_append, List.flatten_cons] at htot ⊢; omega)
              (by simp only [List.length_cons] at hf; omega)
          refine ⟨r, hr1, ?_, hr3, hr4, hr5, hr6, hr7, hr8, hr9, hr10, hr11⟩
          rw [hr2]
          simp [he]
      · -- the read returns bytes
        have hread : step link (.serverRead (total - sr.length))
            = some ({ link with connServer := { link.connServer with
                        received := link.connServer.received.drop (total - sr.length) } },
                .read (link.connServer.received.take (total - sr.length)) none) := by
          simp [step, Connection.Read, hs, he]
        rw [hread]
        simp only [Option.isNone_none, Bool.and_true]
        have hpos : 0 < link.connServer.received.length := List.length_pos.mpr he
        obtain ⟨r, hr1, hr2, hr3, hr4, hr5, hr6, hr7, hr8, hr9, hr10, hr11⟩ :=
          ih { link with connServer := { link.connServer with
                  received := link.connServer.received.drop (total - sr.length) } }
            k rest (sr ++ link.connServer.received.take (total - sr.length)) ok total
            ⟨hs, hcv, ha, hr, hu⟩ hne
            (by simp only [List.length_append, List.length_take, List.length_drop]; omega)
            (by simp only [List.length_append, List.length_take]; omega)
        refine ⟨r, hr1, ?_, hr3, hr4, hr5, hr6, hr7, hr8, hr9, hr10, hr11⟩
        rw [hr2]
        simp only [List.append_assoc]
        rw [← List.append_assoc (List.take _ _), List.take_append_drop]
    · rw [if_neg hlt]
      have h0 : link.connServer.received = [] := by
        apply List.length_eq_zero.mp; omega
      have h1 : rest = [] := by
        cases rest with
        | nil => rfl
        | cons piece rest1 =>
          exfalso
          have hp : 0 < piece.length := List.length_pos.mpr (hne piece (List.mem_cons_self _ _))
          simp only [List.flatten_cons, List.length_append] at htot
          omega
      subst h1
      refine ⟨_, rfl, ?_, rfl, ?_, rfl, rfl, h0, hs, hcv, ha, rfl⟩
      · simp [h0]
      · rw [hu]; rfl

/-- A step of the closing phase keeps the link in the closing phase. -/
theorem closing_step (conv : Nat) (auth : internet.AuthenticatorChain) (hi : auth.Inverse)
    (hc : conv < 2 ^ 32) (link link1 : Link) (op : Op) (o : Observation)
    (cClosed sClosed tu td : Bool) (hop : op.IsClosing = true)
    (hstep : step link op = some (link1, o))
    (h : link.InClosing conv auth cClosed sClosed tu td) :
    ∃ tu1 td1, link1.InClosing conv auth (cClosed || decide (op = .clientClose))
      (sClosed || decide (op = .serverClose)) tu1 td1 := by
  obtain ⟨hcc, hca, hcn, hsc, hsa, hsn, hcs, hss, hu, hd, htu, htd⟩ := h
  cases op with
  | clientWrite b => cases hop
  | serverRead n => cases hop
  | clientClose =>
    simp only [step, Option.some.injEq, Prod.mk.injEq] at hstep
    obtain ⟨h1, _⟩ := hstep
    subst h1
    cases cClosed
    · -- the first close of the client: its notice enters the pipe
      have htu0 : tu = false := by
        cases tu
        · rfl
        · exact absurd (htu rfl) (by decide)
      subst htu0
      refine ⟨true, td, ?_⟩
      cases sClosed <;> cases td <;>
        simp_all [Link.InClosing, Connection.Close, State.after, State.closed,
          Connection.datagram]
    · -- closing again does nothing
      refine ⟨tu, td, ?_⟩
      cases sClosed <;> cases td <;> cases tu <;>
        simp_all [Link.InClosing, Connection.Close, State.after, State.closed,
          Connection.datagram]
  | serverClose =>
    simp only [step, Option.some.injEq, Prod.mk.injEq] at hstep
    obtain ⟨h1, _⟩ := hstep
    subst h1
    cases sClosed
    · have htd0 : td = false := by
        cases td
        · rfl
        · exact absurd (htd rfl) (by decide)
      subst htd0
      refine ⟨tu, true, ?_⟩
      cases cClosed <;> cases tu <;>
        simp_all [Link.InClosing, Connection.Close, State.after, State.closed,
          Connection.datagram]
    · refine ⟨tu, td, ?_⟩
      cases cClosed <;> cases td <;> cases tu <;>
        simp_all [Link.InClosing, Connection.Close, State.after, State.closed,
          Connection.datagram]
  | fetchUp =>
    cases tu
    · simp [step, hu] at hstep
    · have hin := Input_terminate link.connServer link.connClient.sendingNext
        (by rw [hsa]; exact hi) (by rw [hsc]; exact hc) hcn
      rw [hsa, hsc] at hin
      simp only [step, hu, if_true, Option.some.injEq, Prod.mk.injEq, hin] at hstep
      obtain ⟨h1, _⟩ := hstep
      subst h1
      have hcl : cClosed = true := htu rfl
      subst hcl
      refine ⟨false, td, ?_⟩
      cases sClosed <;> cases td <;>
        simp_all [Link.InClosing, State.after, State.peerClosed]
  | fetchDown =>
    cases td
    · simp [step, hd] at hstep
    · have hin := Input_terminate link.connClient link.connServer.sendingNext
        (by rw [hca]; exact hi) (by rw [hcc]; exact hc) hsn
      rw [hca, hcc] at hin
      simp only [step, hd, if_true, Option.some.injEq, Prod.mk.injEq, hin] at hstep
      obtain ⟨h1, _⟩ := hstep
      subst h1
      have hcl : sClosed = true := htd rfl
      subst hcl
      refine ⟨tu, false, ?_⟩
      cases cClosed <;> cases tu <;>
        simp_all [Link.InClosing, State.after, State.peerClosed]

/-- A schedule of closing steps keeps the link in the closing phase, with the
closes it holds taken. -/
theorem closing_run (conv : Nat) (auth : internet.AuthenticatorChain) (hi : auth.Inverse)
    (hc : conv < 2 ^ 32) :
    ∀ (ops : List Op) (link link1 : Link) (out : List Observation)
      (cClosed sClosed tu td : Bool),
      (∀ op ∈ ops, op.IsClosing = true) → run link ops = some (link1, out) →
      link.InClosing conv auth cClosed sClosed tu td →
      ∃ tu1 td1, link1.InClosing conv auth (cClosed || decide (Op.clientClose ∈ ops))
        (sClosed || decide (Op.serverClose ∈ ops)) tu1 td1 := by
  intro ops
  induction ops with
  | nil =>
    intro link link1 out cClosed sClosed tu td _ hrun h
    simp only [run, Option.some.injEq, Prod.mk.injEq] at hrun
    obtain ⟨h1, _⟩ := hrun
    subst h1
    exact ⟨tu, td, by simpa using h⟩
  | cons op ops ih =>
    intro link link1 out cClosed sClosed tu td hops hrun h
    simp only [run] at hrun
    cases hst : step link op with
    | none => simp [hst] at hrun
    | some p =>
      obtain ⟨link2, o⟩ := p
      simp only [hst] at hrun
      cases hr : run link2 ops with
      | none => simp [hr] at hrun
      | some q =>
        obtain ⟨link3, os⟩ := q
        simp only [hr, Option.some.injEq, Prod.mk.injEq] at hrun
        obtain ⟨h1, _⟩ := hrun
        subst h1
        obtain ⟨tu2, td2, h2⟩ := closing_step conv auth hi hc link link2 op o cClosed sClosed
          tu td (hops op (List.mem_cons_self _ _)) hst h
        obtain ⟨tu3, td3, h3⟩ := ih link2 link3 os _ _ tu2 td2
          (fun x hx => hops x (List.mem_cons_of_mem _ hx)) hr h2
        refine ⟨tu3, td3, ?_⟩
        have e1 : (cClosed || decide (op = Op.clientClose) || decide (Op.clientClose ∈ ops))
            = (cClosed || decide (Op.clientClose ∈ op :: ops)) := by
          by_cases h1 : op = Op.clientClose <;> by_cases h2 : Op.clientClose ∈ ops <;>
            simp [h1, h2, eq_comm]
        have e2 : (sClosed || decide (op = Op.serverClose) || decide (Op.serverClose ∈ ops))
            = (sClosed || decide (Op.serverClose ∈ op :: ops)) := by
          by_cases h1 : op = Op.serverClose <;> by_cases h2 : Op.serverClose ∈ ops <;>
            simp [h1, h2, eq_comm]
        rw [← e1, ← e2]
        exact h3

/-- Once every datagram of the closing phase is handed over, the state of each
connection is given by the closes alone. -/
theorem fetchAll_closing (conv : Nat) (auth : internet.AuthenticatorChain) (hi : auth.Inverse)
    (hc : conv < 2 ^ 32) (link : Link) (cClosed sClosed tu td : Bool)
    (h : link.InClosing conv auth cClosed sClosed tu td) :
    (fetchAll link).connClient.State = State.after cClosed sClosed
      ∧ (fetchAll link).connServer.State = State.after sClosed cClosed := by
  obtain ⟨hcc, hca, hcn, hsc, hsa, hsn, hcs, hss, hu, hd, htu, htd⟩ := h
  have hinS := Input_terminate link.connServer link.connClient.sendingNext
    (by rw [hsa]; exact hi) (by rw [hsc]; exact hc) hcn
  have hinC := Input_terminate link.connClient link.connServer.sendingNext
    (by rw [hca]; exact hi) (by rw [hcc]; exact hc) hsn
  rw [hsa, hsc] at hinS
  rw [hca, hcc] at hinC
  constructor
  · cases td
    · simp [fetchAll, Connection.State, hd, hcs]
    · have hs : sClosed = true := htd rfl
      subst hs
      simp only [fetchAll, Connection.State, hd, if_true, List.foldl_cons, List.foldl_nil, hinC,
        hcs]
      cases cClosed <;> rfl
  · cases tu
    · simp [fetchAll, Connection.State, hu, hss]
    · have hs : cClosed = true := htu rfl
      subst hs
      simp only [fetchAll, Connection.State, hu, if_true, List.foldl_cons, List.foldl_nil, hinS,
        hss]
      cases sClosed <;> rfl

theorem length_chunks_le (mss : Nat) (hm : 0 < mss) :
    ∀ (fuel : Nat) (b : List Nat), (chunks mss fuel b).length ≤ b.length := by
  intro fuel
  induction fuel with
  | zero => intro b; simp [chunks]
  | succ fuel ih =>
    intro b
    unfold chunks
    by_cases he : b = []
    · simp [he]
    · rw [if_neg he, List.length_cons]
      have h1 := ih (b.drop mss)
      have h2 : 0 < b.length := List.length_pos.mpr he
      rw [List.length_drop] at h1
      omega

/-- The write of the test on the freshly wired connections: every piece of `b`
is in the pipe towards the server. -/
theorem wire_write (conv : Nat) (auth : internet.AuthenticatorChain)
    (clientConfig serverConfig : Config) (b : List Nat) (hmtu : SegmentOverhead < clientConfig.Mtu) :
    ∃ written, step (wire conv auth clientConfig serverConfig) (.clientWrite b)
        = some (written, .wrote b.length none)
      ∧ written.InTransfer (conv % 2 ^ 32) auth 0
          (chunks (clientConfig.Mtu - SegmentOverhead) b.length b)
      ∧ written.connServer.received = [] ∧ written.connServer.sendingNext = 0
      ∧ written.down = []
      ∧ written.connClient.conv = conv % 2 ^ 32 ∧ written.connClient.auth = auth
      ∧ written.connClient.sendingNext < 2 ^ 32
      ∧ written.connClient.state = .StateActive := by
  have hmss0 : ¬ clientConfig.Mtu - SegmentOverhead = 0 := by omega
  refine ⟨⟨{ NewConnection conv auth clientConfig with
              sendingNext := (0 + (chunks (clientConfig.Mtu - SegmentOverhead)
                b.length b).length) % 2 ^ 32 },
            NewConnection conv auth serverConfig,
            datagrams (conv % 2 ^ 32) auth 0
              (chunks (clientConfig.Mtu - SegmentOverhead) b.length b), []⟩,
    ?_, ⟨rfl, rfl, rfl, rfl, rfl⟩, rfl, rfl, rfl, rfl, rfl, Nat.mod_lt _ (by decide), rfl⟩
  simp [step, wire, Connection.Write, NewConnection, Connection.mss, hmss0, datagrams,
    Connection.datagram]

theorem headerAuthenticator_inverse (header : Nat × Nat × Nat × Nat) (payload : List Nat) :
    (internet.headerAuthenticator header).Open
        ((internet.headerAuthenticator header).Seal payload)
      = some payload := rfl

theorem checksumAuthenticator_inverse (payload : List Nat) :
    internet.checksumAuthenticator.Open (internet.checksumAuthenticator.Seal payload)
      = some payload := by
  simp [internet.checksumAuthenticator]

end kcp

/-! ## Claims about the KCP connection -/

/-- C21: two KCP connections are wired to each other with the same conversation
id and the same authenticator chain (each authenticator opening what it seals),
and the bytes `B` are written to the client, whose MTU leaves room for payload.
The write returns `len(B)` and no error. Whatever the order of fetches and reads,
no read of the server returns an error and the bytes the reads returned so far
are a prefix of `B`: once the pipe and the server's buffer are empty, they are
`B`. The read loop of the test ends and has received exactly `B`; and after both
sides have closed, in any order and with the fetches interleaved anyhow, both
connections are in the state `Terminated` as soon as the pipes are empty. -/
theorem kcp_write_read (conv : Nat) (auth : internet.AuthenticatorChain)
    (clientConfig serverConfig : kcp.Config) (B : List Nat) (hauth : auth.Inverse)
    (hmtu : kcp.SegmentOverhead < clientConfig.Mtu) :
    ∃ written,
      kcp.step (kcp.wire conv auth clientConfig serverConfig) (.clientWrite B)
          = some (written, .wrote B.length none)
      ∧ (∀ ops link out, (∀ op ∈ ops, op.IsTransfer = true) →
          kcp.run written ops = some (link, out) →
          kcp.noError out = true ∧ kcp.readBytes out <+: B
            ∧ (link.up = [] → link.connServer.received = [] → kcp.readBytes out = B))
      ∧ ∀ fuel, 2 * B.length < fuel →
          ∃ r, kcp.readLoop fuel written B.length [] true = some r
            ∧ r.serverReceived = B ∧ r.errIsNil = true
            ∧ (∃ link out, kcp.run r.link [.clientClose, .serverClose] = some (link, out))
            ∧ ∀ ops link out, (∀ op ∈ ops, op.IsClosing = true) →
                kcp.Op.clientClose ∈ ops → kcp.Op.serverClose ∈ ops →
                kcp.run r.link ops = some (link, out) →
                (kcp.fetchAll link).connClient.State = .StateTerminated
                  ∧ (kcp.fetchAll link).connServer.State = .StateTerminated := by
  have hc : conv % 2 ^ 32 < 2 ^ 32 := Nat.mod_lt _ (by decide)
  have hmss : 0 < clientConfig.Mtu - kcp.SegmentOverhead := by omega
  have hmss0 : ¬ clientConfig.Mtu - kcp.SegmentOverhead = 0 := by omega
  have hflat := kcp.flatten_chunks _ hmss B.length B (le_refl _)
  have hne := kcp.chunks_ne_nil _ hmss B.length B
  have hlen := kcp.length_chunks_le _ hmss B.length B
  obtain ⟨written, hw, hin0, hrec, hsn, hdown, hcc, hca, hcn, hcs⟩ :=
    kcp.wire_write conv auth clientConfig serverConfig B hmtu
  refine ⟨written, hw, ?_, ?_⟩
  · intro ops link out hops hrun
    obtain ⟨k1, rest1, hin, heq, hno⟩ := kcp.transfer_run (conv % 2 ^ 32) auth hauth hc ops
      written link out 0 _ hops hrun hin0
    rw [hrec, List.nil_append, hflat] at heq
    refine ⟨hno, ⟨_, heq.symm⟩, ?_⟩
    intro hu hr
    have h1 : rest1 = [] := kcp.datagrams_eq_nil _ _ _ _ (hin.2.2.2.2.symm.trans hu)
    rw [heq, hr, h1]
    simp
  · intro fuel hfuel
    obtain ⟨r, hr1, hr2, hr3, hr4, hr5, hr6, hr7, hr8, hr9, hr10, hr11⟩ :=
      kcp.readLoop_transfer (conv % 2 ^ 32) auth hauth hc fuel written 0 _ [] true B.length
        hin0 hne
        (by rw [hrec, hflat]; simp)
        (by simp only [List.length_nil]; omega)
    simp only [hrec, List.nil_append, List.append_nil, hflat] at hr2
    have hclosing : r.link.InClosing (conv % 2 ^ 32) auth false false false false := by
      refine ⟨?_, ?_, ?_, hr9, hr10, ?_, ?_, ?_, ?_, ?_, by decide, by decide⟩
      · rw [hr6]; exact hcc
      · rw [hr6]; exact hca
      · rw [hr6]; exact hcn
      · rw [hr11, hsn]; decide
      · rw [hr6]; exact hcs
      · rw [hr8]; rfl
      · rw [hr4]; rfl
      · rw [hr5, hdown]; rfl
    refine ⟨r, hr1, hr2, hr3, ?_, ?_⟩
    · simp [kcp.run, kcp.step]
    · intro ops link out hops hcl hsv hrun
      obtain ⟨tu1, td1, h1⟩ := kcp.closing_run (conv % 2 ^ 32) auth hauth hc ops r.link link out
        false false false false hops hrun hclosing
      have h2 := kcp.fetchAll_closing (conv % 2 ^ 32) auth hauth hc link _ _ tu1 td1 h1
      simpa [hcl, hsv, kcp.State.after] using h2

/-- Witness of C21: conversation 1, a chain of a header authenticator and a
checksum authenticator, MTU 1350, and the five bytes of `hello`. -/
theorem kcp_write_read_witness :
    ∃ written,
      kcp.step (kcp.wire 1
          (internet.NewAuthenticatorChain
            [internet.headerAuthenticator (181, 232, 0, 0), internet.checksumAuthenticator])
          ⟨1350⟩ ⟨1350⟩) (.clientWrite [104, 101, 108, 108, 111])
          = some (written, .wrote 5 none)
      ∧ ∃ r, kcp.readLoop 11 written 5 [] true = some r
          ∧ r.serverReceived = [104, 101, 108, 108, 111] ∧ r.errIsNil = true :=
  let ⟨written, h1, _, h3⟩ := kcp_write_read 1
    (internet.NewAuthenticatorChain
      [internet.headerAuthenticator (181, 232, 0, 0), internet.checksumAuthenticator])
    ⟨1350⟩ ⟨1350⟩ [104, 101, 108, 108, 111]
    (by
      intro auth ha payload
      simp only [internet.NewAuthenticatorChain, List.mem_cons, List.mem_singleton,
        List.not_mem_nil, or_false] at ha
      rcases ha with ha | ha
      · rw [ha]; exact kcp.headerAuthenticator_inverse _ payload
      · rw [ha]; exact kcp.checksumAuthenticator_inverse payload)
    (by decide)
  let ⟨r, h4, h5, h6, _⟩ := h3 11 (by decide)
  ⟨written, h1, r, h4, h5, h6⟩

end V2Ray
